import Mathlib

/-!
# canvas_dijkstra: the grid search of `src/js/simulation.js`

A shallow embedding of the Alpine component `simulation` and a verification of its
search (`dijkstras`, `dijkstras_visualization`) and of its event handlers.

JavaScript objects have identity.  The objects a search can touch are the node held in
`startNode` (created by `new GridNode(col, row)` in `handleCanvasClick`, so it is *not* a
cell of the grid) and the cells of `grid`.  A reference to one of them is a `NodeRef`;
`prev` fields hold such references.  Drawing on the canvas is not modelled, except that
the nodes drawn by the path reconstruction are recorded in `Report.drawn`.
-/

namespace CanvasDijkstra

/-! ## Data model -/

/-- A reference to a node object: the object in `startNode`, or the grid cell stored at
`(row, col)`. -/
inductive NodeRef where
  | startRef : NodeRef
  | cellRef (row col : Nat) : NodeRef
deriving DecidableEq, Repr

/-- Modelled from the spec: class `GridNode` of `classes.js` (not among the sources).  The
fields are the ones `simulation.js` reads and writes: `x` (column), `y` (row), `isWall`,
`visited`, `prev`. -/
structure GridNode where
  x : Nat
  y : Nat
  isWall : Bool
  visited : Bool
  prev : Option NodeRef
deriving DecidableEq, Repr

/-- Modelled from the spec: the constructor `new GridNode(x, y)` of `classes.js`: a
non-wall, unvisited node without predecessor. -/
def GridNode.new (x y : Nat) : GridNode :=
  { x := x, y := y, isWall := false, visited := false, prev := none }

/-- Modelled from the spec: `GridNode.isEqual` of `classes.js`, equality of coordinates
(the end node is never a cell of the grid, so it can only be recognised by position). -/
def GridNode.isEqual (a b : GridNode) : Bool :=
  a.x == b.x && a.y == b.y

/-- Modelled from the spec: class `Grid` of `classes.js`: its dimensions and a mapping from
`(row, col)` to the cell stored there. -/
structure Grid where
  rows : Nat
  cols : Nat
  nodes : Nat → Nat → GridNode

/-- Modelled from the spec: `Grid.initialize(size)` of `classes.js`: a `size × size` grid
whose cells are non-wall, unvisited and without predecessor. -/
def Grid.initialize (size : Nat) : Grid :=
  { rows := size, cols := size, nodes := fun row col => GridNode.new col row }

/-- Modelled from the spec: `grid.getNode(row, col)` of `classes.js`. -/
def Grid.getNode (g : Grid) (row col : Nat) : GridNode :=
  g.nodes row col

/-- Replace the cell stored at `(row, col)`; this is how a field assignment on a grid cell
is written. -/
def Grid.setNode (g : Grid) (row col : Nat) (n : GridNode) : Grid :=
  { g with nodes := fun r c => if r = row ∧ c = col then n else g.nodes r c }

/-- Modelled from the spec: `grid.getNeighbors(row, col)` of `classes.js`: the cells
directly above, below, left and right of `(row, col)`, in this order, without those that
fall outside the grid.  A cell is given by its `(row, col)`. -/
def Grid.getNeighbors (g : Grid) (row col : Nat) : List (Nat × Nat) :=
  ((if 0 < row then [(row - 1, col)] else []) ++ [(row + 1, col)] ++
    (if 0 < col then [(row, col - 1)] else []) ++ [(row, col + 1)]).filter
    (fun p => decide (p.1 < g.rows) && decide (p.2 < g.cols))

/-- The data of the Alpine component `simulation` (lines 10-24). -/
structure Simulation where
  isDrawingWalls : Bool
  shouldVisualize : Bool
  startNode : Option GridNode
  endNode : Option GridNode
  grid : Grid

/-! ## The search -/

/-- The objects a running search works on: the two endpoint objects, the grid, and the
local array `unvisited` (the frontier).  `dequeued` is a history variable, not read by
the code: the results of `unvisited.shift()` so far, oldest first. -/
structure Search where
  startNode : GridNode
  endNode : GridNode
  grid : Grid
  unvisited : List NodeRef
  dequeued : List NodeRef

/-- Dereference. -/
def Search.node (s : Search) : NodeRef → GridNode
  | .startRef => s.startNode
  | .cellRef row col => s.grid.nodes row col

/-- Overwrite the object behind a reference. -/
def Search.setNode (s : Search) : NodeRef → GridNode → Search
  | .startRef, n => { s with startNode := n }
  | .cellRef row col, n => { s with grid := s.grid.setNode row col n }

/-- How a run ended: normally, with an uncaught `TypeError` (a property read on `null` or
`undefined`), or, in the model only, with the fuel used up. -/
inductive Completion where
  | normal
  | typeError
  | outOfFuel
deriving DecidableEq, Repr

/-- What a run of the search leaves behind besides the node fields: the local
`foundValidPath`, whether `alert("No valid path was found!")` was raised, the nodes drawn
by the path reconstruction (in drawing order) and how the run ended. -/
structure Report where
  foundValidPath : Bool
  alerted : Bool
  drawn : List NodeRef
  completion : Completion
deriving DecidableEq, Repr

/-- Lines 120-123 and 163-166: `while (temp.prev) { temp.draw(..); temp = temp.prev; }`.
The result lists the nodes drawn; `none` when `fuel` iterations do not reach a node
without `prev`. -/
def walkPrev (s : Search) : Nat → NodeRef → Option (List NodeRef)
  | 0, _ => none
  | fuel + 1, temp =>
    match (s.node temp).prev with
    | none => some []
    | some p => (walkPrev s fuel p).map (fun ds => temp :: ds)

/-- Lines 116-124 of `dijkstras`: the end was dequeued as `cur`.  `temp = temp.prev` is
taken once before the loop test, so `temp.prev` is read on `temp.prev`'s value even when
that is `null`. -/
def reconstruct (s : Search) (fuel : Nat) (cur : NodeRef) : Report :=
  match (s.node cur).prev with
  | none => { foundValidPath := true, alerted := false, drawn := [cur], completion := .typeError }
  | some t =>
    match walkPrev s fuel t with
    | none => { foundValidPath := true, alerted := false, drawn := [cur], completion := .outOfFuel }
    | some ds => { foundValidPath := true, alerted := false, drawn := cur :: ds, completion := .normal }

/-- Lines 132-135 (and 175-178): the body of `for (const neighborNode of ...)`. -/
def visitNeighbor (cur : NodeRef) (s : Search) (p : Nat × Nat) : Search :=
  let neighborNode := s.grid.nodes p.1 p.2
  if neighborNode.isWall || neighborNode.visited then s
  else
    { s with
      grid := s.grid.setNode p.1 p.2 { neighborNode with visited := true, prev := some cur }
      unvisited := s.unvisited ++ [NodeRef.cellRef p.1 p.2] }

/-- Lines 127-136 (and 170-179): expand the neighbours of the dequeued node `cur`. -/
def expand (cur : NodeRef) (s : Search) : Search :=
  (s.grid.getNeighbors (s.node cur).y (s.node cur).x).foldl (visitNeighbor cur) s

/-- Lines 108-109 (and 153-154): `unvisited.shift()` gave `cur`, the rest of the frontier
is `rest`; `currentNode.visited = true`. -/
def dequeue (s : Search) (cur : NodeRef) (rest : List NodeRef) : Search :=
  ({ s with unvisited := rest, dequeued := s.dequeued ++ [cur] }).setNode cur
    { s.node cur with visited := true }

/-- Lines 107-141 of `dijkstras`: the `while` loop and the final `alert`.  `fuel` bounds
the number of iterations, `wfuel` those of the inner `while (temp.prev)`. -/
def Search.loop (wfuel : Nat) : Nat → Search → Search × Report
  | 0, s => (s, { foundValidPath := false, alerted := false, drawn := [], completion := .outOfFuel })
  | fuel + 1, s =>
    match s.unvisited with
    | [] => (s, { foundValidPath := false, alerted := true, drawn := [], completion := .normal })
    | cur :: rest =>
      let s1 := dequeue s cur rest
      if (s1.node cur).x = s1.endNode.x ∧ (s1.node cur).y = s1.endNode.y then
        (s1, reconstruct s1 wfuel cur)
      else
        Search.loop wfuel fuel (expand cur s1)

/-- The search objects when the loop is entered (lines 104-105 and 147-148):
`this.startNode.visited = true; const unvisited = [this.startNode];`. -/
def Search.start (st en : GridNode) (g : Grid) : Search :=
  { startNode := { st with visited := true }, endNode := en, grid := g,
    unvisited := [NodeRef.startRef], dequeued := [] }

/-- What a call leaves behind: the component, the report, and the history of dequeued
nodes. -/
structure Run where
  sim : Simulation
  report : Report
  dequeued : List NodeRef

/-- A call that throws on its first property read of a `null` endpoint; `dequeued` is what
had been shifted off the frontier by then. -/
def Run.thrown (sim : Simulation) (dequeued : List NodeRef) : Run :=
  { sim := sim,
    report := { foundValidPath := false, alerted := false, drawn := [], completion := .typeError },
    dequeued := dequeued }

/-- Lines 102-142, `dijkstras()`.  A `null` `startNode` or `endNode` makes the first read
of one of its properties throw. -/
def dijkstras (fuel : Nat) (sim : Simulation) : Run :=
  match sim.startNode with
  | none => Run.thrown sim []
  | some st =>
    match sim.endNode with
    | none =>
      Run.thrown { sim with startNode := some { st with visited := true } } [NodeRef.startRef]
    | some en =>
      let r := Search.loop fuel fuel (Search.start st en sim.grid)
      { sim := { sim with startNode := some r.1.startNode, grid := r.1.grid },
        report := r.2, dequeued := r.1.dequeued }

/-- The state of a step-wise run between two animation frames: the search objects, the
closure variable `foundValidPath`, whether `update` is scheduled for the next frame, and
what has been reported so far. -/
structure Viz where
  search : Search
  scheduled : Bool
  report : Report

/-- Lines 152-189, one call of `update`. -/
def update (wfuel : Nat) (v : Viz) : Viz :=
  match v.search.unvisited with
  | [] => { v with scheduled := false, report := { v.report with completion := .typeError } }
  | cur :: rest =>
    let s1 := dequeue v.search cur rest
    if (s1.node cur).isEqual s1.endNode then
      match walkPrev s1 wfuel cur with
      | none =>
        { search := s1, scheduled := false,
          report := { foundValidPath := true, alerted := false, drawn := [], completion := .outOfFuel } }
      | some ds =>
        { search := expand cur s1, scheduled := false,
          report := { foundValidPath := true, alerted := false, drawn := ds, completion := .normal } }
    else
      let s2 := expand cur s1
      if s2.unvisited.isEmpty then
        { search := s2, scheduled := false,
          report := { foundValidPath := false, alerted := true, drawn := [], completion := .normal } }
      else
        { search := s2, scheduled := true, report := v.report }

/-- The animation frames: `update` runs as long as it has been scheduled. -/
def frames (wfuel : Nat) : Nat → Viz → Viz
  | 0, v =>
    if v.scheduled then { v with report := { v.report with completion := .outOfFuel } } else v
  | fuel + 1, v => if v.scheduled then frames wfuel fuel (update wfuel v) else v

/-- The report while nothing has been found or alerted. -/
def Report.none : Report :=
  { foundValidPath := false, alerted := false, drawn := [], completion := .normal }

/-- Lines 145-150 and 190: the closure state when `dijkstras_visualization` returns, with
the first `update` scheduled. -/
def Viz.start (st en : GridNode) (g : Grid) : Viz :=
  { search := Search.start st en g, scheduled := true, report := Report.none }

/-- Lines 144-191, `dijkstras_visualization()` followed by all the frames it schedules. -/
def dijkstras_visualization (fuel : Nat) (sim : Simulation) : Run :=
  match sim.startNode with
  | none => Run.thrown sim []
  | some st =>
    match sim.endNode with
    | none =>
      Run.thrown { sim with startNode := some { st with visited := true } } [NodeRef.startRef]
    | some en =>
      let v := frames fuel fuel (Viz.start st en sim.grid)
      { sim := { sim with startNode := some v.search.startNode, grid := v.search.grid },
        report := v.report, dequeued := v.search.dequeued }

/-- Dereference in the component: `startRef` is whatever `startNode` holds. -/
def Simulation.node (sim : Simulation) : NodeRef → Option GridNode
  | .startRef => sim.startNode
  | .cellRef row col => some (sim.grid.nodes row col)

/-! ## The event handlers -/

/-- What `tryStartDijkstra` did. -/
inductive Started where
  | warned
  | ranDijkstras (report : Report)
  | ranVisualization (report : Report)
deriving DecidableEq, Repr

/-- Lines 46-57, `tryStartDijkstra()`. -/
def tryStartDijkstra (fuel : Nat) (sim : Simulation) : Simulation × Started :=
  if sim.startNode.isNone || sim.endNode.isNone then
    (sim, .warned)
  else if sim.shouldVisualize then
    ((dijkstras_visualization fuel sim).sim, .ranVisualization (dijkstras_visualization fuel sim).report)
  else
    ((dijkstras fuel sim).sim, .ranDijkstras (dijkstras fuel sim).report)

/-- Lines 26-29, `initialize()`; `size` is the constant `GRID_ROWS_COLS_LENGTH` of
`constants.js` (not among the sources). -/
def Simulation.initialize (size : Nat) (sim : Simulation) : Simulation :=
  { sim with grid := Grid.initialize size }

/-- Lines 34-39, `reset()`. -/
def reset (size : Nat) (sim : Simulation) : Simulation :=
  { sim with startNode := none, endNode := none, grid := Grid.initialize size }

/-- Lines 62-68, `handleCanvasDrawWall(event)`; `(row, col)` is what
`indicesFromCoordinates` returns for the event. -/
def handleCanvasDrawWall (row col : Nat) (sim : Simulation) : Simulation :=
  if sim.startNode.isNone || sim.endNode.isNone || !sim.isDrawingWalls then sim
  else { sim with grid := sim.grid.setNode row col { sim.grid.getNode row col with isWall := true } }

/-- Lines 76-100, `handleCanvasClick(event)`; `(row, col)` is what
`indicesFromCoordinates` returns for the event. -/
def handleCanvasClick (row col : Nat) (sim : Simulation) : Simulation :=
  if sim.startNode.isNone then { sim with startNode := some (GridNode.new col row) }
  else if sim.endNode.isNone then { sim with endNode := some (GridNode.new col row) }
  else if (sim.grid.getNode row col).isWall then
    { sim with grid := sim.grid.setNode row col { sim.grid.getNode row col with isWall := false } }
  else
    { sim with grid := sim.grid.setNode row col { sim.grid.getNode row col with isWall := true } }

/-- The component as declared on lines 10-24, after `initialize()`. -/
def Simulation.init (size : Nat) : Simulation :=
  Simulation.initialize size
    { isDrawingWalls := false, shouldVisualize := true, startNode := none, endNode := none,
      grid := { rows := 0, cols := 0, nodes := fun row col => GridNode.new col row } }

/-! ## Notions used in the statements and proofs -/

/-- Two positions `(row, col)` one step apart: up, down, left or right. -/
def Adjacent (p q : Nat × Nat) : Prop :=
  (p.2 = q.2 ∧ (q.1 + 1 = p.1 ∨ p.1 + 1 = q.1)) ∨ (p.1 = q.1 ∧ (q.2 + 1 = p.2 ∨ p.2 + 1 = q.2))

instance (p q : Nat × Nat) : Decidable (Adjacent p q) := by
  unfold Adjacent; exact inferInstance

/-- The position `(row, col)` is a cell of the grid. -/
def Grid.InBounds (g : Grid) (p : Nat × Nat) : Prop :=
  p.1 < g.rows ∧ p.2 < g.cols

instance (g : Grid) (p : Nat × Nat) : Decidable (g.InBounds p) := by
  unfold Grid.InBounds; exact inferInstance

/-- `Route g start k p`: some route of exactly `k` moves leads from the position `start`
to the position `p`; every move goes one step up, down, left or right, and every cell
entered (every cell after the start) is a non-wall cell of the grid. -/
inductive Route (g : Grid) (start : Nat × Nat) : Nat → Nat × Nat → Prop where
  | here : Route g start 0 start
  | move {k : Nat} {p q : Nat × Nat} : Route g start k p → Adjacent p q → g.InBounds q →
      (g.nodes q.1 q.2).isWall = false → Route g start (k + 1) q

/-- Every cell of the grid carries its own coordinates (`x` the column, `y` the row). -/
def Grid.WellFormed (g : Grid) : Prop :=
  ∀ row col, row < g.rows → col < g.cols → (g.nodes row col).x = col ∧ (g.nodes row col).y = row

/-- No cell of the grid has been touched by a search: unvisited and without predecessor. -/
def Grid.Unsearched (g : Grid) : Prop :=
  ∀ row col, row < g.rows → col < g.cols →
    (g.nodes row col).visited = false ∧ (g.nodes row col).prev = none

/-- The position `(row, col)` of a node. -/
def GridNode.pos (n : GridNode) : Nat × Nat := (n.y, n.x)

/-- The test of line 132 lets the neighbour at `p` through: neither wall nor visited. -/
def Search.takes (s : Search) (p : Nat × Nat) : Bool :=
  !((s.grid.nodes p.1 p.2).isWall || (s.grid.nodes p.1 p.2).visited)

/-- `ref` has been discovered: it is the start node, or a visited cell of the grid. -/
def Search.Disc (s : Search) : NodeRef → Prop
  | .startRef => True
  | .cellRef row col => row < s.grid.rows ∧ col < s.grid.cols ∧ (s.grid.nodes row col).visited = true

/-- The cell at `p` is discovered by the expansion of `cur` out of the state `s`. -/
def Search.News (s : Search) (cur : NodeRef) (p : Nat × Nat) : Prop :=
  p ∈ s.grid.getNeighbors (s.node cur).y (s.node cur).x ∧ s.takes p = true

instance (s : Search) (cur : NodeRef) (p : Nat × Nat) : Decidable (s.News cur p) := by
  unfold Search.News; exact inferInstance

/-- The state `t` is what one iteration without the end test makes of `s`, whose frontier
is `cur :: rest` with `cur` discovered. -/
structure StepFrom (s t : Search) (cur : NodeRef) (rest : List NodeRef) : Prop where
  rows : t.grid.rows = s.grid.rows
  cols : t.grid.cols = s.grid.cols
  endNode : t.endNode = s.endNode
  start_pos : t.startNode.pos = s.startNode.pos
  start_prev : t.startNode.prev = s.startNode.prev
  nodes : ∀ r c, t.grid.nodes r c =
    if s.News cur (r, c) then { s.grid.nodes r c with visited := true, prev := some cur }
    else s.grid.nodes r c
  unvisited : t.unvisited =
    rest ++ ((s.grid.getNeighbors (s.node cur).y (s.node cur).x).filter s.takes).map
      (fun p => NodeRef.cellRef p.1 p.2)
  dequeued : t.dequeued = s.dequeued ++ [cur]

/-- The number of unvisited cells of the grid. -/
def Grid.unvisitedCount (g : Grid) : Nat :=
  ((Finset.range g.rows ×ˢ Finset.range g.cols).filter
    (fun p => (g.nodes p.1 p.2).visited = false)).card

/-- The invariant of the `while` loop on a search begun on an unsearched grid.  `lvl` is
a ghost labelling: the number of `prev` links from a discovered node back to the start. -/
structure Inv (lvl : NodeRef → Nat) (s : Search) : Prop where
  wf : s.grid.WellFormed
  start_prev : s.startNode.prev = none
  lvl_start : lvl NodeRef.startRef = 0
  queue_disc : ∀ ref ∈ s.unvisited, s.Disc ref
  visited_prev : ∀ r c, r < s.grid.rows → c < s.grid.cols → (s.grid.nodes r c).visited = true →
    (s.grid.nodes r c).isWall = false ∧
      ∃ u, (s.grid.nodes r c).prev = some u ∧ s.Disc u ∧ Adjacent (s.node u).pos (r, c) ∧
        lvl (NodeRef.cellRef r c) = lvl u + 1
  sorted : s.unvisited.Pairwise (fun a b => lvl a ≤ lvl b)
  near : ∀ h ∈ s.unvisited, ∀ u, s.Disc u → lvl u ≤ lvl h + 1
  expanded : ∀ u, s.Disc u → u ∉ s.unvisited → ∀ p : Nat × Nat, s.grid.InBounds p →
    Adjacent (s.node u).pos p → (s.grid.nodes p.1 p.2).isWall = false →
      (s.grid.nodes p.1 p.2).visited = true ∧ lvl (NodeRef.cellRef p.1 p.2) ≤ lvl u + 1
  not_end : ∀ u, s.Disc u → u ∉ s.unvisited → (s.node u).pos ≠ s.endNode.pos
  lvl_bound : ∀ u, s.Disc u → lvl u + s.grid.unvisitedCount ≤ s.grid.rows * s.grid.cols

/-- The ghost labelling after an iteration: the cells just discovered lie one link
beyond `cur`. -/
def stepLvl (lvl : NodeRef → Nat) (s : Search) (cur : NodeRef) : NodeRef → Nat
  | .startRef => lvl NodeRef.startRef
  | .cellRef r c => if s.News cur (r, c) then lvl cur + 1 else lvl (NodeRef.cellRef r c)

/-- What no iteration changes: the dimensions, the end node, the position of the start
node and the walls. -/
structure SameArena (s t : Search) : Prop where
  rows : t.grid.rows = s.grid.rows
  cols : t.grid.cols = s.grid.cols
  endNode : t.endNode = s.endNode
  start_pos : t.startNode.pos = s.startNode.pos
  isWall : ∀ r c, (t.grid.nodes r c).isWall = (s.grid.nodes r c).isWall

/-- `Steps s t`: the loop gets from `s` to `t` by iterations none of which dequeues a node
at the end position. -/
inductive Steps : Search → Search → Prop where
  | refl (s : Search) : Steps s s
  | step {s t : Search} {cur : NodeRef} {rest : List NodeRef} : s.unvisited = cur :: rest →
      (s.node cur).pos ≠ s.endNode.pos → Steps (expand cur (dequeue s cur rest)) t → Steps s t

/-- The loop stops in `s`: the frontier is empty, or the node at its head lies at the end
position. -/
def Search.Final (s : Search) : Prop :=
  s.unvisited = [] ∨ ∃ cur rest, s.unvisited = cur :: rest ∧ (s.node cur).pos = s.endNode.pos

/-- Every node on the frontier has been discovered. -/
def Search.QueueDisc (s : Search) : Prop :=
  ∀ ref ∈ s.unvisited, s.Disc ref

/-- The report of a run that empties the frontier: `alert("No valid path was found!")`. -/
def Report.exhausted : Report :=
  { foundValidPath := false, alerted := true, drawn := [], completion := .normal }

/-- `IsPrevChain node path`: each node of `path` has the next one as its `prev`, and the
last one has no `prev`; `node` dereferences. -/
def IsPrevChain (node : NodeRef → Option GridNode) : List NodeRef → Prop
  | [] => False
  | [a] => (node a).map (fun n => n.prev) = some none
  | a :: b :: rest =>
    (node a).map (fun n => n.prev) = some (some b) ∧ IsPrevChain node (b :: rest)

instance IsPrevChain.decide (node : NodeRef → Option GridNode) :
    (path : List NodeRef) → Decidable (IsPrevChain node path)
  | [] => isFalse (fun h => h)
  | [a] => inferInstanceAs (Decidable ((node a).map (fun n => n.prev) = some none))
  | a :: b :: rest =>
    have := IsPrevChain.decide node (b :: rest)
    inferInstanceAs (Decidable ((node a).map (fun n => n.prev) = some (some b) ∧
      IsPrevChain node (b :: rest)))

/-- The position of the object behind a reference, `start` being that of the start node. -/
def NodeRef.posIn (start : Nat × Nat) : NodeRef → Nat × Nat
  | .startRef => start
  | .cellRef row col => (row, col)

/-- Every reference in `ds` is a non-wall cell of the grid. -/
def Grid.OpenCells (g : Grid) (ds : List NodeRef) : Prop :=
  ∀ v ∈ ds, ∃ r c, v = NodeRef.cellRef r c ∧ r < g.rows ∧ c < g.cols ∧
    (g.nodes r c).isWall = false

/-- What the invariant says about the nodes `ds` that `walkPrev` passes from `u` on. -/
structure ChainFacts (s : Search) (lvl : NodeRef → Nat) (u : NodeRef) (ds : List NodeRef) :
    Prop where
  head : ∃ tl, ds ++ [NodeRef.startRef] = u :: tl
  chain : IsPrevChain (fun v => some (s.node v)) (ds ++ [NodeRef.startRef])
  cells : ∀ v ∈ ds, ∃ r c, v = NodeRef.cellRef r c ∧ r < s.grid.rows ∧ c < s.grid.cols ∧
    (s.grid.nodes r c).isWall = false ∧ (s.grid.nodes r c).visited = true
  adjacent : List.Chain' (fun a b => Adjacent (a.posIn s.startNode.pos) (b.posIn s.startNode.pos))
    (ds ++ [NodeRef.startRef])
  lvls : ∀ v ∈ ds, lvl v ≤ lvl u ∧ 0 < lvl v
  nodup : (ds ++ [NodeRef.startRef]).Nodup

/-- What holds of the node `cur` dequeued at the end position: `ds` are the nodes passed
by `while (temp.prev)` from `cur` on, so that `ds ++ [startRef]` is the predecessor chain
of `cur` in the state `final`. -/
structure ChainOf (g : Grid) (st en : GridNode) (final : Search) (cur : NodeRef)
    (ds : List NodeRef) : Prop where
  at_end : cur.posIn st.pos = en.pos
  head : ∃ tl, ds ++ [NodeRef.startRef] = cur :: tl
  chain : IsPrevChain (fun v => some (final.node v)) (ds ++ [NodeRef.startRef])
  cells : g.OpenCells ds
  adjacent : List.Chain' (fun a b => Adjacent (a.posIn st.pos) (b.posIn st.pos))
    (ds ++ [NodeRef.startRef])
  nodup : (ds ++ [NodeRef.startRef]).Nodup

/-- The chain `ds ++ [startRef]` has as many links as a shortest route from start to end
has moves. -/
structure Shortest (g : Grid) (st en : GridNode) (ds : List NodeRef) : Prop where
  route : Route g st.pos ds.length en.pos
  shortest : st.pos ≠ en.pos → ∀ k, Route g st.pos k en.pos → ds.length ≤ k

/-- What a run of `dijkstras` that dequeued a node at the end position leaves. -/
structure FoundFacts (g : Grid) (st en : GridNode) (final : Search) (rep : Report)
    (cur : NodeRef) (ds : List NodeRef) extends ChainOf g st en final cur ds : Prop where
  found : rep.foundValidPath = true
  alerted : rep.alerted = false
  normal : st.pos ≠ en.pos → rep.completion = Completion.normal ∧ rep.drawn = ds
  thrown : st.pos = en.pos →
    rep.completion = Completion.typeError ∧ ds = [] ∧ rep.drawn = [NodeRef.startRef]

/-- What a step-wise run that dequeued a node at the end position leaves. -/
structure VizFacts (g : Grid) (st en : GridNode) (final : Search) (rep : Report)
    (cur : NodeRef) (ds : List NodeRef) extends ChainOf g st en final cur ds : Prop where
  found : rep.foundValidPath = true
  alerted : rep.alerted = false
  normal : rep.completion = Completion.normal
  drawn : rep.drawn = ds
  at_start : st.pos = en.pos → ds = []

/-- The part of the loop invariant that needs no unsearched grid.  `D` is a ghost set: the
nodes discovered by this search; each cell in it has its predecessor in it, one link
nearer to the start. -/
structure CInv (D : NodeRef → Prop) (lvl : NodeRef → Nat) (s : Search) : Prop where
  wf : s.grid.WellFormed
  start_prev : s.startNode.prev = none
  lvl_start : lvl NodeRef.startRef = 0
  d_start : D NodeRef.startRef
  d_disc : ∀ u, D u → s.Disc u
  queue_d : ∀ ref ∈ s.unvisited, D ref
  d_prev : ∀ r c, D (NodeRef.cellRef r c) →
    (s.grid.nodes r c).isWall = false ∧
      ∃ u, (s.grid.nodes r c).prev = some u ∧ D u ∧ Adjacent (s.node u).pos (r, c) ∧
        lvl (NodeRef.cellRef r c) = lvl u + 1
  lvl_bound : ∀ u, D u → lvl u + s.grid.unvisitedCount ≤ s.grid.rows * s.grid.cols

/-- The ghost set after an iteration: the cells just discovered join it. -/
def stepD (D : NodeRef → Prop) (s : Search) (cur : NodeRef) : NodeRef → Prop :=
  fun u => D u ∨ ∃ p : Nat × Nat, s.News cur p ∧ u = NodeRef.cellRef p.1 p.2

/-- The state `s0` reached from the start of a search on a well-formed grid, unsearched or
not, in the terms of that start. -/
structure CReached (g : Grid) (st en : GridNode) (s0 : Search) : Prop where
  steps : Steps (Search.start st en g) s0
  cinv : ∃ D lvl, CInv D lvl s0
  arena : SameArena (Search.start st en g) s0

/-- The state `s0` reached from the start of a search on an unsearched grid, in the terms
of that start. -/
structure Reached (g : Grid) (st en : GridNode) (s0 : Search) : Prop where
  steps : Steps (Search.start st en g) s0
  inv : ∃ lvl, Inv lvl s0
  arena : SameArena (Search.start st en g) s0

/-- No search has touched the component: the grid is well formed and unsearched, and the
start node, when chosen, has no predecessor. -/
def Simulation.Fresh (sim : Simulation) : Prop :=
  sim.grid.WellFormed ∧ sim.grid.Unsearched ∧ ∀ st, sim.startNode = some st → st.prev = none

/-- Example: a 3 x 3 grid, start at (0, 0), end at (0, 2), then walls toggled on at
(0, 1) and (1, 1), so that the only way round leads through the bottom row. -/
def detourExample : Simulation :=
  handleCanvasClick 1 1 (handleCanvasClick 0 1 (handleCanvasClick 0 2
    (handleCanvasClick 0 0 (Simulation.init 3))))

/-- The example of C2: a 3 x 3 grid, start at (0, 0), end at (2, 0), the whole middle row
walled. -/
def walledExample : Simulation :=
  handleCanvasClick 1 2 (handleCanvasClick 1 1 (handleCanvasClick 1 0 (handleCanvasClick 2 0
    (handleCanvasClick 0 0 (Simulation.init 3)))))

/-- A 3 x 3 grid, start at (0, 0), end at (0, 1), and then a click on (0, 0) again, which
toggles the wall flag of the grid cell under the start node. -/
def startWallExample : Simulation :=
  handleCanvasClick 0 0 (handleCanvasClick 0 1 (handleCanvasClick 0 0 (Simulation.init 3)))

/-- The report of a step-wise run that dequeued the end and drew `ds`. -/
def Report.vizFound (ds : List NodeRef) : Report :=
  { foundValidPath := true, alerted := false, drawn := ds, completion := .normal }

/-- The walk along `prev` from the node `e` in what the run left: the run ended normally
(no property was read on a missing node, and the walk stopped); the nodes drawn, followed
by the start node, are the predecessor chain of `e`; no node occurs twice on it; it ends
at the start node, the only node on it without predecessor. -/
def PrevWalkOk (run : Run) (e : NodeRef) : Prop :=
  run.report.completion = Completion.normal ∧
    ∃ path : List NodeRef,
      run.report.drawn ++ [NodeRef.startRef] = e :: path ∧
        IsPrevChain run.sim.node (e :: path) ∧ (e :: path).Nodup ∧
        path.getLast? = some NodeRef.startRef ∧
        ∀ v ∈ e :: path, ((run.sim.node v).map (fun n => n.prev) = some none ↔
          v = NodeRef.startRef)

/-- The Manhattan distance `|p.row - q.row| + |p.col - q.col|`. -/
def manhattan (p q : Nat × Nat) : Nat :=
  (p.1 - q.1) + (q.1 - p.1) + ((p.2 - q.2) + (q.2 - p.2))

/-- No cell of the grid is a wall. -/
def Grid.NoWalls (g : Grid) : Prop :=
  ∀ row col, row < g.rows → col < g.cols → (g.nodes row col).isWall = false

/-- The example of C5: a 5 x 5 grid without walls, start at (0, 0), end at (4, 4). -/
def openExample : Simulation :=
  handleCanvasClick 4 4 (handleCanvasClick 0 0 (Simulation.init 5))

/-- The report of `dijkstras` when line 120 reads `prev` of a missing node: the flag is
set and the end node drawn, then the `TypeError`. -/
def Report.thrownAtStart : Report :=
  { foundValidPath := true, alerted := false, drawn := [NodeRef.startRef],
    completion := .typeError }

/-- Start and end both chosen at (1, 1) of a 3 x 3 grid: two clicks on the same cell. -/
def sameCellExample : Simulation :=
  handleCanvasClick 1 1 (handleCanvasClick 1 1 (Simulation.init 3))

/-- What the page can do to the component between two searches: clicks, wall drawing,
reset, and writes to the two flags. -/
inductive Edit where
  | click (row col : Nat)
  | drawWall (row col : Nat)
  | reset
  | setIsDrawingWalls (b : Bool)
  | setShouldVisualize (b : Bool)

/-- Apply one edit; `size` is `GRID_ROWS_COLS_LENGTH`. -/
def Edit.apply (size : Nat) (sim : Simulation) : Edit → Simulation
  | .click row col => handleCanvasClick row col sim
  | .drawWall row col => handleCanvasDrawWall row col sim
  | .reset => CanvasDijkstra.reset size sim
  | .setIsDrawingWalls b => { sim with isDrawingWalls := b }
  | .setShouldVisualize b => { sim with shouldVisualize := b }

/-- The component after `initialize()` and the edits, in order. -/
def Simulation.afterEdits (size : Nat) (edits : List Edit) : Simulation :=
  edits.foldl (Edit.apply size) (Simulation.init size)

/-- Around the start position every cell of the grid is a wall or visited. -/
def Grid.ClosedAround (g : Grid) (start : Nat × Nat) : Prop :=
  ∀ p ∈ g.getNeighbors start.1 start.2,
    (g.nodes p.1 p.2).isWall = true ∨ (g.nodes p.1 p.2).visited = true

/-- A 3 x 3 grid without walls, start at (0, 0), end at (0, 1). -/
def twoCellExample : Simulation :=
  Simulation.afterEdits 3 [Edit.click 0 0, Edit.click 0 1]

/-- The invariant of a search whose end position `e` holds a wall: no node at `e` is on
the frontier or has been dequeued. -/
structure WallAtEnd (start e : Nat × Nat) (s : Search) : Prop where
  wf : s.grid.WellFormed
  queue_disc : s.QueueDisc
  start_pos : s.startNode.pos = start
  end_pos : s.endNode.pos = e
  wall : (s.grid.nodes e.1 e.2).isWall = true
  queue : ∀ v ∈ s.unvisited, v.posIn start ≠ e
  dequeued : ∀ v ∈ s.dequeued, v.posIn start ≠ e

/-- A 3 x 3 grid, start at (0, 0), end at (2, 2), and then a click on (2, 2), which makes
the grid cell at the end position a wall. -/
def endWallExample : Simulation :=
  Simulation.afterEdits 3 [Edit.click 0 0, Edit.click 2 2, Edit.click 2 2]

/-! ## Notions for the history of the frontier, the frames and the handlers -/

/-- The nodes put on the frontier so far, in the order in which they were put there: those
dequeued, then those still waiting.  A node is marked visited right before it is put on
the frontier (lines 104-105 and 133-135), so this is also the order of the first marking. -/
def Search.visitOrder (s : Search) : List NodeRef :=
  s.dequeued ++ s.unvisited

/-- One move of a search: `unvisited.shift()` with the marking of line 109, or one pass
through the body of the `for` loop (lines 132-135) for a neighbour `p` of the node `cur`
dequeued last. -/
inductive Move : Search → Search → Prop where
  | shift {s : Search} {cur : NodeRef} {rest : List NodeRef} :
      s.unvisited = cur :: rest → Move s (dequeue s cur rest)
  | visit {s : Search} {cur : NodeRef} {p : Nat × Nat} : s.dequeued.getLast? = some cur →
      p ∈ s.grid.getNeighbors (s.node cur).y (s.node cur).x → Move s (visitNeighbor cur s p)

/-- `Point s0 s`: the search begun in `s0` can be in `s` after some moves. -/
inductive Point (s0 : Search) : Search → Prop where
  | start : Point s0 s0
  | next {s t : Search} : Point s0 s → Move s t → Point s0 t

/-- What holds of the frontier history in every search, on any grid: no node was put on
the frontier twice, and every cell put there lies in the grid and is marked visited. -/
structure Hist (s : Search) : Prop where
  nodup : s.visitOrder.Nodup
  cells : ∀ r c, NodeRef.cellRef r c ∈ s.visitOrder →
    r < s.grid.rows ∧ c < s.grid.cols ∧ (s.grid.nodes r c).visited = true

/-- What holds at every point of a search begun on an unsearched grid: the visited cells
are those put on the frontier, and a cell with a predecessor `u` was put there, from a
position next to `u`, after `u` had been dequeued. -/
structure Order (s : Search) : Prop where
  hist : Hist s
  wf : s.grid.WellFormed
  start_prev : s.startNode.prev = none
  visited : ∀ r c, r < s.grid.rows → c < s.grid.cols → (s.grid.nodes r c).visited = true →
    NodeRef.cellRef r c ∈ s.visitOrder
  prev : ∀ r c, r < s.grid.rows → c < s.grid.cols → ∀ u, (s.grid.nodes r c).prev = some u →
    u ∈ s.dequeued ∧ List.Sublist [u, NodeRef.cellRef r c] s.visitOrder ∧
      Adjacent (s.node u).pos (r, c)

/-- Every cell with a predecessor `u` lies one step from `u`, and `u` is a node marked
visited that had been dequeued, and so marked, before the cell was put on the frontier. -/
def Search.PrevOk (s : Search) : Prop :=
  ∀ r c, r < s.grid.rows → c < s.grid.cols → ∀ u, (s.grid.nodes r c).prev = some u →
    Adjacent (s.node u).pos (s.grid.nodes r c).pos ∧ s.Disc u ∧ u ∈ s.dequeued ∧
      List.Sublist [u, NodeRef.cellRef r c] s.visitOrder

/-- No move from `s` changes a predecessor that is set in `s`. -/
def Search.PrevKept (s : Search) : Prop :=
  ∀ t, Move s t → ∀ r c, r < s.grid.rows → c < s.grid.cols → ∀ u,
    (s.grid.nodes r c).prev = some u → (t.grid.nodes r c).prev = some u

/-- The endpoints come before the walls: an end node only with a start node, and a wall
only with both. -/
def Simulation.EndpointsFirst (sim : Simulation) : Prop :=
  (sim.endNode ≠ none → sim.startNode ≠ none) ∧
    ∀ r c, (sim.grid.nodes r c).isWall = true → sim.startNode ≠ none ∧ sim.endNode ≠ none

/-- What holds of a step-wise run between frames: `update` is scheduled only with a node
on the frontier and the end not found, and no `TypeError` has been raised. -/
structure Viz.Safe (v : Viz) : Prop where
  frontier : v.scheduled = true → v.search.unvisited ≠ []
  not_found : v.scheduled = true → v.report.foundValidPath = false
  no_error : v.report.completion ≠ Completion.typeError

/-! # Theorems -/

/-! ## Basic facts about the grid operations -/

theorem Grid.mem_getNeighbors (g : Grid) (row col : Nat) (p : Nat × Nat) :
    p ∈ g.getNeighbors row col ↔ g.InBounds p ∧ Adjacent (row, col) p := by
  obtain ⟨a, b⟩ := p
  unfold Grid.getNeighbors Grid.InBounds Adjacent
  simp only [List.mem_filter, List.mem_append, List.mem_singleton, Prod.mk.injEq,
    Bool.and_eq_true, decide_eq_true_eq]
  by_cases hr : 0 < row <;> by_cases hc : 0 < col <;>
    simp only [hr, hc, if_true, if_false, List.mem_singleton, List.not_mem_nil, Prod.mk.injEq,
      false_or, or_false] <;>
    constructor <;> intro h <;> omega

theorem Grid.nodup_getNeighbors (g : Grid) (row col : Nat) : (g.getNeighbors row col).Nodup := by
  unfold Grid.getNeighbors
  apply List.Nodup.filter
  by_cases hr : 0 < row <;> by_cases hc : 0 < col <;>
    simp [hr, hc]
  all_goals omega

theorem visitNeighbor_nodes (cur : NodeRef) (s : Search) (p : Nat × Nat) (r c : Nat) :
    (visitNeighbor cur s p).grid.nodes r c =
      if (r, c) = p ∧ s.takes p = true then
        { s.grid.nodes r c with visited := true, prev := some cur }
      else s.grid.nodes r c := by
  obtain ⟨a, b⟩ := p
  unfold visitNeighbor Search.takes
  by_cases h : ((s.grid.nodes a b).isWall || (s.grid.nodes a b).visited) = true
  · simp [h]
  · simp only [h, if_false, Grid.setNode, Prod.mk.injEq, Bool.not_eq_true, Bool.not_eq_true',
      Bool.not_eq_true] at h ⊢
    by_cases hrc : r = a ∧ c = b
    · obtain ⟨rfl, rfl⟩ := hrc
      simp [h]
    · simp [hrc]

theorem visitNeighbor_unvisited (cur : NodeRef) (s : Search) (p : Nat × Nat) :
    (visitNeighbor cur s p).unvisited =
      s.unvisited ++ (if s.takes p = true then [NodeRef.cellRef p.1 p.2] else []) := by
  unfold visitNeighbor Search.takes
  by_cases h : ((s.grid.nodes p.1 p.2).isWall || (s.grid.nodes p.1 p.2).visited) = true
  · simp [h]
  · simp [h]

theorem visitNeighbor_frame (cur : NodeRef) (s : Search) (p : Nat × Nat) :
    (visitNeighbor cur s p).startNode = s.startNode ∧ (visitNeighbor cur s p).endNode = s.endNode ∧
      (visitNeighbor cur s p).grid.rows = s.grid.rows ∧
      (visitNeighbor cur s p).grid.cols = s.grid.cols ∧
      (visitNeighbor cur s p).dequeued = s.dequeued := by
  unfold visitNeighbor
  by_cases h : ((s.grid.nodes p.1 p.2).isWall || (s.grid.nodes p.1 p.2).visited) = true
  · simp [h]
  · simp [h, Grid.setNode]

theorem foldl_visit_frame (cur : NodeRef) (ns : List (Nat × Nat)) (s : Search) :
    (ns.foldl (visitNeighbor cur) s).startNode = s.startNode ∧
      (ns.foldl (visitNeighbor cur) s).endNode = s.endNode ∧
      (ns.foldl (visitNeighbor cur) s).grid.rows = s.grid.rows ∧
      (ns.foldl (visitNeighbor cur) s).grid.cols = s.grid.cols ∧
      (ns.foldl (visitNeighbor cur) s).dequeued = s.dequeued := by
  induction ns generalizing s with
  | nil => simp
  | cons p ns ih =>
    have h1 := visitNeighbor_frame cur s p
    have h2 := ih (visitNeighbor cur s p)
    simp only [List.foldl_cons]
    refine ⟨h2.1.trans h1.1, h2.2.1.trans h1.2.1, h2.2.2.1.trans h1.2.2.1,
      h2.2.2.2.1.trans h1.2.2.2.1, h2.2.2.2.2.trans h1.2.2.2.2⟩

theorem foldl_visit_nodes (cur : NodeRef) (ns : List (Nat × Nat)) (s : Search)
    (hnd : ns.Nodup) (r c : Nat) :
    (ns.foldl (visitNeighbor cur) s).grid.nodes r c =
      if (r, c) ∈ ns ∧ s.takes (r, c) = true then
        { s.grid.nodes r c with visited := true, prev := some cur }
      else s.grid.nodes r c := by
  induction ns generalizing s with
  | nil => simp
  | cons p ns ih =>
    simp only [List.foldl_cons]
    rw [ih (visitNeighbor cur s p) (List.nodup_cons.mp hnd).2]
    have hp : p ∉ ns := (List.nodup_cons.mp hnd).1
    by_cases hrc : (r, c) = p
    · subst hrc
      simp only [hp, false_and, if_false, List.mem_cons, true_or, true_and]
      rw [visitNeighbor_nodes]
      simp
    · have hn : (visitNeighbor cur s p).grid.nodes r c = s.grid.nodes r c := by
        rw [visitNeighbor_nodes]; simp [hrc]
      have ht : (visitNeighbor cur s p).takes (r, c) = s.takes (r, c) := by
        simp only [Search.takes, hn]
      simp only [hn, ht, List.mem_cons, hrc, false_or]

theorem foldl_visit_unvisited (cur : NodeRef) (ns : List (Nat × Nat)) (s : Search)
    (hnd : ns.Nodup) :
    (ns.foldl (visitNeighbor cur) s).unvisited =
      s.unvisited ++ (ns.filter s.takes).map (fun p => NodeRef.cellRef p.1 p.2) := by
  induction ns generalizing s with
  | nil => simp
  | cons p ns ih =>
    simp only [List.foldl_cons]
    rw [ih (visitNeighbor cur s p) (List.nodup_cons.mp hnd).2, visitNeighbor_unvisited]
    have hp : p ∉ ns := (List.nodup_cons.mp hnd).1
    have hfilter : ns.filter (visitNeighbor cur s p).takes = ns.filter s.takes := by
      apply List.filter_congr
      intro q hq
      have hqp : (q.1, q.2) ≠ p := by
        intro h; apply hp; rw [← h]; exact hq
      simp only [Search.takes, visitNeighbor_nodes, hqp, false_and, if_false]
    rw [hfilter]
    by_cases ht : s.takes p = true
    · simp [ht, List.filter_cons]
    · simp [ht, List.filter_cons]

/-! ## Facts about `dequeue` and `expand` -/

theorem Grid.setNode_same (g : Grid) (row col : Nat) : g.setNode row col (g.nodes row col) = g := by
  cases g with
  | mk rows cols nodes =>
    simp only [Grid.setNode, Grid.mk.injEq, true_and]
    funext r c
    by_cases h : r = row ∧ c = col
    · obtain ⟨rfl, rfl⟩ := h; simp
    · simp [h]

theorem dequeue_frame (s : Search) (cur : NodeRef) (rest : List NodeRef) :
    (dequeue s cur rest).unvisited = rest ∧ (dequeue s cur rest).endNode = s.endNode ∧
      (dequeue s cur rest).grid.rows = s.grid.rows ∧ (dequeue s cur rest).grid.cols = s.grid.cols ∧
      (dequeue s cur rest).dequeued = s.dequeued ++ [cur] ∧
      (dequeue s cur rest).startNode.pos = s.startNode.pos ∧
      (dequeue s cur rest).startNode.prev = s.startNode.prev := by
  cases cur with
  | startRef => simp [dequeue, Search.setNode, Search.node, GridNode.pos]
  | cellRef row col => simp [dequeue, Search.setNode, Search.node, Grid.setNode]

theorem dequeue_grid (s : Search) (cur : NodeRef) (rest : List NodeRef) (h : s.Disc cur) :
    (dequeue s cur rest).grid = s.grid := by
  cases cur with
  | startRef => simp [dequeue, Search.setNode]
  | cellRef row col =>
    have hv : (s.grid.nodes row col).visited = true := h.2.2
    have hn : ({ s.grid.nodes row col with visited := true } : GridNode) = s.grid.nodes row col := by
      cases hnode : s.grid.nodes row col with
      | mk x y w v p => rw [hnode] at hv; simp only at hv; subst hv; rfl
    simp only [dequeue, Search.setNode, Search.node, hn]
    exact Grid.setNode_same s.grid row col

theorem dequeue_node_pos (s : Search) (cur : NodeRef) (rest : List NodeRef) (u : NodeRef) :
    ((dequeue s cur rest).node u).pos = (s.node u).pos := by
  cases cur with
  | startRef => cases u <;> simp [dequeue, Search.setNode, Search.node, GridNode.pos]
  | cellRef row col =>
    cases u with
    | startRef => simp [dequeue, Search.setNode, Search.node, GridNode.pos]
    | cellRef r c =>
      simp only [dequeue, Search.setNode, Search.node, Grid.setNode, GridNode.pos]
      by_cases h : r = row ∧ c = col
      · obtain ⟨rfl, rfl⟩ := h; simp
      · simp [h]

theorem stepFrom_expand (s : Search) (cur : NodeRef) (rest : List NodeRef) (h : s.Disc cur) :
    StepFrom s (expand cur (dequeue s cur rest)) cur rest := by
  have hf := dequeue_frame s cur rest
  have hg := dequeue_grid s cur rest h
  have hp := dequeue_node_pos s cur rest cur
  have hy : ((dequeue s cur rest).node cur).y = (s.node cur).y := congrArg Prod.fst hp
  have hx : ((dequeue s cur rest).node cur).x = (s.node cur).x := congrArg Prod.snd hp
  have hfr := foldl_visit_frame cur
    ((dequeue s cur rest).grid.getNeighbors ((dequeue s cur rest).node cur).y
      ((dequeue s cur rest).node cur).x) (dequeue s cur rest)
  have htakes : (dequeue s cur rest).takes = s.takes := by
    funext p; simp only [Search.takes, hg]
  refine ⟨?_, ?_, ?_, ?_, ?_, ?_, ?_, ?_⟩
  · unfold expand; rw [hfr.2.2.1, hf.2.2.1]
  · unfold expand; rw [hfr.2.2.2.1, hf.2.2.2.1]
  · unfold expand; rw [hfr.2.1, hf.2.1]
  · unfold expand; rw [hfr.1, hf.2.2.2.2.2.1]
  · unfold expand; rw [hfr.1, hf.2.2.2.2.2.2]
  · intro r c
    unfold expand
    rw [foldl_visit_nodes cur _ _ (Grid.nodup_getNeighbors _ _ _), htakes, hx, hy, hg]
    rfl
  · unfold expand
    rw [foldl_visit_unvisited cur _ _ (Grid.nodup_getNeighbors _ _ _), htakes, hx, hy, hg, hf.1]
  · unfold expand; rw [hfr.2.2.2.2, hf.2.2.2.2.1]

/-! ## The invariant of the search loop -/

theorem Search.News.spec {s : Search} {cur : NodeRef} {p : Nat × Nat} (h : s.News cur p) :
    s.grid.InBounds p ∧ Adjacent (s.node cur).pos p ∧ (s.grid.nodes p.1 p.2).isWall = false ∧
      (s.grid.nodes p.1 p.2).visited = false := by
  obtain ⟨h1, h2⟩ := h
  rw [Grid.mem_getNeighbors] at h1
  simp only [Search.takes, Bool.not_eq_true', Bool.or_eq_false_iff] at h2
  exact ⟨h1.1, h1.2, h2.1, h2.2⟩

theorem Search.news_of {s : Search} {cur : NodeRef} {p : Nat × Nat} (hb : s.grid.InBounds p)
    (ha : Adjacent (s.node cur).pos p) (hw : (s.grid.nodes p.1 p.2).isWall = false)
    (hv : (s.grid.nodes p.1 p.2).visited = false) : s.News cur p := by
  refine ⟨(Grid.mem_getNeighbors _ _ _ _).mpr ⟨hb, ha⟩, ?_⟩
  simp [Search.takes, hw, hv]

theorem StepFrom.visited_iff {s t : Search} {cur : NodeRef} {rest : List NodeRef}
    (h : StepFrom s t cur rest) (r c : Nat) :
    (t.grid.nodes r c).visited = true ↔ s.News cur (r, c) ∨ (s.grid.nodes r c).visited = true := by
  rw [h.nodes r c]
  by_cases hn : s.News cur (r, c)
  · simp [hn]
  · simp [hn]

theorem StepFrom.isWall_eq {s t : Search} {cur : NodeRef} {rest : List NodeRef}
    (h : StepFrom s t cur rest) (r c : Nat) :
    (t.grid.nodes r c).isWall = (s.grid.nodes r c).isWall := by
  rw [h.nodes r c]
  by_cases hn : s.News cur (r, c)
  · simp [hn]
  · simp [hn]

theorem StepFrom.pos_eq {s t : Search} {cur : NodeRef} {rest : List NodeRef}
    (h : StepFrom s t cur rest) (r c : Nat) :
    (t.grid.nodes r c).pos = (s.grid.nodes r c).pos := by
  rw [h.nodes r c]
  by_cases hn : s.News cur (r, c)
  · simp [hn, GridNode.pos]
  · simp [hn]

theorem StepFrom.node_pos {s t : Search} {cur : NodeRef} {rest : List NodeRef}
    (h : StepFrom s t cur rest) (u : NodeRef) : (t.node u).pos = (s.node u).pos := by
  cases u with
  | startRef => exact h.start_pos
  | cellRef r c => exact h.pos_eq r c

theorem StepFrom.prev_of_news {s t : Search} {cur : NodeRef} {rest : List NodeRef}
    (h : StepFrom s t cur rest) {r c : Nat} (hn : s.News cur (r, c)) :
    (t.grid.nodes r c).prev = some cur := by
  rw [h.nodes r c]; simp [hn]

theorem StepFrom.prev_of_not_news {s t : Search} {cur : NodeRef} {rest : List NodeRef}
    (h : StepFrom s t cur rest) {r c : Nat} (hn : ¬ s.News cur (r, c)) :
    (t.grid.nodes r c).prev = (s.grid.nodes r c).prev := by
  rw [h.nodes r c]; simp [hn]

theorem StepFrom.disc_mono {s t : Search} {cur : NodeRef} {rest : List NodeRef}
    (h : StepFrom s t cur rest) {u : NodeRef} (hu : s.Disc u) : t.Disc u := by
  cases u with
  | startRef => trivial
  | cellRef r c =>
    refine ⟨h.rows ▸ hu.1, h.cols ▸ hu.2.1, ?_⟩
    exact (h.visited_iff r c).mpr (Or.inr hu.2.2)

theorem StepFrom.disc_cases {s t : Search} {cur : NodeRef} {rest : List NodeRef}
    (h : StepFrom s t cur rest) {u : NodeRef} (hu : t.Disc u) :
    s.Disc u ∨ ∃ p : Nat × Nat, s.News cur p ∧ u = NodeRef.cellRef p.1 p.2 := by
  cases u with
  | startRef => exact Or.inl trivial
  | cellRef r c =>
    rcases (h.visited_iff r c).mp hu.2.2 with hn | hv
    · exact Or.inr ⟨(r, c), hn, rfl⟩
    · exact Or.inl ⟨h.rows ▸ hu.1, h.cols ▸ hu.2.1, hv⟩

theorem StepFrom.mem_unvisited {s t : Search} {cur : NodeRef} {rest : List NodeRef}
    (h : StepFrom s t cur rest) (u : NodeRef) :
    u ∈ t.unvisited ↔ u ∈ rest ∨ ∃ p : Nat × Nat, s.News cur p ∧ u = NodeRef.cellRef p.1 p.2 := by
  rw [h.unvisited]
  simp only [List.mem_append, List.mem_map, List.mem_filter, Search.News]
  constructor
  · rintro (hr | ⟨p, hp, rfl⟩)
    · exact Or.inl hr
    · exact Or.inr ⟨p, hp, rfl⟩
  · rintro (hr | ⟨p, hp, rfl⟩)
    · exact Or.inl hr
    · exact Or.inr ⟨p, hp, rfl⟩

theorem StepFrom.news_of_mem {s t : Search} {cur : NodeRef} {rest : List NodeRef}
    (h : StepFrom s t cur rest) {u : NodeRef}
    (hu : u ∈ ((s.grid.getNeighbors (s.node cur).y (s.node cur).x).filter s.takes).map
      (fun p => NodeRef.cellRef p.1 p.2)) :
    ∃ p : Nat × Nat, s.News cur p ∧ u = NodeRef.cellRef p.1 p.2 := by
  have _ := h
  simp only [List.mem_map, List.mem_filter] at hu
  obtain ⟨p, hp, rfl⟩ := hu
  exact ⟨p, hp, rfl⟩

theorem StepFrom.queue_disc_aux {s t : Search} {cur : NodeRef} {rest : List NodeRef}
    (h : StepFrom s t cur rest) {u : NodeRef}
    (hu : u ∈ ((s.grid.getNeighbors (s.node cur).y (s.node cur).x).filter s.takes).map
      (fun p => NodeRef.cellRef p.1 p.2)) : t.Disc u := by
  obtain ⟨p, hp, rfl⟩ := h.news_of_mem hu
  have hb := hp.spec.1
  exact ⟨h.rows ▸ hb.1, h.cols ▸ hb.2, (h.visited_iff p.1 p.2).mpr (Or.inl hp)⟩

theorem stepLvl_of_disc (lvl : NodeRef → Nat) (s : Search) (cur : NodeRef) {u : NodeRef}
    (hu : s.Disc u) : stepLvl lvl s cur u = lvl u := by
  cases u with
  | startRef => rfl
  | cellRef r c =>
    have hn : ¬ s.News cur (r, c) := by
      intro hn
      have := hn.spec.2.2.2
      rw [hu.2.2] at this
      exact Bool.noConfusion this
    simp [stepLvl, hn]

theorem stepLvl_of_news (lvl : NodeRef → Nat) (s : Search) (cur : NodeRef) {p : Nat × Nat}
    (hn : s.News cur p) : stepLvl lvl s cur (NodeRef.cellRef p.1 p.2) = lvl cur + 1 := by
  simp [stepLvl, hn]

theorem Grid.unvisitedCount_le (g : Grid) : g.unvisitedCount ≤ g.rows * g.cols := by
  unfold Grid.unvisitedCount
  calc _ ≤ (Finset.range g.rows ×ˢ Finset.range g.cols).card := Finset.card_filter_le _ _
    _ = g.rows * g.cols := by simp

/-- One iteration moves as many cells out of the unvisited ones as it appends to the
frontier. -/
theorem StepFrom.count_add {s t : Search} {cur : NodeRef} {rest : List NodeRef}
    (h : StepFrom s t cur rest) :
    t.grid.unvisitedCount +
        ((s.grid.getNeighbors (s.node cur).y (s.node cur).x).filter s.takes).length =
      s.grid.unvisitedCount := by
  have hnd : ((s.grid.getNeighbors (s.node cur).y (s.node cur).x).filter s.takes).Nodup :=
    (Grid.nodup_getNeighbors _ _ _).filter _
  have hmemF : ∀ p : Nat × Nat,
      p ∈ ((s.grid.getNeighbors (s.node cur).y (s.node cur).x).filter s.takes).toFinset ↔
        s.News cur p := by
    intro p; simp [Search.News, List.mem_filter]
  have hsub : ((s.grid.getNeighbors (s.node cur).y (s.node cur).x).filter s.takes).toFinset ⊆
      (Finset.range s.grid.rows ×ˢ Finset.range s.grid.cols).filter
        (fun p => (s.grid.nodes p.1 p.2).visited = false) := by
    intro p hp
    have hn := ((hmemF p).mp hp).spec
    simp only [Finset.mem_filter, Finset.mem_product, Finset.mem_range]
    exact ⟨hn.1, hn.2.2.2⟩
  have hU : (Finset.range t.grid.rows ×ˢ Finset.range t.grid.cols).filter
        (fun p => (t.grid.nodes p.1 p.2).visited = false) =
      (Finset.range s.grid.rows ×ˢ Finset.range s.grid.cols).filter
        (fun p => (s.grid.nodes p.1 p.2).visited = false) \
      ((s.grid.getNeighbors (s.node cur).y (s.node cur).x).filter s.takes).toFinset := by
    ext p
    obtain ⟨r, c⟩ := p
    rw [Finset.mem_sdiff, hmemF]
    simp only [Finset.mem_filter, Finset.mem_product, Finset.mem_range, h.rows, h.cols]
    have hv := h.visited_iff r c
    constructor
    · rintro ⟨hb, hf⟩
      refine ⟨⟨hb, ?_⟩, ?_⟩
      · cases hvs : (s.grid.nodes r c).visited with
        | false => rfl
        | true => rw [hv.mpr (Or.inr hvs)] at hf; exact Bool.noConfusion hf
      · intro hn; rw [hv.mpr (Or.inl hn)] at hf; exact Bool.noConfusion hf
    · rintro ⟨⟨hb, hf⟩, hn⟩
      refine ⟨hb, ?_⟩
      cases hvt : (t.grid.nodes r c).visited with
      | false => rfl
      | true =>
        rcases hv.mp hvt with h1 | h1
        · exact absurd h1 hn
        · rw [h1] at hf; exact Bool.noConfusion hf
  unfold Grid.unvisitedCount
  rw [hU, Finset.card_sdiff hsub, ← List.toFinset_card_of_nodup hnd]
  exact Nat.sub_add_cancel (Finset.card_le_card hsub)

theorem StepFrom.measure_eq {s t : Search} {cur : NodeRef} {rest : List NodeRef}
    (h : StepFrom s t cur rest) (hq : s.unvisited = cur :: rest) :
    t.grid.unvisitedCount + t.unvisited.length + 1 =
      s.grid.unvisitedCount + s.unvisited.length := by
  have h1 := h.count_add
  rw [h.unvisited, hq]
  simp only [List.length_append, List.length_map, List.length_cons]
  omega

/-- The loop invariant is kept by an iteration that does not dequeue the end. -/
theorem Inv.step {lvl : NodeRef → Nat} {s t : Search} {cur : NodeRef} {rest : List NodeRef}
    (hI : Inv lvl s) (hq : s.unvisited = cur :: rest) (hst : StepFrom s t cur rest)
    (hne : (s.node cur).pos ≠ s.endNode.pos) : Inv (stepLvl lvl s cur) t := by
  have hcurq : cur ∈ s.unvisited := by rw [hq]; exact List.mem_cons_self _ _
  have hcur : s.Disc cur := hI.queue_disc cur hcurq
  have hrestq : ∀ u ∈ rest, u ∈ s.unvisited := fun u hu => by
    rw [hq]; exact List.mem_cons_of_mem _ hu
  have hsort := hI.sorted
  rw [hq, List.pairwise_cons] at hsort
  have hlow : ∀ h ∈ t.unvisited, lvl cur ≤ stepLvl lvl s cur h := by
    intro h hh
    rcases (hst.mem_unvisited h).mp hh with hr | ⟨p, hp, rfl⟩
    · rw [stepLvl_of_disc lvl s cur (hI.queue_disc h (hrestq h hr))]
      exact hsort.1 h hr
    · rw [stepLvl_of_news lvl s cur hp]; omega
  have hup : ∀ u, t.Disc u → stepLvl lvl s cur u ≤ lvl cur + 1 := by
    intro u hu
    rcases hst.disc_cases hu with hd | ⟨p, hp, rfl⟩
    · rw [stepLvl_of_disc lvl s cur hd]; exact hI.near cur hcurq u hd
    · rw [stepLvl_of_news lvl s cur hp]
  have hold : ∀ u, t.Disc u → u ∉ t.unvisited → s.Disc u ∧ (u = cur ∨ u ∉ s.unvisited) := by
    intro u hu hnq
    rcases hst.disc_cases hu with hd | ⟨p, hp, rfl⟩
    · refine ⟨hd, ?_⟩
      by_cases hus : u ∈ s.unvisited
      · rw [hq, List.mem_cons] at hus
        rcases hus with h1 | h1
        · exact Or.inl h1
        · exact absurd ((hst.mem_unvisited u).mpr (Or.inl h1)) hnq
      · exact Or.inr hus
    · exact absurd ((hst.mem_unvisited _).mpr (Or.inr ⟨p, hp, rfl⟩)) hnq
  refine
    { wf := ?_, start_prev := ?_, lvl_start := ?_, queue_disc := ?_, visited_prev := ?_,
      sorted := ?_, near := ?_, expanded := ?_, not_end := ?_, lvl_bound := ?_ }
  · intro r c hr hc
    have h1 := hI.wf r c (hst.rows ▸ hr) (hst.cols ▸ hc)
    have h2 := hst.pos_eq r c
    simp only [GridNode.pos, Prod.mk.injEq] at h2
    exact ⟨h2.2.trans h1.1, h2.1.trans h1.2⟩
  · rw [hst.start_prev]; exact hI.start_prev
  · exact hI.lvl_start
  · intro ref href
    rcases (hst.mem_unvisited ref).mp href with hr | ⟨p, hp, rfl⟩
    · exact hst.disc_mono (hI.queue_disc ref (hrestq ref hr))
    · have hb := hp.spec.1
      exact ⟨hst.rows ▸ hb.1, hst.cols ▸ hb.2, (hst.visited_iff p.1 p.2).mpr (Or.inl hp)⟩
  · intro r c hr hc hv
    by_cases hn : s.News cur (r, c)
    · refine ⟨(hst.isWall_eq r c).trans hn.spec.2.2.1, cur, hst.prev_of_news hn,
        hst.disc_mono hcur, ?_, ?_⟩
      · rw [hst.node_pos]; exact hn.spec.2.1
      · rw [stepLvl_of_news lvl s cur (p := (r, c)) hn, stepLvl_of_disc lvl s cur hcur]
    · have hvs : (s.grid.nodes r c).visited = true := by
        rcases (hst.visited_iff r c).mp hv with h1 | h1
        · exact absurd h1 hn
        · exact h1
      have hr' : r < s.grid.rows := hst.rows ▸ hr
      have hc' : c < s.grid.cols := hst.cols ▸ hc
      obtain ⟨hw, u, hpu, hdu, hadj, hl⟩ := hI.visited_prev r c hr' hc' hvs
      refine ⟨(hst.isWall_eq r c).trans hw, u, (hst.prev_of_not_news hn).trans hpu,
        hst.disc_mono hdu, ?_, ?_⟩
      · rw [hst.node_pos]; exact hadj
      · rw [stepLvl_of_disc lvl s cur hdu,
          stepLvl_of_disc lvl s cur (u := NodeRef.cellRef r c) ⟨hr', hc', hvs⟩]
        exact hl
  · rw [hst.unvisited, List.pairwise_append]
    refine ⟨?_, ?_, ?_⟩
    · refine List.Pairwise.imp_of_mem ?_ hsort.2
      intro a b ha hb hab
      rw [stepLvl_of_disc lvl s cur (hI.queue_disc a (hrestq a ha)),
        stepLvl_of_disc lvl s cur (hI.queue_disc b (hrestq b hb))]
      exact hab
    · refine List.Pairwise.imp_of_mem ?_ (List.pairwise_of_forall (R := fun _ _ => True)
        (fun _ _ => trivial))
      intro a b ha hb _
      have hb' := hup b (hst.queue_disc_aux hb)
      have ha' := hlow a ((hst.mem_unvisited a).mpr (Or.inr (hst.news_of_mem ha)))
      have hb'' := hlow b ((hst.mem_unvisited b).mpr (Or.inr (hst.news_of_mem hb)))
      obtain ⟨p, hp, rfl⟩ := hst.news_of_mem ha
      obtain ⟨q, hq', rfl⟩ := hst.news_of_mem hb
      rw [stepLvl_of_news lvl s cur hp, stepLvl_of_news lvl s cur hq']
    · intro a ha b hb
      obtain ⟨q, hq', rfl⟩ := hst.news_of_mem hb
      rw [stepLvl_of_news lvl s cur hq',
        stepLvl_of_disc lvl s cur (hI.queue_disc a (hrestq a ha))]
      exact hI.near cur hcurq a (hI.queue_disc a (hrestq a ha))
  · intro h hh u hu
    have h1 := hlow h hh
    have h2 := hup u hu
    omega
  · intro u hu hnq p hb hadj hw
    obtain ⟨hd, hcase⟩ := hold u hu hnq
    rw [hst.node_pos] at hadj
    rw [hst.isWall_eq] at hw
    have hb' : s.grid.InBounds p := ⟨hst.rows ▸ hb.1, hst.cols ▸ hb.2⟩
    rw [stepLvl_of_disc lvl s cur hd]
    rcases hcase with rfl | hus
    · cases hvs : (s.grid.nodes p.1 p.2).visited with
      | true =>
        have hdp : s.Disc (NodeRef.cellRef p.1 p.2) := ⟨hb'.1, hb'.2, hvs⟩
        refine ⟨(hst.visited_iff p.1 p.2).mpr (Or.inr hvs), ?_⟩
        rw [stepLvl_of_disc lvl s u hdp]
        exact hI.near u hcurq _ hdp
      | false =>
        have hn : s.News u p := Search.news_of hb' hadj hw hvs
        refine ⟨(hst.visited_iff p.1 p.2).mpr (Or.inl hn), ?_⟩
        rw [stepLvl_of_news lvl s u hn]
    · obtain ⟨hv, hl⟩ := hI.expanded u hd hus p hb' hadj hw
      refine ⟨(hst.visited_iff p.1 p.2).mpr (Or.inr hv), ?_⟩
      rw [stepLvl_of_disc lvl s cur (u := NodeRef.cellRef p.1 p.2) ⟨hb'.1, hb'.2, hv⟩]
      exact hl
  · intro u hu hnq
    obtain ⟨hd, hcase⟩ := hold u hu hnq
    rw [hst.node_pos, hst.endNode]
    rcases hcase with rfl | hus
    · exact hne
    · exact hI.not_end u hd hus
  · intro u hu
    have hc := hst.count_add
    rw [hst.rows, hst.cols]
    rcases hst.disc_cases hu with hd | ⟨p, hp, rfl⟩
    · rw [stepLvl_of_disc lvl s cur hd]
      have := hI.lvl_bound u hd
      omega
    · rw [stepLvl_of_news lvl s cur hp]
      have hpos : 0 < ((s.grid.getNeighbors (s.node cur).y (s.node cur).x).filter
          s.takes).length :=
        List.length_pos_of_mem (List.mem_filter.mpr ⟨hp.1, hp.2⟩)
      have := hI.lvl_bound cur hcur
      omega

/-- The invariant holds when the loop is entered on an unsearched grid. -/
theorem Inv.start (st en : GridNode) (g : Grid) (hp : st.prev = none) (hwf : g.WellFormed)
    (hu : g.Unsearched) : Inv (fun _ => 0) (Search.start st en g) := by
  have hnv : ∀ u, (Search.start st en g).Disc u → u = NodeRef.startRef := by
    intro u hd
    cases u with
    | startRef => rfl
    | cellRef r c =>
      have h1 := (hu r c hd.1 hd.2.1).1
      have h2 : (g.nodes r c).visited = true := hd.2.2
      rw [h1] at h2; exact Bool.noConfusion h2
  refine
    { wf := hwf, start_prev := hp, lvl_start := rfl, queue_disc := ?_, visited_prev := ?_,
      sorted := ?_, near := ?_, expanded := ?_, not_end := ?_, lvl_bound := ?_ }
  · intro ref href
    simp only [Search.start, List.mem_singleton] at href
    subst href; trivial
  · intro r c hr hc hv
    have h1 := (hu r c hr hc).1
    have h2 : (g.nodes r c).visited = true := hv
    rw [h1] at h2; exact Bool.noConfusion h2
  · simp [Search.start]
  · intro h _ u _; exact Nat.zero_le _
  · intro u hd hnq
    rw [hnv u hd] at hnq
    exact absurd (by simp [Search.start]) hnq
  · intro u hd hnq
    rw [hnv u hd] at hnq
    exact absurd (by simp [Search.start]) hnq
  · intro u _
    simp only [Nat.zero_add]
    exact Grid.unvisitedCount_le g

theorem SameArena.refl (s : Search) : SameArena s s :=
  ⟨rfl, rfl, rfl, rfl, fun _ _ => rfl⟩

theorem SameArena.trans {s t u : Search} (h1 : SameArena s t) (h2 : SameArena t u) :
    SameArena s u :=
  ⟨h2.rows.trans h1.rows, h2.cols.trans h1.cols, h2.endNode.trans h1.endNode,
    h2.start_pos.trans h1.start_pos, fun r c => (h2.isWall r c).trans (h1.isWall r c)⟩

theorem StepFrom.sameArena {s t : Search} {cur : NodeRef} {rest : List NodeRef}
    (h : StepFrom s t cur rest) : SameArena s t :=
  ⟨h.rows, h.cols, h.endNode, h.start_pos, h.isWall_eq⟩

theorem Steps.inv {s t : Search} (h : Steps s t) :
    ∀ lvl, Inv lvl s → ∃ lvl', Inv lvl' t ∧ SameArena s t := by
  induction h with
  | refl s => intro lvl hI; exact ⟨lvl, hI, SameArena.refl s⟩
  | @step s t cur rest hq hne _ ih =>
    intro lvl hI
    have hst := stepFrom_expand s cur rest
      (hI.queue_disc cur (by rw [hq]; exact List.mem_cons_self _ _))
    obtain ⟨lvl', hI', hA⟩ := ih _ (hI.step hq hst hne)
    exact ⟨lvl', hI', hst.sameArena.trans hA⟩

theorem Inv.toCInv {lvl : NodeRef → Nat} {s : Search} (hI : Inv lvl s) : CInv s.Disc lvl s :=
  { wf := hI.wf, start_prev := hI.start_prev, lvl_start := hI.lvl_start, d_start := trivial,
    d_disc := fun _ h => h, queue_d := hI.queue_disc,
    d_prev := fun r c hd => hI.visited_prev r c hd.1 hd.2.1 hd.2.2, lvl_bound := hI.lvl_bound }

/-- The chain part of the invariant is kept by every iteration. -/
theorem CInv.step_cinv {D : NodeRef → Prop} {lvl : NodeRef → Nat} {s t : Search}
    {cur : NodeRef} {rest : List NodeRef} (hC : CInv D lvl s) (hq : s.unvisited = cur :: rest)
    (hst : StepFrom s t cur rest) : CInv (stepD D s cur) (stepLvl lvl s cur) t := by
  have hcurq : cur ∈ s.unvisited := by rw [hq]; exact List.mem_cons_self _ _
  have hcurD : D cur := hC.queue_d cur hcurq
  have hcur : s.Disc cur := hC.d_disc cur hcurD
  refine
    { wf := ?_, start_prev := ?_, lvl_start := hC.lvl_start, d_start := Or.inl hC.d_start,
      d_disc := ?_, queue_d := ?_, d_prev := ?_, lvl_bound := ?_ }
  · intro r c hr hc
    have h1 := hC.wf r c (hst.rows ▸ hr) (hst.cols ▸ hc)
    have h2 := hst.pos_eq r c
    simp only [GridNode.pos, Prod.mk.injEq] at h2
    exact ⟨h2.2.trans h1.1, h2.1.trans h1.2⟩
  · rw [hst.start_prev]; exact hC.start_prev
  · intro u hu
    rcases hu with hu | ⟨p, hp, rfl⟩
    · exact hst.disc_mono (hC.d_disc u hu)
    · have hb := hp.spec.1
      exact ⟨hst.rows ▸ hb.1, hst.cols ▸ hb.2, (hst.visited_iff p.1 p.2).mpr (Or.inl hp)⟩
  · intro ref href
    rcases (hst.mem_unvisited ref).mp href with hr | hnew
    · exact Or.inl (hC.queue_d ref (by rw [hq]; exact List.mem_cons_of_mem _ hr))
    · exact Or.inr hnew
  · intro r c hD
    by_cases hn : s.News cur (r, c)
    · refine ⟨(hst.isWall_eq r c).trans hn.spec.2.2.1, cur, hst.prev_of_news hn,
        Or.inl hcurD, ?_, ?_⟩
      · rw [hst.node_pos]; exact hn.spec.2.1
      · rw [stepLvl_of_news lvl s cur (p := (r, c)) hn, stepLvl_of_disc lvl s cur hcur]
    · have hd : D (NodeRef.cellRef r c) := by
        rcases hD with hd | ⟨p, hp, heq⟩
        · exact hd
        · exfalso
          simp only [NodeRef.cellRef.injEq] at heq
          obtain ⟨rfl, rfl⟩ := heq
          exact hn hp
      obtain ⟨hw, u, hpu, hdu, hadj, hl⟩ := hC.d_prev r c hd
      refine ⟨(hst.isWall_eq r c).trans hw, u, (hst.prev_of_not_news hn).trans hpu,
        Or.inl hdu, ?_, ?_⟩
      · rw [hst.node_pos]; exact hadj
      · rw [stepLvl_of_disc lvl s cur (hC.d_disc u hdu),
          stepLvl_of_disc lvl s cur (hC.d_disc _ hd)]
        exact hl
  · intro u hu
    have hc := hst.count_add
    rw [hst.rows, hst.cols]
    rcases hu with hd | ⟨p, hp, rfl⟩
    · rw [stepLvl_of_disc lvl s cur (hC.d_disc u hd)]
      have := hC.lvl_bound u hd
      omega
    · rw [stepLvl_of_news lvl s cur hp]
      have hpos : 0 < ((s.grid.getNeighbors (s.node cur).y (s.node cur).x).filter
          s.takes).length :=
        List.length_pos_of_mem (List.mem_filter.mpr ⟨hp.1, hp.2⟩)
      have := hC.lvl_bound cur hcurD
      omega

/-- The chain part of the invariant holds when the loop is entered, on any well-formed
grid. -/
theorem CInv.at_start (st en : GridNode) (g : Grid) (hp : st.prev = none) (hwf : g.WellFormed) :
    CInv (fun u => u = NodeRef.startRef) (fun _ => 0) (Search.start st en g) :=
  { wf := hwf, start_prev := hp, lvl_start := rfl, d_start := rfl
    d_disc := by
      intro u hu
      subst hu; trivial
    queue_d := by
      intro ref href
      simp only [Search.start, List.mem_singleton] at href
      exact href
    d_prev := fun r c h => NodeRef.noConfusion h
    lvl_bound := by
      intro u _
      simp only [Nat.zero_add]
      exact Grid.unvisitedCount_le g }

theorem Steps.cinv {s t : Search} (h : Steps s t) :
    ∀ D lvl, CInv D lvl s → ∃ D' lvl', CInv D' lvl' t ∧ SameArena s t := by
  induction h with
  | refl s => intro D lvl hC; exact ⟨D, lvl, hC, SameArena.refl s⟩
  | @step s t cur rest hq _ _ ih =>
    intro D lvl hC
    have hst := stepFrom_expand s cur rest
      (hC.d_disc cur (hC.queue_d cur (by rw [hq]; exact List.mem_cons_self _ _)))
    obtain ⟨D', lvl', hC', hA⟩ := ih _ _ (hC.step_cinv hq hst)
    exact ⟨D', lvl', hC', hst.sameArena.trans hA⟩

/-! ## The loop terminates -/

theorem StepFrom.queueDisc {s t : Search} {cur : NodeRef} {rest : List NodeRef}
    (h : StepFrom s t cur rest) (hs : s.QueueDisc) (hq : s.unvisited = cur :: rest) :
    t.QueueDisc := by
  intro ref href
  rcases (h.mem_unvisited ref).mp href with hr | ⟨p, hp, rfl⟩
  · exact h.disc_mono (hs ref (by rw [hq]; exact List.mem_cons_of_mem _ hr))
  · have hb := hp.spec.1
    exact ⟨h.rows ▸ hb.1, h.cols ▸ hb.2, (h.visited_iff p.1 p.2).mpr (Or.inl hp)⟩

theorem dequeue_at_end_iff (s : Search) (cur : NodeRef) (rest : List NodeRef) :
    (((dequeue s cur rest).node cur).x = (dequeue s cur rest).endNode.x ∧
      ((dequeue s cur rest).node cur).y = (dequeue s cur rest).endNode.y) ↔
      (s.node cur).pos = s.endNode.pos := by
  have h1 := dequeue_node_pos s cur rest cur
  have h2 := (dequeue_frame s cur rest).2.1
  simp only [GridNode.pos, Prod.mk.injEq] at h1 ⊢
  rw [h2, h1.1, h1.2]
  constructor
  · rintro ⟨a, b⟩; exact ⟨b, a⟩
  · rintro ⟨a, b⟩; exact ⟨b, a⟩

theorem loop_nil (wfuel fuel : Nat) (s : Search) (hq : s.unvisited = []) :
    Search.loop wfuel (fuel + 1) s = (s, Report.exhausted) := by
  simp only [Search.loop, hq, Report.exhausted]

theorem loop_found (wfuel fuel : Nat) (s : Search) {cur : NodeRef} {rest : List NodeRef}
    (hq : s.unvisited = cur :: rest) (hend : (s.node cur).pos = s.endNode.pos) :
    Search.loop wfuel (fuel + 1) s =
      (dequeue s cur rest, reconstruct (dequeue s cur rest) wfuel cur) := by
  simp only [Search.loop, hq]
  rw [if_pos ((dequeue_at_end_iff s cur rest).mpr hend)]

theorem loop_step (wfuel fuel : Nat) (s : Search) {cur : NodeRef} {rest : List NodeRef}
    (hq : s.unvisited = cur :: rest) (hne : (s.node cur).pos ≠ s.endNode.pos) :
    Search.loop wfuel (fuel + 1) s = Search.loop wfuel fuel (expand cur (dequeue s cur rest)) := by
  simp only [Search.loop, hq]
  rw [if_neg (fun h => hne ((dequeue_at_end_iff s cur rest).mp h))]

/-- With more fuel than unvisited cells plus frontier nodes, the loop of `dijkstras` ends:
either the frontier is empty, or the node at its head lies at the end position. -/
theorem loop_spec (wfuel : Nat) : ∀ (fuel : Nat) (s : Search), s.QueueDisc →
    s.grid.unvisitedCount + s.unvisited.length < fuel →
    ∃ s0, Steps s s0 ∧
      ((s0.unvisited = [] ∧ Search.loop wfuel fuel s = (s0, Report.exhausted)) ∨
        ∃ cur rest, s0.unvisited = cur :: rest ∧ (s0.node cur).pos = s0.endNode.pos ∧
          Search.loop wfuel fuel s =
            (dequeue s0 cur rest, reconstruct (dequeue s0 cur rest) wfuel cur)) := by
  intro fuel
  induction fuel with
  | zero => intro s _ h; exact absurd h (Nat.not_lt_zero _)
  | succ fuel ih =>
    intro s hqd hm
    cases hq : s.unvisited with
    | nil => exact ⟨s, Steps.refl s, Or.inl ⟨hq, loop_nil wfuel fuel s hq⟩⟩
    | cons cur rest =>
      by_cases hend : (s.node cur).pos = s.endNode.pos
      · exact ⟨s, Steps.refl s, Or.inr ⟨cur, rest, hq, hend, loop_found wfuel fuel s hq hend⟩⟩
      · have hst := stepFrom_expand s cur rest (hqd cur (by rw [hq]; exact List.mem_cons_self _ _))
        have hme := hst.measure_eq hq
        obtain ⟨s0, hsteps, hres⟩ := ih (expand cur (dequeue s cur rest)) (hst.queueDisc hqd hq)
          (by omega)
        refine ⟨s0, Steps.step hq hend hsteps, ?_⟩
        rw [loop_step wfuel fuel s hq hend]
        exact hres

/-! ## What the invariant gives when the loop ends -/

theorem Adjacent.symm {p q : Nat × Nat} (h : Adjacent p q) : Adjacent q p := by
  unfold Adjacent at h ⊢; omega

theorem Route.congr_grid {g g' : Grid} {start : Nat × Nat} {k : Nat} {p : Nat × Nat}
    (h : Route g start k p) (hr : g'.rows = g.rows) (hc : g'.cols = g.cols)
    (hw : ∀ r c, (g'.nodes r c).isWall = (g.nodes r c).isWall) : Route g' start k p := by
  induction h with
  | here => exact Route.here
  | move _ hadj hb hwall ih =>
    exact Route.move ih hadj ⟨hr ▸ hb.1, hc ▸ hb.2⟩ ((hw _ _).trans hwall)

theorem Inv.node_cell_pos {lvl : NodeRef → Nat} {s : Search} (hI : Inv lvl s) {r c : Nat}
    (hr : r < s.grid.rows) (hc : c < s.grid.cols) : (s.node (NodeRef.cellRef r c)).pos = (r, c) := by
  have h := hI.wf r c hr hc
  simp only [Search.node, GridNode.pos, h.1, h.2]

/-- A discovered node lies at the end of a route of as many moves as its label says. -/
theorem Inv.route_of_disc {lvl : NodeRef → Nat} {s : Search} (hI : Inv lvl s) :
    ∀ (n : Nat) (u : NodeRef), s.Disc u → lvl u = n →
      Route s.grid s.startNode.pos n (s.node u).pos := by
  intro n
  induction n with
  | zero =>
    intro u hd hl
    cases u with
    | startRef => exact Route.here
    | cellRef r c =>
      obtain ⟨_, v, _, _, _, hlv⟩ := hI.visited_prev r c hd.1 hd.2.1 hd.2.2
      omega
  | succ n ih =>
    intro u hd hl
    cases u with
    | startRef => have := hI.lvl_start; omega
    | cellRef r c =>
      obtain ⟨hw, v, _, hdv, hadj, hlv⟩ := hI.visited_prev r c hd.1 hd.2.1 hd.2.2
      rw [hI.node_cell_pos hd.1 hd.2.1]
      exact Route.move (ih v hdv (by omega)) hadj ⟨hd.1, hd.2.1⟩ hw

/-- Once every discovered node labelled below `L` has left the frontier, every cell on a
route of at most `L` moves is discovered, with a label no larger than the route. -/
theorem Inv.disc_of_route {lvl : NodeRef → Nat} {s : Search} (hI : Inv lvl s) (L : Nat)
    (hL : ∀ u, s.Disc u → lvl u < L → u ∉ s.unvisited) {k : Nat} {p : Nat × Nat}
    (h : Route s.grid s.startNode.pos k p) :
    k ≤ L → p ≠ s.startNode.pos →
      s.Disc (NodeRef.cellRef p.1 p.2) ∧ lvl (NodeRef.cellRef p.1 p.2) ≤ k := by
  induction h with
  | here => intro _ hne; exact absurd rfl hne
  | @move k q p _ hadj hb hw ih =>
    intro hk _
    by_cases hq : q = s.startNode.pos
    · have hnq : NodeRef.startRef ∉ s.unvisited :=
        hL NodeRef.startRef trivial (by rw [hI.lvl_start]; omega)
      have hadj' : Adjacent (s.node NodeRef.startRef).pos p := by
        rw [hq] at hadj; exact hadj
      obtain ⟨hv, hl⟩ := hI.expanded NodeRef.startRef trivial hnq p hb hadj' hw
      rw [hI.lvl_start] at hl
      exact ⟨⟨hb.1, hb.2, hv⟩, by omega⟩
    · obtain ⟨hd, hl⟩ := ih (by omega) hq
      have hnq : NodeRef.cellRef q.1 q.2 ∉ s.unvisited := hL _ hd (by omega)
      have hadj' : Adjacent (s.node (NodeRef.cellRef q.1 q.2)).pos p := by
        rw [hI.node_cell_pos hd.1 hd.2.1]; exact hadj
      obtain ⟨hv, hl'⟩ := hI.expanded _ hd hnq p hb hadj' hw
      exact ⟨⟨hb.1, hb.2, hv⟩, by omega⟩

/-- With the frontier empty, no route leads to the end position. -/
theorem Inv.no_route_of_exhausted {lvl : NodeRef → Nat} {s : Search} (hI : Inv lvl s)
    (hq : s.unvisited = []) (k : Nat) : ¬ Route s.grid s.startNode.pos k s.endNode.pos := by
  intro h
  have hnq : ∀ u, u ∉ s.unvisited := fun u => by rw [hq]; exact List.not_mem_nil u
  by_cases he : s.endNode.pos = s.startNode.pos
  · exact hI.not_end NodeRef.startRef trivial (hnq _) he.symm
  · obtain ⟨hd, _⟩ := hI.disc_of_route k (fun u _ _ => hnq u) h (Nat.le_refl k) he
    exact hI.not_end _ hd (hnq _) (hI.node_cell_pos hd.1 hd.2.1)

/-- The node at the head of the frontier is labelled with the least number of moves of
any route to its position, unless that is the start position. -/
theorem Inv.head_le_route {lvl : NodeRef → Nat} {s : Search} (hI : Inv lvl s) {cur : NodeRef}
    {rest : List NodeRef} (hq : s.unvisited = cur :: rest)
    (hne : (s.node cur).pos ≠ s.startNode.pos) {k : Nat}
    (h : Route s.grid s.startNode.pos k (s.node cur).pos) : lvl cur ≤ k := by
  by_contra hlt
  have hsort := hI.sorted
  rw [hq, List.pairwise_cons] at hsort
  have hL : ∀ u, s.Disc u → lvl u < lvl cur → u ∉ s.unvisited := by
    intro u _ hlu hmem
    rw [hq, List.mem_cons] at hmem
    rcases hmem with rfl | hmem
    · omega
    · have := hsort.1 u hmem; omega
  obtain ⟨hd, hl⟩ := hI.disc_of_route (lvl cur) hL h (by omega) hne
  have hcur : s.Disc cur := hI.queue_disc cur (by rw [hq]; exact List.mem_cons_self _ _)
  cases cur with
  | startRef => exact hne rfl
  | cellRef r c =>
    rw [hI.node_cell_pos hcur.1 hcur.2.1] at hl
    exact hlt hl

/-! ## The predecessor chain -/

theorem Inv.posIn_eq {lvl : NodeRef → Nat} {s : Search} (hI : Inv lvl s) {u : NodeRef}
    (hd : s.Disc u) : u.posIn s.startNode.pos = (s.node u).pos := by
  cases u with
  | startRef => rfl
  | cellRef r c => exact (hI.node_cell_pos hd.1 hd.2.1).symm

theorem CInv.posIn_of_disc {D : NodeRef → Prop} {lvl : NodeRef → Nat} {s : Search}
    (hC : CInv D lvl s) {u : NodeRef} (hd : s.Disc u) :
    u.posIn s.startNode.pos = (s.node u).pos := by
  cases u with
  | startRef => rfl
  | cellRef r c =>
    have h := hC.wf r c hd.1 hd.2.1
    simp only [Search.node, GridNode.pos, NodeRef.posIn, h.1, h.2]

/-- From a node labelled `n` of the ghost set, `while (temp.prev)` passes `n` nodes and
stops at the start node. -/
theorem CInv.walk_chain {D : NodeRef → Prop} {lvl : NodeRef → Nat} {s : Search} (hC : CInv D lvl s) :
    ∀ (n : Nat) (u : NodeRef), D u → lvl u = n → ∀ fuel, n < fuel →
      ∃ ds, walkPrev s fuel u = some ds ∧ ds.length = n ∧ ChainFacts s lvl u ds := by
  intro n
  induction n with
  | zero =>
    intro u hd hl fuel hf
    cases u with
    | cellRef r c =>
      obtain ⟨_, v, _, _, _, hlv⟩ := hC.d_prev r c hd
      omega
    | startRef =>
      obtain ⟨f, rfl⟩ : ∃ f, fuel = f + 1 := ⟨fuel - 1, by omega⟩
      refine ⟨[], ?_, rfl, ?_⟩
      · simp only [walkPrev, Search.node, hC.start_prev]
      · refine ⟨⟨[], rfl⟩, ?_, ?_, ?_, ?_, ?_⟩
        · exact congrArg some hC.start_prev
        · intro v hv; exact absurd hv (List.not_mem_nil v)
        · exact List.chain'_singleton _
        · intro v hv; exact absurd hv (List.not_mem_nil v)
        · simp
  | succ n ih =>
    intro u hd hl fuel hf
    cases u with
    | startRef => have := hC.lvl_start; omega
    | cellRef r c =>
      obtain ⟨hw, v, hpv, hdv, hadj, hlv⟩ := hC.d_prev r c hd
      have hdisc := hC.d_disc _ hd
      obtain ⟨f, rfl⟩ : ∃ f, fuel = f + 1 := ⟨fuel - 1, by omega⟩
      obtain ⟨ds, hwalk, hlen, hfacts⟩ := ih v hdv (by omega) f (by omega)
      obtain ⟨tl, htl⟩ := hfacts.head
      have hnode : (s.node (NodeRef.cellRef r c)).prev = some v := hpv
      refine ⟨NodeRef.cellRef r c :: ds, ?_, ?_, ?_⟩
      · simp only [walkPrev, hnode, hwalk, Option.map_some']
      · simp only [List.length_cons, hlen]
      · refine ⟨⟨ds ++ [NodeRef.startRef], rfl⟩, ?_, ?_, ?_, ?_, ?_⟩
        · have hch := hfacts.chain
          rw [htl] at hch
          rw [List.cons_append, htl]
          exact ⟨congrArg some hnode, hch⟩
        · intro w hw'
          rcases List.mem_cons.mp hw' with rfl | hw'
          · exact ⟨r, c, rfl, hdisc.1, hdisc.2.1, hw, hdisc.2.2⟩
          · exact hfacts.cells w hw'
        · rw [List.cons_append, List.chain'_cons']
          refine ⟨?_, hfacts.adjacent⟩
          intro y hy
          rw [htl] at hy
          simp only [List.head?_cons, Option.mem_def, Option.some.injEq] at hy
          subst hy
          rw [hC.posIn_of_disc (hC.d_disc _ hdv)]
          exact hadj.symm
        · intro w hw'
          rcases List.mem_cons.mp hw' with rfl | hw'
          · exact ⟨Nat.le_refl _, by omega⟩
          · have := hfacts.lvls w hw'
            exact ⟨by omega, this.2⟩
        · rw [List.cons_append, List.nodup_cons]
          refine ⟨?_, hfacts.nodup⟩
          intro hmem
          rcases List.mem_append.mp hmem with h1 | h1
          · have := (hfacts.lvls _ h1).1; omega
          · simp at h1

/-- From a discovered node labelled `n`, `while (temp.prev)` passes `n` nodes and stops at
the start node. -/
theorem Inv.walk {lvl : NodeRef → Nat} {s : Search} (hI : Inv lvl s) :
    ∀ (n : Nat) (u : NodeRef), s.Disc u → lvl u = n → ∀ fuel, n < fuel →
      ∃ ds, walkPrev s fuel u = some ds ∧ ds.length = n ∧ ChainFacts s lvl u ds :=
  hI.toCInv.walk_chain

theorem dequeue_node_prev (s : Search) (cur : NodeRef) (rest : List NodeRef) (u : NodeRef) :
    ((dequeue s cur rest).node u).prev = (s.node u).prev := by
  cases cur with
  | startRef => cases u <;> simp [dequeue, Search.setNode, Search.node]
  | cellRef row col =>
    cases u with
    | startRef => simp [dequeue, Search.setNode, Search.node]
    | cellRef r c =>
      simp only [dequeue, Search.setNode, Search.node, Grid.setNode]
      by_cases h : r = row ∧ c = col
      · obtain ⟨rfl, rfl⟩ := h; simp
      · simp [h]

theorem walkPrev_congr {s t : Search} (h : ∀ v, (t.node v).prev = (s.node v).prev) :
    ∀ (fuel : Nat) (u : NodeRef), walkPrev t fuel u = walkPrev s fuel u := by
  intro fuel
  induction fuel with
  | zero => intro u; rfl
  | succ fuel ih =>
    intro u
    simp only [walkPrev, h u]
    cases (s.node u).prev with
    | none => rfl
    | some p => simp only [ih p]

theorem IsPrevChain.congr_prev {node1 node2 : NodeRef → Option GridNode} :
    ∀ {path : List NodeRef},
      (∀ v ∈ path, (node2 v).map (fun n => n.prev) = (node1 v).map (fun n => n.prev)) →
      IsPrevChain node1 path → IsPrevChain node2 path := by
  intro path
  induction path with
  | nil => intro _ hc; exact hc
  | cons a l ih =>
    cases l with
    | nil => intro h hc; exact (h a (List.mem_cons_self _ _)).trans hc
    | cons b l =>
      intro h hc
      exact ⟨(h a (List.mem_cons_self _ _)).trans hc.1,
        ih (fun v hv => h v (List.mem_cons_of_mem _ hv)) hc.2⟩

theorem reconstruct_of_walk (s : Search) (wfuel : Nat) (cur t : NodeRef) (ds : List NodeRef)
    (hp : (s.node cur).prev = some t) (hw : walkPrev s (wfuel + 1) cur = some ds) :
    reconstruct s wfuel cur =
      { foundValidPath := true, alerted := false, drawn := ds, completion := .normal } := by
  simp only [walkPrev, hp] at hw
  cases hw' : walkPrev s wfuel t with
  | none => rw [hw'] at hw; simp at hw
  | some ds' =>
    rw [hw'] at hw
    simp only [Option.map_some', Option.some.injEq] at hw
    simp only [reconstruct, hp, hw', hw]

theorem reconstruct_of_no_prev (s : Search) (wfuel : Nat) (cur : NodeRef)
    (hp : (s.node cur).prev = none) :
    reconstruct s wfuel cur =
      { foundValidPath := true, alerted := false, drawn := [cur], completion := .typeError } := by
  simp only [reconstruct, hp]

theorem reconstruct_found (s : Search) (wfuel : Nat) (cur : NodeRef) :
    (reconstruct s wfuel cur).foundValidPath = true ∧ (reconstruct s wfuel cur).alerted = false := by
  unfold reconstruct
  split
  · exact ⟨rfl, rfl⟩
  · split
    · exact ⟨rfl, rfl⟩
    · exact ⟨rfl, rfl⟩

/-! ## `dijkstras` on an unsearched grid -/

theorem steps_of_start_at_end {s s0 : Search} (h : Steps s s0)
    (hq : s.unvisited = [NodeRef.startRef]) (he : s.startNode.pos = s.endNode.pos) : s0 = s := by
  cases h with
  | refl => rfl
  | step hq' hne _ =>
    rw [hq] at hq'
    simp only [List.cons.injEq] at hq'
    obtain ⟨rfl, _⟩ := hq'
    exact absurd he hne

theorem ChainOf.transfer {g : Grid} {st en : GridNode} {s t : Search} {cur : NodeRef}
    {ds : List NodeRef} (h : ChainOf g st en s cur ds)
    (hprev : ∀ v ∈ ds ++ [NodeRef.startRef], (t.node v).prev = (s.node v).prev) :
    ChainOf g st en t cur ds :=
  { at_end := h.at_end, head := h.head,
    chain := @IsPrevChain.congr_prev (fun v => some (s.node v)) (fun v => some (t.node v)) _
      (fun v hv => congrArg some (hprev v hv)) h.chain,
    cells := h.cells, adjacent := h.adjacent, nodup := h.nodup }

theorem Reached.of_steps {g : Grid} {st en : GridNode} {s0 : Search} (hp : st.prev = none)
    (hwf : g.WellFormed) (hu : g.Unsearched) (h : Steps (Search.start st en g) s0) :
    Reached g st en s0 := by
  obtain ⟨lvl, hI, hA⟩ := h.inv _ (Inv.start st en g hp hwf hu)
  exact ⟨h, ⟨lvl, hI⟩, hA⟩

theorem CReached.of_steps_wf {g : Grid} {st en : GridNode} {s0 : Search} (hp : st.prev = none)
    (hwf : g.WellFormed) (h : Steps (Search.start st en g) s0) : CReached g st en s0 := by
  obtain ⟨D, lvl, hC, hA⟩ := h.cinv _ _ (CInv.at_start st en g hp hwf)
  exact ⟨h, ⟨D, lvl, hC⟩, hA⟩

theorem Reached.no_route {g : Grid} {st en : GridNode} {s0 : Search} (h : Reached g st en s0)
    (hq : s0.unvisited = []) (k : Nat) : ¬ Route g st.pos k en.pos := by
  obtain ⟨lvl, hI⟩ := h.inv
  intro hr
  refine hI.no_route_of_exhausted hq k ?_
  have hst : s0.startNode.pos = st.pos := h.arena.start_pos
  have hen : s0.endNode = en := h.arena.endNode
  rw [hst, hen]
  exact hr.congr_grid h.arena.rows h.arena.cols h.arena.isWall

/-- The predecessor chain of the node `cur` at the head of the frontier, when it lies at
the end position. -/
theorem CReached.chain {g : Grid} {st en : GridNode} {s0 : Search} (h : CReached g st en s0)
    {cur : NodeRef} {rest : List NodeRef} (hq : s0.unvisited = cur :: rest)
    (hend : (s0.node cur).pos = s0.endNode.pos) (wfuel : Nat)
    (hfuel : g.rows * g.cols < wfuel) :
    ∃ ds, walkPrev s0 wfuel cur = some ds ∧ ChainOf g st en s0 cur ds ∧
      (st.pos = en.pos → cur = NodeRef.startRef ∧ ds = [] ∧ s0 = Search.start st en g) ∧
      (st.pos ≠ en.pos → ∃ v, (s0.node cur).prev = some v) ∧
      ∀ v ∈ ds, s0.Disc v := by
  obtain ⟨D, lvl, hC⟩ := h.cinv
  have hA := h.arena
  have hrows : s0.grid.rows = g.rows := hA.rows
  have hcols : s0.grid.cols = g.cols := hA.cols
  have hen : s0.endNode = en := hA.endNode
  have hst : s0.startNode.pos = st.pos := hA.start_pos
  have hwall : ∀ r c, (s0.grid.nodes r c).isWall = (g.nodes r c).isWall := hA.isWall
  have hcurD : D cur := hC.queue_d cur (by rw [hq]; exact List.mem_cons_self _ _)
  have hcur : s0.Disc cur := hC.d_disc cur hcurD
  have hb := hC.lvl_bound cur hcurD
  have hlt : lvl cur < wfuel := by
    rw [hrows, hcols] at hb; omega
  obtain ⟨ds, hwalk, _, hfacts⟩ := hC.walk_chain (lvl cur) cur hcurD rfl wfuel hlt
  have hat : cur.posIn st.pos = en.pos := by
    rw [← hst, hC.posIn_of_disc hcur, hend, hen]
  refine ⟨ds, hwalk,
    { at_end := hat, head := hfacts.head, chain := hfacts.chain, cells := ?_, adjacent := ?_,
      nodup := hfacts.nodup }, ?_, ?_, ?_⟩
  · intro v hv
    obtain ⟨r, c, rfl, hr, hc, hw, _⟩ := hfacts.cells v hv
    exact ⟨r, c, rfl, hrows ▸ hr, hcols ▸ hc, (hwall r c) ▸ hw⟩
  · have := hfacts.adjacent
    rw [hst] at this; exact this
  · intro heq
    have hs0 := steps_of_start_at_end h.steps rfl heq
    have hq' := hq
    rw [hs0] at hq'
    simp only [Search.start, List.cons.injEq] at hq'
    obtain ⟨rfl, _⟩ := hq'
    obtain ⟨f, rfl⟩ : ∃ f, wfuel = f + 1 := ⟨wfuel - 1, by omega⟩
    have h0 : walkPrev s0 (f + 1) NodeRef.startRef = some [] := by
      simp only [walkPrev, Search.node, hC.start_prev]
    rw [h0] at hwalk
    exact ⟨rfl, (Option.some.inj hwalk).symm, hs0⟩
  · intro hne
    cases cur with
    | startRef => exact absurd hat hne
    | cellRef r c =>
      obtain ⟨_, v, hpv, _⟩ := hC.d_prev r c hcurD
      exact ⟨v, hpv⟩
  · intro v hv
    obtain ⟨r, c, rfl, hr, hc, _, hvis⟩ := hfacts.cells v hv
    exact ⟨hr, hc, hvis⟩

/-- On an unsearched grid the chain walked from the node at the head of the frontier, when
that lies at the end position, is as long as a shortest route. -/
theorem Reached.shortest {g : Grid} {st en : GridNode} {s0 : Search} (h : Reached g st en s0)
    {cur : NodeRef} {rest : List NodeRef} (hq : s0.unvisited = cur :: rest)
    (hend : (s0.node cur).pos = s0.endNode.pos) (wfuel : Nat) {ds : List NodeRef}
    (hwalk : walkPrev s0 wfuel cur = some ds) (hfuel : g.rows * g.cols < wfuel) :
    Shortest g st en ds := by
  obtain ⟨lvl, hI⟩ := h.inv
  have hA := h.arena
  have hrows : s0.grid.rows = g.rows := hA.rows
  have hcols : s0.grid.cols = g.cols := hA.cols
  have hen : s0.endNode = en := hA.endNode
  have hst : s0.startNode.pos = st.pos := hA.start_pos
  have hwall : ∀ r c, (s0.grid.nodes r c).isWall = (g.nodes r c).isWall := hA.isWall
  have toS0 : ∀ {k : Nat} {p : Nat × Nat}, Route g st.pos k p →
      Route s0.grid s0.startNode.pos k p := by
    intro k p hr
    rw [hst]; exact hr.congr_grid hrows hcols hwall
  have ofS0 : ∀ {k : Nat} {p : Nat × Nat}, Route s0.grid s0.startNode.pos k p →
      Route g st.pos k p := by
    intro k p hr
    rw [hst] at hr; exact hr.congr_grid hrows.symm hcols.symm (fun r c => (hwall r c).symm)
  have hcur : s0.Disc cur := hI.queue_disc cur (by rw [hq]; exact List.mem_cons_self _ _)
  have hb := hI.lvl_bound cur hcur
  have hlt : lvl cur < wfuel := by
    rw [hrows, hcols] at hb; omega
  obtain ⟨ds', hwalk', hlen, _⟩ := hI.walk (lvl cur) cur hcur rfl wfuel hlt
  rw [hwalk] at hwalk'
  have hds : ds = ds' := Option.some.inj hwalk'
  subst hds
  constructor
  · have := ofS0 (hI.route_of_disc (lvl cur) cur hcur rfl)
    rw [hend, hen] at this
    rw [hlen]; exact this
  · intro hne k hr
    rw [hlen]
    refine hI.head_le_route hq ?_ ?_
    · rw [hend, hen, hst]; exact fun h => hne h.symm
    · rw [hend, hen]; exact toS0 hr

theorem Reached.toC {g : Grid} {st en : GridNode} {s0 : Search} (h : Reached g st en s0) :
    CReached g st en s0 := by
  obtain ⟨lvl, hI⟩ := h.inv
  exact ⟨h.steps, ⟨_, lvl, hI.toCInv⟩, h.arena⟩

theorem start_measure (st en : GridNode) (g : Grid) :
    (Search.start st en g).grid.unvisitedCount + (Search.start st en g).unvisited.length ≤
      g.rows * g.cols + 1 := by
  have := Grid.unvisitedCount_le g
  simp only [Search.start, List.length_singleton]
  omega

theorem start_queueDisc (st en : GridNode) (g : Grid) : (Search.start st en g).QueueDisc := by
  intro ref href
  simp only [Search.start, List.mem_singleton] at href
  subst href; trivial

/-- The two ways a search on a well-formed grid can end, with what holds in each; `s0` is
the state in which the loop makes its last test. -/
theorem search_general (st en : GridNode) (g : Grid) (hp : st.prev = none)
    (hwf : g.WellFormed) (fuel : Nat) (hfuel : g.rows * g.cols + 2 ≤ fuel) :
    ∃ s0, Steps (Search.start st en g) s0 ∧
      ((s0.unvisited = [] ∧
          (Search.loop fuel fuel (Search.start st en g)).2 = Report.exhausted) ∨
        ∃ cur rest ds, s0.unvisited = cur :: rest ∧ (s0.node cur).pos = s0.endNode.pos ∧
          walkPrev s0 (fuel + 1) cur = some ds ∧
          FoundFacts g st en (Search.loop fuel fuel (Search.start st en g)).1
            (Search.loop fuel fuel (Search.start st en g)).2 cur ds) := by
  have hm := start_measure st en g
  obtain ⟨s0, hsteps, hres⟩ := loop_spec fuel fuel _ (start_queueDisc st en g) (by omega)
  have hR := CReached.of_steps_wf hp hwf hsteps
  refine ⟨s0, hsteps, ?_⟩
  rcases hres with ⟨hq, hloop⟩ | ⟨cur, rest, hq, hend, hloop⟩
  · left
    exact ⟨hq, by rw [hloop]⟩
  · right
    obtain ⟨ds, hwalk, hchain, hsame, hdiff, _⟩ := hR.chain hq hend (fuel + 1) (by omega)
    have hwalk1 : walkPrev (dequeue s0 cur rest) (fuel + 1) cur = some ds :=
      (walkPrev_congr (dequeue_node_prev s0 cur rest) _ _).trans hwalk
    rw [hloop]
    refine ⟨cur, rest, ds, hq, hend, hwalk,
      { toChainOf := hchain.transfer (fun v _ => dequeue_node_prev s0 cur rest v),
        found := (reconstruct_found _ _ _).1, alerted := (reconstruct_found _ _ _).2,
        normal := ?_, thrown := ?_ }⟩
    · intro hne
      obtain ⟨v, hpv⟩ := hdiff hne
      have hp1 : ((dequeue s0 cur rest).node cur).prev = some v :=
        (dequeue_node_prev s0 _ rest _).trans hpv
      rw [reconstruct_of_walk _ fuel _ v ds hp1 hwalk1]
      exact ⟨rfl, rfl⟩
    · intro heq
      obtain ⟨hc, hds, hs0⟩ := hsame heq
      subst hc
      have hp1 : ((dequeue s0 NodeRef.startRef rest).node NodeRef.startRef).prev = none := by
        rw [dequeue_node_prev, hs0]; exact hp
      rw [reconstruct_of_no_prev _ fuel _ hp1]
      exact ⟨rfl, hds, rfl⟩

/-- The two ways a search on an unsearched grid can end, with what holds in each. -/
theorem search_fresh (st en : GridNode) (g : Grid) (hp : st.prev = none) (hwf : g.WellFormed)
    (hu : g.Unsearched) (fuel : Nat) (hfuel : g.rows * g.cols + 2 ≤ fuel) :
    ((Search.loop fuel fuel (Search.start st en g)).2 = Report.exhausted ∧
        ∀ k, ¬ Route g st.pos k en.pos) ∨
      ∃ cur ds, FoundFacts g st en (Search.loop fuel fuel (Search.start st en g)).1
        (Search.loop fuel fuel (Search.start st en g)).2 cur ds ∧ Shortest g st en ds := by
  obtain ⟨s0, hsteps, hres⟩ := search_general st en g hp hwf fuel hfuel
  have hR := Reached.of_steps hp hwf hu hsteps
  rcases hres with ⟨hq, hrep⟩ | ⟨cur, rest, ds, hq, hend, hwalk, hf⟩
  · exact Or.inl ⟨hrep, hR.no_route hq⟩
  · exact Or.inr ⟨cur, ds, hf, hR.shortest hq hend (fuel + 1) hwalk (by omega)⟩

theorem dijkstras_eq (fuel : Nat) (sim : Simulation) (st en : GridNode)
    (hs : sim.startNode = some st) (he : sim.endNode = some en) :
    dijkstras fuel sim =
      { sim := { sim with
                 startNode := some (Search.loop fuel fuel (Search.start st en sim.grid)).1.startNode
                 grid := (Search.loop fuel fuel (Search.start st en sim.grid)).1.grid }
        report := (Search.loop fuel fuel (Search.start st en sim.grid)).2
        dequeued := (Search.loop fuel fuel (Search.start st en sim.grid)).1.dequeued } := by
  simp only [dijkstras, hs, he]

theorem node_written_back (sim : Simulation) (s : Search) :
    ({ sim with startNode := some s.startNode, grid := s.grid } : Simulation).node =
      fun v => some (s.node v) := by
  funext v
  cases v <;> rfl

/-- A chain that starts at a cell and ends at the start node, taken apart. -/
theorem chain_from_cell {cur : NodeRef} {ds tl : List NodeRef} {start target : Nat × Nat}
    (h : ds ++ [NodeRef.startRef] = cur :: tl) (hat : cur.posIn start = target)
    (hne : start ≠ target) :
    cur = NodeRef.cellRef target.1 target.2 ∧ tl.getLast? = some NodeRef.startRef ∧
      tl.length = ds.length ∧ ds = cur :: tl.dropLast := by
  cases cur with
  | startRef => exact absurd hat hne
  | cellRef r c =>
    cases ds with
    | nil =>
      simp only [List.nil_append, List.cons.injEq] at h
      exact NodeRef.noConfusion h.1
    | cons d ds' =>
      simp only [List.cons_append, List.cons.injEq] at h
      obtain ⟨rfl, rfl⟩ := h
      simp only [NodeRef.posIn] at hat
      subst hat
      simp

/-- C1: on a freshly initialised search state with start != end, if `dijkstras` reaches
the end cell then the predecessor chain of the end cell leads back to the start node, and
the number of links followed (the nodes drawn by the reconstruction, one per link) is the
least number of moves of any 4-connected route from start to end whose cells after the
start are non-wall cells of the grid. -/
theorem dijkstras_shortest_route (sim : Simulation) (st en : GridNode) (fuel : Nat)
    (hs : sim.startNode = some st) (he : sim.endNode = some en) (hp : st.prev = none)
    (hwf : sim.grid.WellFormed) (hu : sim.grid.Unsearched) (hne : st.pos ≠ en.pos)
    (hfuel : sim.grid.rows * sim.grid.cols + 2 ≤ fuel)
    (hfound : (dijkstras fuel sim).report.foundValidPath = true) :
    ∃ path : List NodeRef,
      IsPrevChain (dijkstras fuel sim).sim.node (NodeRef.cellRef en.y en.x :: path) ∧
        path.getLast? = some NodeRef.startRef ∧
        (dijkstras fuel sim).report.drawn ++ [NodeRef.startRef] =
          NodeRef.cellRef en.y en.x :: path ∧
        Route sim.grid st.pos path.length en.pos ∧
        ∀ k, Route sim.grid st.pos k en.pos → path.length ≤ k := by
  rw [dijkstras_eq fuel sim st en hs he] at hfound ⊢
  simp only [node_written_back] at hfound ⊢
  rcases search_fresh st en sim.grid hp hwf hu fuel hfuel with ⟨hex, _⟩ | ⟨cur, ds, hf, hsh⟩
  · rw [hex] at hfound
    exact Bool.noConfusion hfound
  · obtain ⟨tl, htl⟩ := hf.head
    obtain ⟨hcur, hlast, hlen, _⟩ := chain_from_cell htl hf.at_end hne
    have hcur' : cur = NodeRef.cellRef en.y en.x := hcur
    refine ⟨tl, ?_, hlast, ?_, ?_, ?_⟩
    · rw [← hcur', ← htl]; exact hf.chain
    · rw [(hf.normal hne).2, ← hcur', htl]
    · rw [hlen]; exact hsh.route
    · intro k hr; rw [hlen]; exact hsh.shortest hne k hr

/-! ## States the event handlers produce -/

theorem Grid.wellFormed_initialize (size : Nat) : Grid.WellFormed ( Grid.initialize size) := by
  intro row col _ _
  exact ⟨rfl, rfl⟩

theorem Grid.unsearched_initialize (size : Nat) : Grid.Unsearched ( Grid.initialize size) := by
  intro row col _ _
  exact ⟨rfl, rfl⟩

theorem Grid.WellFormed.setWall_wf {g : Grid} (h : g.WellFormed) (row col : Nat) (b : Bool) :
    (g.setNode row col { g.getNode row col with isWall := b }).WellFormed := by
  intro r c hr hc
  have h1 := h r c hr hc
  simp only [Grid.setNode, Grid.getNode]
  by_cases hrc : r = row ∧ c = col
  · obtain ⟨rfl, rfl⟩ := hrc; simpa using h1
  · simpa [hrc] using h1

theorem Grid.Unsearched.setWall_unsearched {g : Grid} (h : g.Unsearched) (row col : Nat) (b : Bool) :
    (g.setNode row col { g.getNode row col with isWall := b }).Unsearched := by
  intro r c hr hc
  have h1 := h r c hr hc
  simp only [Grid.setNode, Grid.getNode]
  by_cases hrc : r = row ∧ c = col
  · obtain ⟨rfl, rfl⟩ := hrc; simpa using h1
  · simpa [hrc] using h1

theorem Simulation.fresh_init (size : Nat) : (Simulation.init size).Fresh :=
  ⟨Grid.wellFormed_initialize size, Grid.unsearched_initialize size,
    fun _ h => Option.noConfusion h⟩

theorem Simulation.Fresh.reset {sim : Simulation} (_ : sim.Fresh) (size : Nat) :
    (CanvasDijkstra.reset size sim).Fresh :=
  ⟨Grid.wellFormed_initialize size, Grid.unsearched_initialize size,
    fun _ h => Option.noConfusion h⟩

theorem Simulation.Fresh.click {sim : Simulation} (h : sim.Fresh) (row col : Nat) :
    (handleCanvasClick row col sim).Fresh := by
  unfold handleCanvasClick
  split
  · refine ⟨h.1, h.2.1, ?_⟩
    intro st hst
    simp only [Option.some.injEq] at hst
    subst hst; rfl
  · split
    · exact ⟨h.1, h.2.1, h.2.2⟩
    · split
      · exact ⟨h.1.setWall_wf row col false, h.2.1.setWall_unsearched row col false, h.2.2⟩
      · exact ⟨h.1.setWall_wf row col true, h.2.1.setWall_unsearched row col true, h.2.2⟩

theorem Simulation.Fresh.drawWall {sim : Simulation} (h : sim.Fresh) (row col : Nat) :
    (handleCanvasDrawWall row col sim).Fresh := by
  unfold handleCanvasDrawWall
  split
  · exact h
  · exact ⟨h.1.setWall_wf row col true, h.2.1.setWall_unsearched row col true, h.2.2⟩

theorem detourExample_fresh : detourExample.Fresh :=
  ((((Simulation.fresh_init 3).click 0 0).click 0 2).click 0 1).click 1 1

/-- Witness of C1 on `detourExample`: the chain found has the six links of the way round
the wall. -/
theorem dijkstras_shortest_route_witness :
    (dijkstras 11 detourExample).report.drawn =
        [NodeRef.cellRef 0 2, NodeRef.cellRef 1 2, NodeRef.cellRef 2 2, NodeRef.cellRef 2 1,
          NodeRef.cellRef 2 0, NodeRef.cellRef 1 0] ∧
      ∃ path : List NodeRef,
        IsPrevChain (dijkstras 11 detourExample).sim.node (NodeRef.cellRef 0 2 :: path) ∧
          path.getLast? = some NodeRef.startRef ∧
          (dijkstras 11 detourExample).report.drawn ++ [NodeRef.startRef] =
            NodeRef.cellRef 0 2 :: path ∧
          Route detourExample.grid (0, 0) path.length (0, 2) ∧
          ∀ k, Route detourExample.grid (0, 0) k (0, 2) → path.length ≤ k :=
  ⟨by decide,
    dijkstras_shortest_route detourExample (GridNode.new 0 0) (GridNode.new 2 0) 11 rfl rfl rfl
      detourExample_fresh.1 detourExample_fresh.2.1 (by decide) (by decide) (by decide)⟩

/-- C2: on a freshly initialised search state, `dijkstras` finishes normally with
`foundValidPath` false, that is with the report of the alert "No valid path was found!",
exactly when no 4-connected route leads from start to end through non-wall cells of the
grid (the start itself is exempt from the wall check). -/
theorem dijkstras_no_path_iff (sim : Simulation) (st en : GridNode) (fuel : Nat)
    (hs : sim.startNode = some st) (he : sim.endNode = some en) (hp : st.prev = none)
    (hwf : sim.grid.WellFormed) (hu : sim.grid.Unsearched)
    (hfuel : sim.grid.rows * sim.grid.cols + 2 ≤ fuel) :
    (((dijkstras fuel sim).report.completion = Completion.normal ∧
          (dijkstras fuel sim).report.foundValidPath = false) ↔
        ¬ ∃ k, Route sim.grid st.pos k en.pos) ∧
      ((dijkstras fuel sim).report = Report.exhausted ↔
        ¬ ∃ k, Route sim.grid st.pos k en.pos) := by
  simp only [dijkstras_eq fuel sim st en hs he]
  rcases search_fresh st en sim.grid hp hwf hu fuel hfuel with
    ⟨hex, hno⟩ | ⟨cur, ds, hf, hsh⟩
  · have hnr : ¬ ∃ k, Route sim.grid st.pos k en.pos := fun ⟨k, hk⟩ => hno k hk
    refine ⟨⟨fun _ => hnr, fun _ => ?_⟩, ⟨fun _ => hnr, fun _ => hex⟩⟩
    rw [hex]; exact ⟨rfl, rfl⟩
  · have hr : ∃ k, Route sim.grid st.pos k en.pos := ⟨_, hsh.route⟩
    have hfd := hf.found
    constructor
    · constructor
      · intro h
        rw [h.2] at hfd
        exact Bool.noConfusion hfd
      · intro h; exact absurd hr h
    · constructor
      · intro h
        rw [h] at hfd
        exact Bool.noConfusion hfd
      · intro h; exact absurd hr h

theorem walledExample_fresh : walledExample.Fresh :=
  (((((Simulation.fresh_init 3).click 0 0).click 2 0).click 1 0).click 1 1).click 1 2

/-- Witness of C2 on `walledExample`: the run reports that no path was found, and indeed
no route exists. -/
theorem dijkstras_no_path_iff_witness :
    (dijkstras 11 walledExample).report = Report.exhausted ∧
      ¬ ∃ k, Route walledExample.grid (0, 0) k (2, 0) :=
  ⟨by decide,
    (dijkstras_no_path_iff walledExample (GridNode.new 0 0) (GridNode.new 0 2) 11 rfl rfl rfl
      walledExample_fresh.1 walledExample_fresh.2.1 (by decide)).2.mp (by decide)⟩

/-- C3, as amended: when the search finds the end, the predecessor chain from the node
dequeued at the end position leads back to the start node; every cell on it other than
the start node is a non-wall cell of the grid, and every two consecutive cells of the
chain, the start included, lie one step up, down, left or right of each other.  This holds
on every well-formed grid, searched before or not. -/
theorem dijkstras_path_cells (sim : Simulation) (st en : GridNode) (fuel : Nat)
    (hs : sim.startNode = some st) (he : sim.endNode = some en) (hp : st.prev = none)
    (hwf : sim.grid.WellFormed) (hfuel : sim.grid.rows * sim.grid.cols + 2 ≤ fuel)
    (hfound : (dijkstras fuel sim).report.foundValidPath = true) :
    ∃ (cur : NodeRef) (tl : List NodeRef),
      cur.posIn st.pos = en.pos ∧
        IsPrevChain (dijkstras fuel sim).sim.node (cur :: tl) ∧
        (cur :: tl).getLast? = some NodeRef.startRef ∧
        (∀ v ∈ cur :: tl, v ≠ NodeRef.startRef →
          ∃ r c, v = NodeRef.cellRef r c ∧ r < sim.grid.rows ∧ c < sim.grid.cols ∧
            (sim.grid.nodes r c).isWall = false) ∧
        List.Chain' (fun a b => Adjacent (a.posIn st.pos) (b.posIn st.pos)) (cur :: tl) := by
  rw [dijkstras_eq fuel sim st en hs he] at hfound ⊢
  simp only [node_written_back] at hfound ⊢
  obtain ⟨s0, _, hres⟩ := search_general st en sim.grid hp hwf fuel hfuel
  rcases hres with ⟨_, hex⟩ | ⟨cur, rest, ds, _, _, _, hf⟩
  · rw [hex] at hfound
    exact Bool.noConfusion hfound
  · obtain ⟨tl, htl⟩ := hf.head
    refine ⟨cur, tl, hf.at_end, ?_, ?_, ?_, ?_⟩
    · rw [← htl]; exact hf.chain
    · rw [← htl]; simp
    · intro v hv hne
      rw [← htl, List.mem_append, List.mem_singleton] at hv
      rcases hv with hv | hv
      · exact hf.cells v hv
      · exact absurd hv hne
    · rw [← htl]; exact hf.adjacent

theorem startWallExample_fresh : startWallExample.Fresh :=
  (((Simulation.fresh_init 3).click 0 0).click 0 1).click 0 0

/-- Counterexample to C3 as stated: on `startWallExample` the search finds the end, the
reconstructed path is the end cell followed by the start node, which lies at (0, 0), and
the cell of the grid at (0, 0) is a wall. -/
theorem path_start_may_be_wall :
    (dijkstras 11 startWallExample).report.foundValidPath = true ∧
      (dijkstras 11 startWallExample).report.completion = Completion.normal ∧
      IsPrevChain (dijkstras 11 startWallExample).sim.node
        [NodeRef.cellRef 0 1, NodeRef.startRef] ∧
      (dijkstras 11 startWallExample).sim.startNode.map GridNode.pos = some (0, 0) ∧
      ((dijkstras 11 startWallExample).sim.grid.nodes 0 0).isWall = true := by
  decide

/-- Witness of C3 as amended, on `startWallExample`. -/
theorem dijkstras_path_cells_witness :
    ∃ (cur : NodeRef) (tl : List NodeRef),
      cur.posIn (0, 0) = (0, 1) ∧
        IsPrevChain (dijkstras 11 startWallExample).sim.node (cur :: tl) ∧
        (cur :: tl).getLast? = some NodeRef.startRef ∧
        (∀ v ∈ cur :: tl, v ≠ NodeRef.startRef →
          ∃ r c, v = NodeRef.cellRef r c ∧ r < startWallExample.grid.rows ∧
            c < startWallExample.grid.cols ∧
            (startWallExample.grid.nodes r c).isWall = false) ∧
        List.Chain' (fun a b => Adjacent (a.posIn (0, 0)) (b.posIn (0, 0))) (cur :: tl) :=
  dijkstras_path_cells startWallExample (GridNode.new 0 0) (GridNode.new 1 0) 11 rfl rfl rfl
    startWallExample_fresh.1 (by decide) (by decide)

/-! ## The step-wise run -/

theorem frames_idle (wfuel fuel : Nat) (v : Viz) (h : v.scheduled = false) :
    frames wfuel fuel v = v := by
  cases fuel <;> simp [frames, h]

theorem isEqual_iff (a b : GridNode) : a.isEqual b = true ↔ a.pos = b.pos := by
  simp only [GridNode.isEqual, GridNode.pos, Bool.and_eq_true, beq_iff_eq, Prod.mk.injEq]
  constructor
  · rintro ⟨h1, h2⟩; exact ⟨h2, h1⟩
  · rintro ⟨h1, h2⟩; exact ⟨h2, h1⟩

theorem dequeue_isEqual_iff (s : Search) (cur : NodeRef) (rest : List NodeRef) :
    ((dequeue s cur rest).node cur).isEqual (dequeue s cur rest).endNode = true ↔
      (s.node cur).pos = s.endNode.pos := by
  rw [isEqual_iff, dequeue_node_pos, (dequeue_frame s cur rest).2.1]

theorem update_found (wfuel : Nat) (s : Search) (r : Report) {cur : NodeRef}
    {rest : List NodeRef} {ds : List NodeRef} (hq : s.unvisited = cur :: rest)
    (hend : (s.node cur).pos = s.endNode.pos)
    (hw : walkPrev (dequeue s cur rest) wfuel cur = some ds) :
    update wfuel { search := s, scheduled := true, report := r } =
      { search := expand cur (dequeue s cur rest), scheduled := false,
        report := Report.vizFound ds } := by
  simp only [update, hq]
  rw [if_pos ((dequeue_isEqual_iff s cur rest).mpr hend)]
  simp only [hw, Report.vizFound]

theorem update_step (wfuel : Nat) (s : Search) (r : Report) {cur : NodeRef}
    {rest : List NodeRef} (hq : s.unvisited = cur :: rest)
    (hne : (s.node cur).pos ≠ s.endNode.pos) :
    update wfuel { search := s, scheduled := true, report := r } =
      if (expand cur (dequeue s cur rest)).unvisited.isEmpty then
        { search := expand cur (dequeue s cur rest), scheduled := false,
          report := Report.exhausted }
      else { search := expand cur (dequeue s cur rest), scheduled := true, report := r } := by
  simp only [update, hq]
  rw [if_neg (fun h => hne ((dequeue_isEqual_iff s cur rest).mp h))]
  rfl

/-- With as much fuel as unvisited cells plus frontier nodes, the frames of
`dijkstras_visualization` end: either a frame leaves the frontier empty, or a frame
dequeues a node at the end position. -/
theorem frames_spec (wfuel : Nat) (r : Report) : ∀ (fuel : Nat) (s : Search), s.QueueDisc →
    s.unvisited ≠ [] → s.grid.unvisitedCount + s.unvisited.length ≤ fuel →
    ∃ s0, Steps s s0 ∧
      ((s0.unvisited = [] ∧
          frames wfuel fuel { search := s, scheduled := true, report := r } =
            { search := s0, scheduled := false, report := Report.exhausted }) ∨
        ∃ cur rest, s0.unvisited = cur :: rest ∧ (s0.node cur).pos = s0.endNode.pos ∧
          frames wfuel fuel { search := s, scheduled := true, report := r } =
            update wfuel { search := s0, scheduled := true, report := r } ∧
          (update wfuel { search := s0, scheduled := true, report := r }).scheduled = false) := by
  intro fuel
  induction fuel with
  | zero =>
    intro s _ hne hm
    cases hq : s.unvisited with
    | nil => exact absurd hq hne
    | cons cur rest => rw [hq] at hm; simp at hm
  | succ fuel ih =>
    intro s hqd hne hm
    cases hq : s.unvisited with
    | nil => exact absurd hq hne
    | cons cur rest =>
      have hfr : frames wfuel (fuel + 1) { search := s, scheduled := true, report := r } =
          frames wfuel fuel (update wfuel { search := s, scheduled := true, report := r }) := by
        simp [frames]
      by_cases hend : (s.node cur).pos = s.endNode.pos
      · have hsch : (update wfuel { search := s, scheduled := true, report := r }).scheduled =
            false := by
          simp only [update, hq]
          rw [if_pos ((dequeue_isEqual_iff s cur rest).mpr hend)]
          split <;> rfl
        refine ⟨s, Steps.refl s, Or.inr ⟨cur, rest, hq, hend, ?_, hsch⟩⟩
        rw [hfr, frames_idle _ _ _ hsch]
      · have hst := stepFrom_expand s cur rest (hqd cur (by rw [hq]; exact List.mem_cons_self _ _))
        have hme := hst.measure_eq hq
        have hup := update_step wfuel s r hq hend
        cases hq2 : (expand cur (dequeue s cur rest)).unvisited with
        | nil =>
          refine ⟨expand cur (dequeue s cur rest), Steps.step hq hend (Steps.refl _),
            Or.inl ⟨hq2, ?_⟩⟩
          rw [hfr, hup, hq2]
          simp only [List.isEmpty_nil, if_true]
          exact frames_idle _ _ _ rfl
        | cons c2 r2 =>
          obtain ⟨s0, hsteps, hres⟩ := ih (expand cur (dequeue s cur rest))
            (hst.queueDisc hqd hq) (by rw [hq2]; exact List.cons_ne_nil _ _) (by omega)
          refine ⟨s0, Steps.step hq hend hsteps, ?_⟩
          rw [hfr, hup, hq2]
          simp only [List.isEmpty_cons, Bool.false_eq_true, if_false]
          exact hres

/-- The two ways a step-wise search on a well-formed grid can end, with what holds in
each; `s0` is the state the last frame starts from, or the one it leaves with an empty
frontier. -/
theorem viz_general (st en : GridNode) (g : Grid) (hp : st.prev = none) (hwf : g.WellFormed)
    (fuel : Nat) (hfuel : g.rows * g.cols + 2 ≤ fuel) :
    ∃ s0, Steps (Search.start st en g) s0 ∧
      ((s0.unvisited = [] ∧ (frames fuel fuel (Viz.start st en g)).search = s0 ∧
          (frames fuel fuel (Viz.start st en g)).report = Report.exhausted) ∨
        ∃ cur rest ds, s0.unvisited = cur :: rest ∧ (s0.node cur).pos = s0.endNode.pos ∧
          walkPrev s0 fuel cur = some ds ∧
          StepFrom s0 (frames fuel fuel (Viz.start st en g)).search cur rest ∧
          VizFacts g st en (frames fuel fuel (Viz.start st en g)).search
            (frames fuel fuel (Viz.start st en g)).report cur ds) := by
  unfold Viz.start
  have hm := start_measure st en g
  obtain ⟨s0, hsteps, hres⟩ := frames_spec fuel Report.none fuel _ (start_queueDisc st en g)
    (by simp [Search.start]) (by omega)
  have hR := CReached.of_steps_wf hp hwf hsteps
  refine ⟨s0, hsteps, ?_⟩
  rcases hres with ⟨hq, hfr⟩ | ⟨cur, rest, hq, hend, hfr, _⟩
  · left
    exact ⟨hq, by rw [hfr], by rw [hfr]⟩
  · right
    obtain ⟨ds, hwalk, hchain, hsame, _, hdisc⟩ := hR.chain hq hend fuel (by omega)
    have hwalk1 : walkPrev (dequeue s0 cur rest) fuel cur = some ds :=
      (walkPrev_congr (dequeue_node_prev s0 cur rest) _ _).trans hwalk
    obtain ⟨D, lvl, hC⟩ := hR.cinv
    have hst := stepFrom_expand s0 cur rest
      (hC.d_disc cur (hC.queue_d cur (by rw [hq]; exact List.mem_cons_self _ _)))
    rw [hfr, update_found fuel s0 Report.none hq hend hwalk1]
    refine ⟨cur, rest, ds, hq, hend, hwalk, hst,
      { toChainOf := hchain.transfer ?_, found := rfl, alerted := rfl, normal := rfl,
        drawn := rfl, at_start := fun h => (hsame h).2.1 }⟩
    intro v hv
    rw [List.mem_append, List.mem_singleton] at hv
    rcases hv with hv | rfl
    · have hd := hdisc v hv
      cases v with
      | startRef => exact hst.start_prev
      | cellRef r c =>
        refine hst.prev_of_not_news ?_
        intro hn
        have := hn.spec.2.2.2
        rw [hd.2.2] at this
        exact Bool.noConfusion this
    · exact hst.start_prev

/-- The two ways a step-wise search on an unsearched grid can end, with what holds in
each. -/
theorem viz_fresh (st en : GridNode) (g : Grid) (hp : st.prev = none) (hwf : g.WellFormed)
    (hu : g.Unsearched) (fuel : Nat) (hfuel : g.rows * g.cols + 2 ≤ fuel) :
    ((frames fuel fuel (Viz.start st en g)).report = Report.exhausted ∧
        ∀ k, ¬ Route g st.pos k en.pos) ∨
      ∃ cur ds, VizFacts g st en (frames fuel fuel (Viz.start st en g)).search
        (frames fuel fuel (Viz.start st en g)).report cur ds ∧ Shortest g st en ds := by
  obtain ⟨s0, hsteps, hres⟩ := viz_general st en g hp hwf fuel hfuel
  have hR := Reached.of_steps hp hwf hu hsteps
  rcases hres with ⟨hq, _, hrep⟩ | ⟨cur, rest, ds, hq, hend, hwalk, _, hf⟩
  · exact Or.inl ⟨hrep, hR.no_route hq⟩
  · exact Or.inr ⟨cur, ds, hf, hR.shortest hq hend fuel hwalk (by omega)⟩

theorem dijkstras_visualization_eq (fuel : Nat) (sim : Simulation) (st en : GridNode)
    (hs : sim.startNode = some st) (he : sim.endNode = some en) :
    dijkstras_visualization fuel sim =
      { sim := { sim with
                 startNode := some (frames fuel fuel (Viz.start st en sim.grid)).search.startNode
                 grid := (frames fuel fuel (Viz.start st en sim.grid)).search.grid }
        report := (frames fuel fuel (Viz.start st en sim.grid)).report
        dequeued := (frames fuel fuel (Viz.start st en sim.grid)).search.dequeued } := by
  simp only [dijkstras_visualization, hs, he]

/-- On a chain of `prev` links without repetition that ends at the start node, the start
node is the only node without predecessor. -/
theorem only_start_without_prev (node : NodeRef → Option GridNode) :
    ∀ path : List NodeRef, IsPrevChain node path → path.Nodup →
      path.getLast? = some NodeRef.startRef →
      ∀ v ∈ path, ((node v).map (fun n => n.prev) = some none ↔ v = NodeRef.startRef) := by
  intro path
  induction path with
  | nil => intro h; exact absurd h id
  | cons a l ih =>
    cases l with
    | nil =>
      intro hc _ hl v hv
      simp only [List.getLast?_singleton, Option.some.injEq] at hl
      rw [List.mem_singleton] at hv
      subst hv; subst hl
      exact ⟨fun _ => rfl, fun _ => hc⟩
    | cons b l =>
      intro hc hnd hl v hv
      have hl' : (b :: l).getLast? = some NodeRef.startRef := by
        rw [List.getLast?_cons_cons] at hl; exact hl
      have hnd' := List.nodup_cons.mp hnd
      rcases List.mem_cons.mp hv with rfl | hv'
      · constructor
        · intro h
          rw [hc.1] at h
          simp at h
        · intro h
          exfalso
          apply hnd'.1
          rw [h]
          exact List.mem_of_getLast?_eq_some hl'
      · exact ih hc.2 hnd'.2 hl' v hv'

theorem ChainOf.prevWalkOk {g : Grid} {st en : GridNode} {final : Search} {cur : NodeRef}
    {ds : List NodeRef} (h : ChainOf g st en final cur ds) (hne : st.pos ≠ en.pos) (run : Run)
    (hnode : run.sim.node = fun v => some (final.node v))
    (hc : run.report.completion = Completion.normal) (hd : run.report.drawn = ds) :
    PrevWalkOk run (NodeRef.cellRef en.y en.x) := by
  obtain ⟨tl, htl⟩ := h.head
  obtain ⟨hcur, hlast, _, _⟩ := chain_from_cell htl h.at_end hne
  have hcur' : cur = NodeRef.cellRef en.y en.x := hcur
  subst hcur'
  have hchain : IsPrevChain run.sim.node (NodeRef.cellRef en.y en.x :: tl) := by
    rw [hnode, ← htl]; exact h.chain
  have hnd : (NodeRef.cellRef en.y en.x :: tl).Nodup := by
    rw [← htl]; exact h.nodup
  have hlast' : (NodeRef.cellRef en.y en.x :: tl).getLast? = some NodeRef.startRef := by
    rw [← htl]; simp
  exact ⟨hc, tl, by rw [hd, htl], hchain, hnd, hlast,
    only_start_without_prev run.sim.node _ hchain hnd hlast'⟩

/-- C4: for every search on a well-formed grid, searched before or not, with start != end:
whenever the end cell is dequeued, by `dijkstras` or by a frame of
`dijkstras_visualization`, the walk along `prev` from the end cell reads no property of a
missing node, passes finitely many cells, none of them twice, and stops exactly at the
start node, the only node of the chain without predecessor. -/
theorem prev_walk_reaches_start (sim : Simulation) (st en : GridNode) (fuel : Nat)
    (hs : sim.startNode = some st) (he : sim.endNode = some en) (hp : st.prev = none)
    (hwf : sim.grid.WellFormed) (hne : st.pos ≠ en.pos)
    (hfuel : sim.grid.rows * sim.grid.cols + 2 ≤ fuel) :
    ((dijkstras fuel sim).report.foundValidPath = true →
        PrevWalkOk (dijkstras fuel sim) (NodeRef.cellRef en.y en.x)) ∧
      ((dijkstras_visualization fuel sim).report.foundValidPath = true →
        PrevWalkOk (dijkstras_visualization fuel sim) (NodeRef.cellRef en.y en.x)) := by
  constructor
  · intro hfound
    rw [dijkstras_eq fuel sim st en hs he] at hfound ⊢
    obtain ⟨s0, _, hres⟩ := search_general st en sim.grid hp hwf fuel hfuel
    rcases hres with ⟨_, hex⟩ | ⟨cur, rest, ds, _, _, _, hf⟩
    · simp only [hex] at hfound
      exact Bool.noConfusion hfound
    · exact hf.toChainOf.prevWalkOk hne _ (node_written_back _ _) (hf.normal hne).1
        (hf.normal hne).2
  · intro hfound
    rw [dijkstras_visualization_eq fuel sim st en hs he] at hfound ⊢
    obtain ⟨s0, _, hres⟩ := viz_general st en sim.grid hp hwf fuel hfuel
    rcases hres with ⟨_, _, hex⟩ | ⟨cur, rest, ds, _, _, _, _, hf⟩
    · simp only [hex] at hfound
      exact Bool.noConfusion hfound
    · exact hf.toChainOf.prevWalkOk hne _ (node_written_back _ _) hf.normal hf.drawn

/-- Witness of C4 on `detourExample`, in both modes. -/
theorem prev_walk_reaches_start_witness :
    PrevWalkOk (dijkstras 11 detourExample) (NodeRef.cellRef 0 2) ∧
      PrevWalkOk (dijkstras_visualization 11 detourExample) (NodeRef.cellRef 0 2) :=
  ⟨(prev_walk_reaches_start detourExample (GridNode.new 0 0) (GridNode.new 2 0) 11 rfl rfl rfl
      detourExample_fresh.1 (by decide) (by decide)).1 (by decide),
    (prev_walk_reaches_start detourExample (GridNode.new 0 0) (GridNode.new 2 0) 11 rfl rfl rfl
      detourExample_fresh.1 (by decide) (by decide)).2 (by decide)⟩

/-! ## Grids without walls -/

theorem Route.manhattan_le {g : Grid} {start : Nat × Nat} {k : Nat} {p : Nat × Nat}
    (h : Route g start k p) : manhattan start p ≤ k := by
  induction h with
  | here => simp [manhattan]
  | move _ hadj _ _ ih =>
    unfold manhattan at ih ⊢
    unfold Adjacent at hadj
    omega

theorem Route.of_noWalls {g : Grid} (hg : g.NoWalls) {start : Nat × Nat}
    (hs : g.InBounds start) :
    ∀ (n : Nat) (p : Nat × Nat), g.InBounds p → manhattan start p = n → Route g start n p := by
  intro n
  induction n with
  | zero =>
    intro p _ hd
    have hp : p = start := by
      unfold manhattan at hd
      apply Prod.ext <;> omega
    rw [hp]; exact Route.here
  | succ n ih =>
    intro p hp hd
    unfold manhattan at hd
    unfold Grid.InBounds at hp hs
    have hwall := hg p.1 p.2 hp.1 hp.2
    by_cases h1 : start.1 < p.1
    · refine Route.move (ih (p.1 - 1, p.2) ⟨?_, ?_⟩ ?_) ?_ hp hwall
      · show p.1 - 1 < g.rows; omega
      · exact hp.2
      · unfold manhattan; simp only; omega
      · exact Or.inl ⟨rfl, Or.inr (by show p.1 - 1 + 1 = p.1; omega)⟩
    · by_cases h2 : p.1 < start.1
      · refine Route.move (ih (p.1 + 1, p.2) ⟨?_, ?_⟩ ?_) ?_ hp hwall
        · show p.1 + 1 < g.rows; omega
        · exact hp.2
        · unfold manhattan; simp only; omega
        · exact Or.inl ⟨rfl, Or.inl rfl⟩
      · by_cases h3 : start.2 < p.2
        · refine Route.move (ih (p.1, p.2 - 1) ⟨?_, ?_⟩ ?_) ?_ hp hwall
          · exact hp.1
          · show p.2 - 1 < g.cols; omega
          · unfold manhattan; simp only; omega
          · exact Or.inr ⟨rfl, Or.inr (by show p.2 - 1 + 1 = p.2; omega)⟩
        · refine Route.move (ih (p.1, p.2 + 1) ⟨?_, ?_⟩ ?_) ?_ hp hwall
          · exact hp.1
          · show p.2 + 1 < g.cols; omega
          · unfold manhattan; simp only; omega
          · exact Or.inr ⟨rfl, Or.inl rfl⟩

theorem Grid.noWalls_initialize (size : Nat) : Grid.NoWalls ( Grid.initialize size) := by
  intro row col _ _
  rfl

/-- C5: on a freshly initialised grid without walls, for every pair of in-bounds endpoints,
`dijkstras` finds the end (`foundValidPath` is set), and the predecessor chain from the
node dequeued at the end position back to the start node has as many links as the
Manhattan distance between start and end.  For distinct endpoints the run ends normally
and the nodes it draws, followed by the start node, are that chain. -/
theorem dijkstras_open_grid_manhattan (sim : Simulation) (st en : GridNode) (fuel : Nat)
    (hs : sim.startNode = some st) (he : sim.endNode = some en) (hp : st.prev = none)
    (hwf : sim.grid.WellFormed) (hu : sim.grid.Unsearched) (hopen : sim.grid.NoWalls)
    (hsb : sim.grid.InBounds st.pos) (heb : sim.grid.InBounds en.pos)
    (hfuel : sim.grid.rows * sim.grid.cols + 2 ≤ fuel) :
    (dijkstras fuel sim).report.foundValidPath = true ∧
      ∃ (cur : NodeRef) (path : List NodeRef),
        cur.posIn st.pos = en.pos ∧
          IsPrevChain (dijkstras fuel sim).sim.node (cur :: path) ∧
          (cur :: path).getLast? = some NodeRef.startRef ∧
          path.length = manhattan st.pos en.pos ∧
          (st.pos ≠ en.pos →
            (dijkstras fuel sim).report.completion = Completion.normal ∧
              (dijkstras fuel sim).report.drawn ++ [NodeRef.startRef] = cur :: path) := by
  simp only [dijkstras_eq fuel sim st en hs he, node_written_back]
  have hroute := Route.of_noWalls hopen hsb (manhattan st.pos en.pos) en.pos heb rfl
  rcases search_fresh st en sim.grid hp hwf hu fuel hfuel with ⟨_, hno⟩ | ⟨cur, ds, hf, hsh⟩
  · exact absurd hroute (hno _)
  · obtain ⟨tl, htl⟩ := hf.head
    have hlen : tl.length = ds.length := by
      have := congrArg List.length htl
      simp only [List.length_append, List.length_cons, List.length_nil] at this
      omega
    have hle := hsh.route.manhattan_le
    have hge : ds.length ≤ manhattan st.pos en.pos := by
      by_cases hne : st.pos = en.pos
      · rw [(hf.thrown hne).2.1]; exact Nat.zero_le _
      · exact hsh.shortest hne _ hroute
    refine ⟨hf.found, cur, tl, hf.at_end, ?_, ?_, by omega, ?_⟩
    · rw [← htl]; exact hf.chain
    · rw [← htl]; simp
    · intro hne
      exact ⟨(hf.normal hne).1, by rw [(hf.normal hne).2, htl]⟩

theorem openExample_fresh : openExample.Fresh :=
  ((Simulation.fresh_init 5).click 0 0).click 4 4

/-- Witness of C5 on `openExample`: eight moves, a path of nine cells with the start. -/
theorem dijkstras_open_grid_manhattan_witness :
    manhattan (0, 0) (4, 4) = 8 ∧
      ((dijkstras 27 openExample).report.drawn ++ [NodeRef.startRef]).length = 9 ∧
      (dijkstras 27 openExample).report.foundValidPath = true ∧
      ∃ (cur : NodeRef) (path : List NodeRef),
        cur.posIn (0, 0) = (4, 4) ∧
          IsPrevChain (dijkstras 27 openExample).sim.node (cur :: path) ∧
          (cur :: path).getLast? = some NodeRef.startRef ∧
          path.length = manhattan (0, 0) (4, 4) ∧
          ((0, 0) ≠ (4, 4) →
            (dijkstras 27 openExample).report.completion = Completion.normal ∧
              (dijkstras 27 openExample).report.drawn ++ [NodeRef.startRef] = cur :: path) :=
  ⟨by decide, by decide,
    dijkstras_open_grid_manhattan openExample (GridNode.new 0 0) (GridNode.new 4 4) 27 rfl rfl
      rfl openExample_fresh.1 openExample_fresh.2.1 (Grid.noWalls_initialize 5)
      (by decide) (by decide) (by decide)⟩

/-! ## Start and end at the same position -/

theorem loop_start_at_end (st en : GridNode) (g : Grid) (fuel : Nat) (hp : st.prev = none)
    (heq : st.pos = en.pos) (hfuel : 1 ≤ fuel) :
    (Search.loop fuel fuel (Search.start st en g)).2 = Report.thrownAtStart := by
  obtain ⟨f, rfl⟩ : ∃ f, fuel = f + 1 := ⟨fuel - 1, by omega⟩
  rw [@loop_found (f + 1) f (Search.start st en g) NodeRef.startRef [] rfl heq]
  have hp1 : ((dequeue (Search.start st en g) NodeRef.startRef []).node NodeRef.startRef).prev =
      none := by
    rw [dequeue_node_prev]; exact hp
  simp only [reconstruct_of_no_prev _ _ _ hp1, Report.thrownAtStart]

theorem frames_start_at_end (st en : GridNode) (g : Grid) (fuel : Nat) (hp : st.prev = none)
    (heq : st.pos = en.pos) (hfuel : 1 ≤ fuel) :
    (frames fuel fuel (Viz.start st en g)).report = Report.vizFound [] := by
  obtain ⟨f, rfl⟩ : ∃ f, fuel = f + 1 := ⟨fuel - 1, by omega⟩
  have hw : walkPrev (dequeue (Search.start st en g) NodeRef.startRef []) (f + 1)
      NodeRef.startRef = some [] := by
    have hp1 : ((dequeue (Search.start st en g) NodeRef.startRef []).node
        NodeRef.startRef).prev = none := by
      rw [dequeue_node_prev]; exact hp
    simp only [walkPrev, hp1]
  have hup := @update_found (f + 1) (Search.start st en g) Report.none NodeRef.startRef [] []
    rfl heq hw
  have hfr : frames (f + 1) (f + 1) (Viz.start st en g) =
      frames (f + 1) f (update (f + 1) (Viz.start st en g)) := by
    simp [frames, Viz.start]
  rw [hfr]
  unfold Viz.start
  rw [hup, frames_idle _ _ _ rfl]

/-- The iterations lead to one stopping state only. -/
theorem steps_final_unique {s a : Search} (ha : Steps s a) :
    ∀ {b : Search}, Steps s b → a.Final → b.Final → a = b := by
  induction ha with
  | refl s =>
    intro b hb hfa _
    cases hb with
    | refl => rfl
    | step hq hne _ =>
      exfalso
      rcases hfa with h | ⟨cur, rest, h, hend⟩
      · rw [h] at hq; exact List.noConfusion hq
      · rw [h] at hq
        simp only [List.cons.injEq] at hq
        obtain ⟨rfl, _⟩ := hq
        exact hne hend
  | @step s t cur rest hq hne _ ih =>
    intro b hb hfa hfb
    cases hb with
    | refl =>
      exfalso
      rcases hfb with h | ⟨cur', rest', h, hend⟩
      · rw [h] at hq; exact List.noConfusion hq
      · rw [h] at hq
        simp only [List.cons.injEq] at hq
        obtain ⟨rfl, _⟩ := hq
        exact hne hend
    | step hq' _ hb' =>
      rw [hq] at hq'
      simp only [List.cons.injEq] at hq'
      obtain ⟨rfl, rfl⟩ := hq'
      exact ih hb' hfa hfb

theorem walkPrev_succ (s : Search) : ∀ (fuel : Nat) (u : NodeRef) (ds : List NodeRef),
    walkPrev s fuel u = some ds → walkPrev s (fuel + 1) u = some ds := by
  intro fuel
  induction fuel with
  | zero => intro u ds h; simp [walkPrev] at h
  | succ fuel ih =>
    intro u ds h
    rw [walkPrev] at h ⊢
    cases hp : (s.node u).prev with
    | none => rw [hp] at h; exact h
    | some p =>
      rw [hp] at h
      simp only at h ⊢
      cases hw : walkPrev s fuel p with
      | none => rw [hw] at h; simp at h
      | some ds' =>
        rw [hw] at h
        rw [ih p ds' hw]
        exact h

theorem Report.ext_fields {a b : Report} (h1 : a.foundValidPath = b.foundValidPath)
    (h2 : a.alerted = b.alerted) (h3 : a.drawn = b.drawn) (h4 : a.completion = b.completion) :
    a = b := by
  cases a; cases b
  simp only [Report.mk.injEq]
  exact ⟨h1, h2, h3, h4⟩

/-- Apart from the defect of C6 the two modes agree: on every well-formed grid with
start != end, `dijkstras` and the frames of `dijkstras_visualization` give the same
report, hence the same outcome and the same chain drawn from the end back to the start. -/
theorem modes_agree_when_start_differs (sim : Simulation) (st en : GridNode) (fuel : Nat)
    (hs : sim.startNode = some st) (he : sim.endNode = some en) (hp : st.prev = none)
    (hwf : sim.grid.WellFormed) (hne : st.pos ≠ en.pos)
    (hfuel : sim.grid.rows * sim.grid.cols + 2 ≤ fuel) :
    (dijkstras fuel sim).report = (dijkstras_visualization fuel sim).report := by
  simp only [dijkstras_eq fuel sim st en hs he, dijkstras_visualization_eq fuel sim st en hs he]
  obtain ⟨a, hsa, hra⟩ := search_general st en sim.grid hp hwf fuel hfuel
  obtain ⟨b, hsb, hrb⟩ := viz_general st en sim.grid hp hwf fuel hfuel
  have hfa : a.Final := by
    rcases hra with ⟨h, _⟩ | ⟨cur, rest, _, hq, hend, _⟩
    · exact Or.inl h
    · exact Or.inr ⟨cur, rest, hq, hend⟩
  have hfb : b.Final := by
    rcases hrb with ⟨h, _⟩ | ⟨cur, rest, _, hq, hend, _⟩
    · exact Or.inl h
    · exact Or.inr ⟨cur, rest, hq, hend⟩
  have hab := steps_final_unique hsa hsb hfa hfb
  subst hab
  rcases hra with ⟨hqa, hrepa⟩ | ⟨cur, rest, ds, hqa, _, hwa, hfa'⟩
  · rcases hrb with ⟨_, _, hrepb⟩ | ⟨cur', rest', ds', hqb, _⟩
    · rw [hrepa, hrepb]
    · rw [hqa] at hqb; exact List.noConfusion hqb
  · rcases hrb with ⟨hqb, _⟩ | ⟨cur', rest', ds', hqb, _, hwb, _, hfb'⟩
    · rw [hqa] at hqb; exact List.noConfusion hqb
    · rw [hqa] at hqb
      simp only [List.cons.injEq] at hqb
      obtain ⟨rfl, rfl⟩ := hqb
      have hds : ds = ds' := by
        have := walkPrev_succ a fuel cur ds' hwb
        rw [hwa] at this
        exact Option.some.inj this
      subst hds
      exact Report.ext_fields (hfa'.found.trans hfb'.found.symm)
        (hfa'.alerted.trans hfb'.alerted.symm)
        ((hfa'.normal hne).2.trans hfb'.drawn.symm)
        ((hfa'.normal hne).1.trans hfb'.normal.symm)

/-- C6, the defect: when start and end have the same coordinates, `dijkstras` ends with an
uncaught `TypeError`, while the step-wise run from the same state ends normally and
reports the end found: the two modes do not give the same terminal outcome. -/
theorem modes_disagree_when_start_is_end (sim : Simulation) (st en : GridNode) (fuel : Nat)
    (hs : sim.startNode = some st) (he : sim.endNode = some en) (hp : st.prev = none)
    (heq : st.pos = en.pos) (hfuel : 1 ≤ fuel) :
    (dijkstras fuel sim).report.completion = Completion.typeError ∧
      (dijkstras_visualization fuel sim).report = Report.vizFound [] := by
  simp only [dijkstras_eq fuel sim st en hs he, dijkstras_visualization_eq fuel sim st en hs he]
  exact ⟨by rw [loop_start_at_end st en sim.grid fuel hp heq hfuel]; rfl,
    frames_start_at_end st en sim.grid fuel hp heq hfuel⟩

/-- C7, the defect: when start and end have the same coordinates, `dijkstras` sets
`foundValidPath`, draws the end node and then raises a `TypeError` at line 120, where
`temp` is the missing predecessor of the start node. -/
theorem dijkstras_throws_when_start_is_end (sim : Simulation) (st en : GridNode) (fuel : Nat)
    (hs : sim.startNode = some st) (he : sim.endNode = some en) (hp : st.prev = none)
    (heq : st.pos = en.pos) (hfuel : 1 ≤ fuel) :
    (dijkstras fuel sim).report = Report.thrownAtStart := by
  simp only [dijkstras_eq fuel sim st en hs he]
  exact loop_start_at_end st en sim.grid fuel hp heq hfuel

/-- Witness of C6 on `sameCellExample`. -/
theorem modes_disagree_when_start_is_end_witness :
    (dijkstras 11 sameCellExample).report.completion = Completion.typeError ∧
      (dijkstras_visualization 11 sameCellExample).report = Report.vizFound [] :=
  modes_disagree_when_start_is_end sameCellExample (GridNode.new 1 1) (GridNode.new 1 1) 11
    rfl rfl rfl rfl (by decide)

/-- Witness of C7 on `sameCellExample`. -/
theorem dijkstras_throws_when_start_is_end_witness :
    (dijkstras 11 sameCellExample).report = Report.thrownAtStart :=
  dijkstras_throws_when_start_is_end sameCellExample (GridNode.new 1 1) (GridNode.new 1 1) 11
    rfl rfl rfl rfl (by decide)

/-! ## `tryStartDijkstra` -/

/-- C8: when `startNode` or `endNode` is not set, `tryStartDijkstra` only warns: it runs
neither `dijkstras` nor `dijkstras_visualization`, and the component (the endpoints and
every field of every grid cell) is left as it was. -/
theorem tryStartDijkstra_missing_endpoint (fuel : Nat) (sim : Simulation)
    (h : sim.startNode = none ∨ sim.endNode = none) :
    tryStartDijkstra fuel sim = (sim, Started.warned) := by
  unfold tryStartDijkstra
  rcases h with h | h
  · simp [h]
  · simp [h]

/-- Witness of C8: after a single click only the start is set. -/
theorem tryStartDijkstra_missing_endpoint_witness :
    tryStartDijkstra 11 (handleCanvasClick 0 0 (Simulation.init 3)) =
      (handleCanvasClick 0 0 (Simulation.init 3), Started.warned) :=
  tryStartDijkstra_missing_endpoint 11 (handleCanvasClick 0 0 (Simulation.init 3)) (Or.inr rfl)

/-! ## Starting the search a second time -/

theorem Simulation.Fresh.apply {sim : Simulation} (h : sim.Fresh) (size : Nat) (e : Edit) :
    (e.apply size sim).Fresh := by
  cases e with
  | click row col => exact h.click row col
  | drawWall row col => exact h.drawWall row col
  | reset => exact h.reset size
  | setIsDrawingWalls b => exact h
  | setShouldVisualize b => exact h

theorem Simulation.fresh_foldl (size : Nat) (edits : List Edit) :
    ∀ sim : Simulation, sim.Fresh → (edits.foldl (Edit.apply size) sim).Fresh := by
  induction edits with
  | nil => intro sim h; exact h
  | cons e es ih => intro sim h; exact ih _ (h.apply size e)

theorem Simulation.fresh_afterEdits (size : Nat) (edits : List Edit) :
    (Simulation.afterEdits size edits).Fresh :=
  Simulation.fresh_foldl size edits _ (Simulation.fresh_init size)

theorem expand_start_closed (st en : GridNode) (g : Grid) (hc : g.ClosedAround st.pos) :
    (expand NodeRef.startRef (dequeue (Search.start st en g) NodeRef.startRef [])).unvisited =
      [] := by
  have hst := stepFrom_expand (Search.start st en g) NodeRef.startRef [] trivial
  rw [hst.unvisited]
  have hf : ((Search.start st en g).grid.getNeighbors
      ((Search.start st en g).node NodeRef.startRef).y
      ((Search.start st en g).node NodeRef.startRef).x).filter (Search.start st en g).takes =
      [] := by
    rw [List.filter_eq_nil_iff]
    intro p hp
    have := hc p hp
    simp only [Search.takes, Search.start, Bool.not_eq_true', Bool.or_eq_false_iff, not_and,
      Bool.not_eq_false]
    intro hw
    rcases this with h1 | h1
    · rw [h1] at hw; exact Bool.noConfusion hw
    · exact h1
  rw [hf]
  rfl

/-- A search begun where the start is closed in, with the end elsewhere, reports that no
path was found. -/
theorem loop_start_closed (st en : GridNode) (g : Grid) (fuel : Nat) (hne : st.pos ≠ en.pos)
    (hc : g.ClosedAround st.pos) (hfuel : 2 ≤ fuel) :
    (Search.loop fuel fuel (Search.start st en g)).2 = Report.exhausted := by
  obtain ⟨f, rfl⟩ : ∃ f, fuel = f + 2 := ⟨fuel - 2, by omega⟩
  rw [@loop_step (f + 2) (f + 1) (Search.start st en g) NodeRef.startRef [] rfl hne]
  rw [loop_nil (f + 2) f _ (expand_start_closed st en g hc)]

theorem frames_start_closed (st en : GridNode) (g : Grid) (fuel : Nat) (hne : st.pos ≠ en.pos)
    (hc : g.ClosedAround st.pos) (hfuel : 1 ≤ fuel) :
    (frames fuel fuel (Viz.start st en g)).report = Report.exhausted := by
  obtain ⟨f, rfl⟩ : ∃ f, fuel = f + 1 := ⟨fuel - 1, by omega⟩
  have hfr : frames (f + 1) (f + 1) (Viz.start st en g) =
      frames (f + 1) f (update (f + 1) (Viz.start st en g)) := by
    simp [frames, Viz.start]
  rw [hfr]
  unfold Viz.start
  rw [@update_step (f + 1) (Search.start st en g) Report.none NodeRef.startRef [] rfl hne,
    expand_start_closed st en g hc]
  simp only [List.isEmpty_nil, if_true]
  rw [frames_idle _ _ _ rfl]

/-- Where a search on an unsearched grid stops, the start node has left the frontier, so
every non-wall cell next to the start is visited. -/
theorem Reached.closedAround {g : Grid} {st en : GridNode} {s0 : Search}
    (h : Reached g st en s0) (hne : st.pos ≠ en.pos)
    (hfinal : s0.unvisited = [] ∨
      ∃ cur rest, s0.unvisited = cur :: rest ∧ (s0.node cur).pos = s0.endNode.pos) :
    s0.grid.ClosedAround st.pos := by
  obtain ⟨lvl, hI⟩ := h.inv
  have hst : s0.startNode.pos = st.pos := h.arena.start_pos
  have hen : s0.endNode = en := h.arena.endNode
  have hnq : NodeRef.startRef ∉ s0.unvisited := by
    rcases hfinal with hq | ⟨cur, rest, hq, hend⟩
    · rw [hq]; exact List.not_mem_nil _
    · intro hmem
      have hsort := hI.sorted
      rw [hq, List.pairwise_cons] at hsort
      have hcur : s0.Disc cur := hI.queue_disc cur (by rw [hq]; exact List.mem_cons_self _ _)
      cases cur with
      | startRef =>
        apply hne
        rw [← hst, ← hen]; exact hend
      | cellRef r c =>
        rw [hq, List.mem_cons] at hmem
        rcases hmem with h1 | h1
        · exact NodeRef.noConfusion h1
        · have h2 := hsort.1 _ h1
          obtain ⟨_, v, _, _, _, hlv⟩ := hI.visited_prev r c hcur.1 hcur.2.1 hcur.2.2
          have h3 := hI.lvl_start
          omega
  intro p hp
  rw [Grid.mem_getNeighbors] at hp
  cases hw : (s0.grid.nodes p.1 p.2).isWall with
  | true => exact Or.inl rfl
  | false =>
    refine Or.inr (hI.expanded NodeRef.startRef trivial hnq p hp.1 ?_ hw).1
    have : (s0.node NodeRef.startRef).pos = st.pos := hst
    rw [this]; exact hp.2

theorem StepFrom.closedAround_mono {s t : Search} {cur : NodeRef} {rest : List NodeRef}
    (h : StepFrom s t cur rest) {start : Nat × Nat} (hc : s.grid.ClosedAround start) :
    t.grid.ClosedAround start := by
  intro p hp
  rw [Grid.mem_getNeighbors] at hp
  have hp' : p ∈ s.grid.getNeighbors start.1 start.2 :=
    (Grid.mem_getNeighbors _ _ _ _).mpr ⟨⟨h.rows ▸ hp.1.1, h.cols ▸ hp.1.2⟩, hp.2⟩
  rcases hc p hp' with h1 | h1
  · exact Or.inl ((h.isWall_eq p.1 p.2).trans h1)
  · exact Or.inr ((h.visited_iff p.1 p.2).mpr (Or.inr h1))

/-- What `dijkstras` on an unsearched grid leaves around the start, when the end lies
elsewhere. -/
theorem loop_final_closed (st en : GridNode) (g : Grid) (hp : st.prev = none)
    (hwf : g.WellFormed) (hu : g.Unsearched) (fuel : Nat) (hfuel : g.rows * g.cols + 2 ≤ fuel)
    (hne : st.pos ≠ en.pos) :
    (Search.loop fuel fuel (Search.start st en g)).1.startNode.pos = st.pos ∧
      (Search.loop fuel fuel (Search.start st en g)).1.grid.ClosedAround st.pos := by
  have hI0 := Inv.start st en g hp hwf hu
  have hm := start_measure st en g
  obtain ⟨s0, hsteps, hres⟩ := loop_spec fuel fuel _ hI0.queue_disc (by omega)
  have hR := Reached.of_steps hp hwf hu hsteps
  have hst : s0.startNode.pos = st.pos := hR.arena.start_pos
  rcases hres with ⟨hq, hloop⟩ | ⟨cur, rest, hq, hend, hloop⟩
  · rw [hloop]
    exact ⟨hst, hR.closedAround hne (Or.inl hq)⟩
  · rw [hloop]
    obtain ⟨lvl, hI⟩ := hR.inv
    have hcur : s0.Disc cur := hI.queue_disc cur (by rw [hq]; exact List.mem_cons_self _ _)
    refine ⟨(dequeue_frame s0 cur rest).2.2.2.2.2.1.trans hst, ?_⟩
    show (dequeue s0 cur rest).grid.ClosedAround st.pos
    rw [dequeue_grid s0 cur rest hcur]
    exact hR.closedAround hne (Or.inr ⟨cur, rest, hq, hend⟩)

/-- What the frames of `dijkstras_visualization` on an unsearched grid leave around the
start, when the end lies elsewhere. -/
theorem frames_final_closed (st en : GridNode) (g : Grid) (hp : st.prev = none)
    (hwf : g.WellFormed) (hu : g.Unsearched) (fuel : Nat) (hfuel : g.rows * g.cols + 2 ≤ fuel)
    (hne : st.pos ≠ en.pos) :
    (frames fuel fuel (Viz.start st en g)).search.startNode.pos = st.pos ∧
      (frames fuel fuel (Viz.start st en g)).search.grid.ClosedAround st.pos := by
  unfold Viz.start
  have hI0 := Inv.start st en g hp hwf hu
  have hm := start_measure st en g
  obtain ⟨s0, hsteps, hres⟩ := frames_spec fuel Report.none fuel _ hI0.queue_disc
    (by simp [Search.start]) (by omega)
  have hR := Reached.of_steps hp hwf hu hsteps
  have hst : s0.startNode.pos = st.pos := hR.arena.start_pos
  rcases hres with ⟨hq, hfr⟩ | ⟨cur, rest, hq, hend, hfr, _⟩
  · rw [hfr]
    exact ⟨hst, hR.closedAround hne (Or.inl hq)⟩
  · obtain ⟨ds, hwalk, _⟩ := hR.toC.chain hq hend fuel (by omega)
    have hwalk1 : walkPrev (dequeue s0 cur rest) fuel cur = some ds :=
      (walkPrev_congr (dequeue_node_prev s0 cur rest) _ _).trans hwalk
    obtain ⟨lvl, hI⟩ := hR.inv
    have hsf := stepFrom_expand s0 cur rest
      (hI.queue_disc cur (by rw [hq]; exact List.mem_cons_self _ _))
    rw [hfr, update_found fuel s0 Report.none hq hend hwalk1]
    exact ⟨hsf.start_pos.trans hst,
      hsf.closedAround_mono (hR.closedAround hne (Or.inr ⟨cur, rest, hq, hend⟩))⟩

theorem tryStartDijkstra_eq (fuel : Nat) (sim : Simulation) (st en : GridNode)
    (hs : sim.startNode = some st) (he : sim.endNode = some en) :
    tryStartDijkstra fuel sim =
      if sim.shouldVisualize then
        ((dijkstras_visualization fuel sim).sim,
          Started.ranVisualization (dijkstras_visualization fuel sim).report)
      else ((dijkstras fuel sim).sim, Started.ranDijkstras (dijkstras fuel sim).report) := by
  simp [tryStartDijkstra, hs, he]

theorem tryStart_closed (sim : Simulation) (st1 en : GridNode) (g1 : Grid) (fuel : Nat)
    (he : sim.endNode = some en) (hne : st1.pos ≠ en.pos) (hc : g1.ClosedAround st1.pos)
    (hfuel : 2 ≤ fuel) :
    (tryStartDijkstra fuel { sim with startNode := some st1, grid := g1 }).2 =
      if sim.shouldVisualize then Started.ranVisualization Report.exhausted
      else Started.ranDijkstras Report.exhausted := by
  have hA : (dijkstras_visualization fuel
      { sim with startNode := some st1, grid := g1 }).report = Report.exhausted := by
    rw [dijkstras_visualization_eq fuel { sim with startNode := some st1, grid := g1 } st1 en
      rfl he]
    exact frames_start_closed st1 en g1 fuel hne hc (by omega)
  have hB : (dijkstras fuel { sim with startNode := some st1, grid := g1 }).report =
      Report.exhausted := by
    rw [dijkstras_eq fuel { sim with startNode := some st1, grid := g1 } st1 en rfl he]
    exact loop_start_closed st1 en g1 fuel hne hc hfuel
  rw [tryStartDijkstra_eq fuel { sim with startNode := some st1, grid := g1 } st1 en rfl he,
    hA, hB]
  cases sim.shouldVisualize <;> rfl

/-- On a state no search has touched, with start != end, a second `tryStartDijkstra` in a
row reports that no path was found, whatever the first reported. -/
theorem second_start_exhausted (sim : Simulation) (st en : GridNode) (fuel : Nat)
    (hf : sim.Fresh) (hs : sim.startNode = some st) (he : sim.endNode = some en)
    (hne : st.pos ≠ en.pos) (hfuel : sim.grid.rows * sim.grid.cols + 2 ≤ fuel) :
    (tryStartDijkstra fuel (tryStartDijkstra fuel sim).1).2 =
      if sim.shouldVisualize then Started.ranVisualization Report.exhausted
      else Started.ranDijkstras Report.exhausted := by
  have hp := hf.2.2 st hs
  rw [tryStartDijkstra_eq fuel sim st en hs he]
  cases hv : sim.shouldVisualize with
  | true =>
    simp only [if_true]
    obtain ⟨h1, h2⟩ := frames_final_closed st en sim.grid hp hf.1 hf.2.1 fuel hfuel hne
    rw [dijkstras_visualization_eq fuel sim st en hs he]
    simp only
    rw [tryStart_closed sim _ en _ fuel he (by rw [h1]; exact hne) (by rw [h1]; exact h2)
      (by omega), hv]
    rfl
  | false =>
    simp only [Bool.false_eq_true, if_false]
    obtain ⟨h1, h2⟩ := loop_final_closed st en sim.grid hp hf.1 hf.2.1 fuel hfuel hne
    rw [dijkstras_eq fuel sim st en hs he]
    simp only
    rw [tryStart_closed sim _ en _ fuel he (by rw [h1]; exact hne) (by rw [h1]; exact h2)
      (by omega), hv]
    rfl

/-- C9, as amended: a search started through `tryStartDijkstra` begins with visited false
and no predecessor on every grid cell when only edits (clicks, wall drawing, reset, flag
changes) came between `initialize()` and the start; `tryStartDijkstra` itself clears
nothing, and a second start in a row, with start != end, reports that no path was found,
whatever the first reported. -/
theorem search_fresh_only_after_edits (size : Nat) (edits : List Edit) (st en : GridNode)
    (fuel : Nat) (hs : (Simulation.afterEdits size edits).startNode = some st)
    (he : (Simulation.afterEdits size edits).endNode = some en) (hne : st.pos ≠ en.pos)
    (hfuel : (Simulation.afterEdits size edits).grid.rows *
      (Simulation.afterEdits size edits).grid.cols + 2 ≤ fuel) :
    (Simulation.afterEdits size edits).grid.Unsearched ∧
      (tryStartDijkstra fuel (tryStartDijkstra fuel (Simulation.afterEdits size edits)).1).2 =
        if (Simulation.afterEdits size edits).shouldVisualize then
          Started.ranVisualization Report.exhausted
        else Started.ranDijkstras Report.exhausted :=
  ⟨(Simulation.fresh_afterEdits size edits).2.1,
    second_start_exhausted _ st en fuel (Simulation.fresh_afterEdits size edits) hs he hne hfuel⟩

/-- Counterexample to C9 as stated: on `twoCellExample` the first start finds the end,
the second start in a row begins with the cell (0, 1) visited and with a predecessor, and
reports that no path was found. -/
theorem second_start_differs :
    (tryStartDijkstra 11 twoCellExample).2 =
        Started.ranVisualization (Report.vizFound [NodeRef.cellRef 0 1]) ∧
      ((tryStartDijkstra 11 twoCellExample).1.grid.nodes 0 1).visited = true ∧
      ((tryStartDijkstra 11 twoCellExample).1.grid.nodes 0 1).prev = some NodeRef.startRef ∧
      (tryStartDijkstra 11 (tryStartDijkstra 11 twoCellExample).1).2 =
        Started.ranVisualization Report.exhausted := by
  decide

/-- Witness of C9 as amended, on the edits of `twoCellExample`. -/
theorem search_fresh_only_after_edits_witness :
    (Simulation.afterEdits 3 [Edit.click 0 0, Edit.click 0 1]).grid.Unsearched ∧
      (tryStartDijkstra 11
          (tryStartDijkstra 11 (Simulation.afterEdits 3 [Edit.click 0 0, Edit.click 0 1])).1).2 =
        if (Simulation.afterEdits 3 [Edit.click 0 0, Edit.click 0 1]).shouldVisualize then
          Started.ranVisualization Report.exhausted
        else Started.ranDijkstras Report.exhausted :=
  search_fresh_only_after_edits 3 [Edit.click 0 0, Edit.click 0 1] (GridNode.new 0 0)
    (GridNode.new 1 0) 11 rfl rfl (by decide) (by decide)

/-! ## A wall at the end position -/

theorem WallAtEnd.step_inv {start e : Nat × Nat} {s t : Search} {cur : NodeRef}
    {rest : List NodeRef} (h : WallAtEnd start e s) (hq : s.unvisited = cur :: rest)
    (hst : StepFrom s t cur rest) : WallAtEnd start e t := by
  refine
    { wf := ?_, queue_disc := hst.queueDisc h.queue_disc hq,
      start_pos := hst.start_pos.trans h.start_pos,
      end_pos := by rw [hst.endNode]; exact h.end_pos,
      wall := (hst.isWall_eq _ _).trans h.wall, queue := ?_, dequeued := ?_ }
  · intro r c hr hc
    have h1 := h.wf r c (hst.rows ▸ hr) (hst.cols ▸ hc)
    have h2 := hst.pos_eq r c
    simp only [GridNode.pos, Prod.mk.injEq] at h2
    exact ⟨h2.2.trans h1.1, h2.1.trans h1.2⟩
  · intro v hv
    rcases (hst.mem_unvisited v).mp hv with hr | ⟨p, hp, rfl⟩
    · exact h.queue v (by rw [hq]; exact List.mem_cons_of_mem _ hr)
    · intro hpe
      have hw := hp.spec.2.2.1
      simp only [NodeRef.posIn] at hpe
      have hwall := h.wall
      rw [← hpe] at hwall
      rw [hwall] at hw
      exact Bool.noConfusion hw
  · intro v hv
    rw [hst.dequeued, List.mem_append, List.mem_singleton] at hv
    rcases hv with hv | rfl
    · exact h.dequeued v hv
    · exact h.queue v (by rw [hq]; exact List.mem_cons_self _ _)

theorem WallAtEnd.steps {start e : Nat × Nat} {s t : Search} (hsteps : Steps s t) :
    WallAtEnd start e s → WallAtEnd start e t := by
  induction hsteps with
  | refl s => exact id
  | @step s t cur rest hq _ _ ih =>
    intro h
    exact ih (h.step_inv hq (stepFrom_expand s cur rest
      (h.queue_disc cur (by rw [hq]; exact List.mem_cons_self _ _))))

theorem WallAtEnd.node_pos_eq {start e : Nat × Nat} {s : Search} (h : WallAtEnd start e s)
    {v : NodeRef} (hv : s.Disc v) : (s.node v).pos = v.posIn start := by
  cases v with
  | startRef => exact h.start_pos
  | cellRef r c =>
    have := h.wf r c hv.1 hv.2.1
    simp only [Search.node, GridNode.pos, NodeRef.posIn, this.1, this.2]

/-- C10: when the grid cell at the end position is a wall and the start lies elsewhere,
`dijkstras` never dequeues a node at the end position and ends normally with the report
that no path was found. -/
theorem dijkstras_wall_at_end (sim : Simulation) (st en : GridNode) (fuel : Nat)
    (hs : sim.startNode = some st) (he : sim.endNode = some en) (hwf : sim.grid.WellFormed)
    (hwall : (sim.grid.nodes en.y en.x).isWall = true) (hne : st.pos ≠ en.pos)
    (hfuel : sim.grid.rows * sim.grid.cols + 2 ≤ fuel) :
    (dijkstras fuel sim).report = Report.exhausted ∧
      ∀ v ∈ (dijkstras fuel sim).dequeued, v.posIn st.pos ≠ en.pos := by
  simp only [dijkstras_eq fuel sim st en hs he]
  have h0 : WallAtEnd st.pos en.pos (Search.start st en sim.grid) :=
    { wf := hwf
      queue_disc := by
        intro v hv
        simp only [Search.start, List.mem_singleton] at hv
        subst hv; trivial
      start_pos := rfl, end_pos := rfl, wall := hwall
      queue := by
        intro v hv
        simp only [Search.start, List.mem_singleton] at hv
        subst hv; exact hne
      dequeued := by
        intro v hv
        simp only [Search.start] at hv
        exact absurd hv (List.not_mem_nil v) }
  have hm := start_measure st en sim.grid
  obtain ⟨s0, hsteps, hres⟩ := loop_spec fuel fuel _ h0.queue_disc (by omega)
  have hW := WallAtEnd.steps hsteps h0
  rcases hres with ⟨_, hloop⟩ | ⟨cur, rest, hq, hend, _⟩
  · rw [hloop]
    exact ⟨rfl, hW.dequeued⟩
  · exfalso
    have hmem : cur ∈ s0.unvisited := by rw [hq]; exact List.mem_cons_self _ _
    have hp := hW.node_pos_eq (hW.queue_disc cur hmem)
    rw [hend, hW.end_pos] at hp
    exact hW.queue cur hmem hp.symm

/-- Witness of C10 on `endWallExample`. -/
theorem dijkstras_wall_at_end_witness :
    (dijkstras 11 endWallExample).report = Report.exhausted ∧
      ∀ v ∈ (dijkstras 11 endWallExample).dequeued, v.posIn (0, 0) ≠ (2, 2) :=
  dijkstras_wall_at_end endWallExample (GridNode.new 0 0) (GridNode.new 2 2) 11 rfl rfl
    (Simulation.fresh_afterEdits 3 _).1 (by decide) (by decide) (by decide)

/-! ## The history of the frontier -/

theorem dequeue_visitOrder (s : Search) {cur : NodeRef} {rest : List NodeRef}
    (hq : s.unvisited = cur :: rest) : (dequeue s cur rest).visitOrder = s.visitOrder := by
  have hf := dequeue_frame s cur rest
  simp only [Search.visitOrder, hf.1, hf.2.2.2.2.1, hq, List.append_assoc, List.singleton_append]

theorem dequeue_visited_mono (s : Search) (cur : NodeRef) (rest : List NodeRef) (r c : Nat)
    (h : (s.grid.nodes r c).visited = true) :
    ((dequeue s cur rest).grid.nodes r c).visited = true := by
  cases cur with
  | startRef => simpa [dequeue, Search.setNode] using h
  | cellRef row col =>
    simp only [dequeue, Search.setNode, Search.node, Grid.setNode]
    by_cases hrc : r = row ∧ c = col
    · simp [hrc]
    · simpa [hrc] using h

theorem Hist.after_shift {s : Search} (h : Hist s) {cur : NodeRef} {rest : List NodeRef}
    (hq : s.unvisited = cur :: rest) : Hist (dequeue s cur rest) := by
  have hf := dequeue_frame s cur rest
  refine ⟨by rw [dequeue_visitOrder s hq]; exact h.nodup, ?_⟩
  intro r c hm
  rw [dequeue_visitOrder s hq] at hm
  obtain ⟨h1, h2, h3⟩ := h.cells r c hm
  exact ⟨hf.2.2.1 ▸ h1, hf.2.2.2.1 ▸ h2, dequeue_visited_mono s cur rest r c h3⟩

theorem visitNeighbor_visitOrder (cur : NodeRef) (s : Search) (p : Nat × Nat) :
    (visitNeighbor cur s p).visitOrder =
      s.visitOrder ++ (if s.takes p = true then [NodeRef.cellRef p.1 p.2] else []) := by
  simp only [Search.visitOrder, visitNeighbor_unvisited, (visitNeighbor_frame cur s p).2.2.2.2,
    List.append_assoc]

theorem visitNeighbor_visited (cur : NodeRef) (s : Search) (p : Nat × Nat) (r c : Nat) :
    ((visitNeighbor cur s p).grid.nodes r c).visited = true ↔
      ((r, c) = p ∧ s.takes p = true) ∨ (s.grid.nodes r c).visited = true := by
  rw [visitNeighbor_nodes]
  by_cases h : (r, c) = p ∧ s.takes p = true
  · simp [h]
  · simp [h]

theorem Hist.after_visit {s : Search} (h : Hist s) (cur : NodeRef) {p : Nat × Nat}
    (hb : s.grid.InBounds p) : Hist (visitNeighbor cur s p) := by
  have hf := visitNeighbor_frame cur s p
  by_cases ht : s.takes p = true
  · have hnv : (s.grid.nodes p.1 p.2).visited = false := by
      simp only [Search.takes, Bool.not_eq_true', Bool.or_eq_false_iff] at ht
      exact ht.2
    have hnot : NodeRef.cellRef p.1 p.2 ∉ s.visitOrder := by
      intro hm
      have := (h.cells _ _ hm).2.2
      rw [hnv] at this
      exact Bool.noConfusion this
    constructor
    · rw [visitNeighbor_visitOrder, if_pos ht]
      exact List.Nodup.append h.nodup (List.nodup_singleton _)
        (by
          intro a ha hb'
          rw [List.mem_singleton] at hb'
          subst hb'
          exact hnot ha)
    · intro r c hm
      rw [visitNeighbor_visitOrder, if_pos ht, List.mem_append, List.mem_singleton] at hm
      rw [hf.2.2.1, hf.2.2.2.1, visitNeighbor_visited]
      rcases hm with hm | hm
      · obtain ⟨h1, h2, h3⟩ := h.cells r c hm
        exact ⟨h1, h2, Or.inr h3⟩
      · simp only [NodeRef.cellRef.injEq] at hm
        obtain ⟨rfl, rfl⟩ := hm
        exact ⟨hb.1, hb.2, Or.inl ⟨rfl, ht⟩⟩
  · constructor
    · rw [visitNeighbor_visitOrder, if_neg ht, List.append_nil]
      exact h.nodup
    · intro r c hm
      rw [visitNeighbor_visitOrder, if_neg ht, List.append_nil] at hm
      rw [hf.2.2.1, hf.2.2.2.1, visitNeighbor_visited]
      obtain ⟨h1, h2, h3⟩ := h.cells r c hm
      exact ⟨h1, h2, Or.inr h3⟩

theorem Hist.after_move {s t : Search} (h : Hist s) (hm : Move s t) : Hist t := by
  cases hm with
  | shift hq => exact h.after_shift hq
  | @visit cur p _ hp => exact h.after_visit cur ((Grid.mem_getNeighbors _ _ _ _).mp hp).1

theorem Hist.at_search_start (st en : GridNode) (g : Grid) : Hist (Search.start st en g) := by
  constructor
  · simp [Search.visitOrder, Search.start]
  · intro r c hm
    simp [Search.visitOrder, Search.start] at hm

theorem Hist.at_point {s0 s : Search} (hp : Point s0 s) (h0 : Hist s0) : Hist s := by
  induction hp with
  | start => exact h0
  | next _ hm ih => exact ih.after_move hm

theorem Grid.getNeighbors_congr {g g' : Grid} (hr : g'.rows = g.rows) (hc : g'.cols = g.cols)
    (row col : Nat) : g'.getNeighbors row col = g.getNeighbors row col := by
  simp only [Grid.getNeighbors, hr, hc]

theorem visitNeighbor_node_pos (cur : NodeRef) (s : Search) (p : Nat × Nat) (u : NodeRef) :
    ((visitNeighbor cur s p).node u).pos = (s.node u).pos := by
  cases u with
  | startRef =>
    show (visitNeighbor cur s p).startNode.pos = s.startNode.pos
    rw [(visitNeighbor_frame cur s p).1]
  | cellRef r c =>
    show ((visitNeighbor cur s p).grid.nodes r c).pos = (s.grid.nodes r c).pos
    rw [visitNeighbor_nodes]
    by_cases h : (r, c) = p ∧ s.takes p = true
    · simp [h, GridNode.pos]
    · simp [h]

theorem visitNeighbor_neighbors (cur : NodeRef) (s : Search) (p : Nat × Nat) (u : NodeRef) :
    (visitNeighbor cur s p).grid.getNeighbors ((visitNeighbor cur s p).node u).y
        ((visitNeighbor cur s p).node u).x =
      s.grid.getNeighbors (s.node u).y (s.node u).x := by
  have hp := visitNeighbor_node_pos cur s p u
  have hf := visitNeighbor_frame cur s p
  simp only [GridNode.pos, Prod.mk.injEq] at hp
  rw [hp.1, hp.2]
  exact Grid.getNeighbors_congr hf.2.2.1 hf.2.2.2.1 _ _

/-- The passes of the `for` loop are moves. -/
theorem Point.visits {s0 : Search} (cur : NodeRef) : ∀ (ns : List (Nat × Nat)) (s : Search),
    Point s0 s → s.dequeued.getLast? = some cur →
    (∀ p ∈ ns, p ∈ s.grid.getNeighbors (s.node cur).y (s.node cur).x) →
    Point s0 (ns.foldl (visitNeighbor cur) s) := by
  intro ns
  induction ns with
  | nil => intro s hp _ _; exact hp
  | cons p ns ih =>
    intro s hp hl hn
    simp only [List.foldl_cons]
    refine ih _ (Point.next hp (Move.visit hl (hn p (List.mem_cons_self _ _)))) ?_ ?_
    · rw [(visitNeighbor_frame cur s p).2.2.2.2]; exact hl
    · intro q hq
      rw [visitNeighbor_neighbors]
      exact hn q (List.mem_cons_of_mem _ hq)

theorem Point.after_dequeue {s0 s : Search} (hp : Point s0 s) {cur : NodeRef} {rest : List NodeRef}
    (hq : s.unvisited = cur :: rest) : Point s0 (dequeue s cur rest) :=
  Point.next hp (Move.shift hq)

/-- One iteration of the loop, the end test apart, is a sequence of moves. -/
theorem Point.after_expand {s0 s : Search} (hp : Point s0 s) {cur : NodeRef} {rest : List NodeRef}
    (hq : s.unvisited = cur :: rest) : Point s0 (expand cur (dequeue s cur rest)) := by
  unfold CanvasDijkstra.expand
  refine Point.visits cur _ _ (hp.after_dequeue hq) ?_ (fun p hp => hp)
  rw [(dequeue_frame s cur rest).2.2.2.2.1]
  simp

/-- Whatever the fuel, the loop of `dijkstras` stops at a point of the search. -/
theorem Point.of_loop {s0 : Search} (wfuel : Nat) : ∀ (fuel : Nat) (s : Search), Point s0 s →
    Point s0 (Search.loop wfuel fuel s).1 := by
  intro fuel
  induction fuel with
  | zero => intro s hp; exact hp
  | succ fuel ih =>
    intro s hp
    cases hq : s.unvisited with
    | nil => rw [loop_nil wfuel fuel s hq]; exact hp
    | cons cur rest =>
      by_cases hend : (s.node cur).pos = s.endNode.pos
      · rw [loop_found wfuel fuel s hq hend]; exact hp.after_dequeue hq
      · rw [loop_step wfuel fuel s hq hend]; exact ih _ (hp.after_expand hq)

theorem Point.of_update {s0 : Search} (wfuel : Nat) (v : Viz) (hp : Point s0 v.search) :
    Point s0 (update wfuel v).search := by
  unfold CanvasDijkstra.update
  split
  · exact hp
  · rename_i cur rest hq
    simp only
    split
    · split
      · exact hp.after_dequeue hq
      · exact hp.after_expand hq
    · split
      · exact hp.after_expand hq
      · exact hp.after_expand hq

/-- Whatever the number of frames, a step-wise run is at a point of the search. -/
theorem Point.of_frames {s0 : Search} (wfuel : Nat) : ∀ (fuel : Nat) (v : Viz), Point s0 v.search →
    Point s0 (frames wfuel fuel v).search := by
  intro fuel
  induction fuel with
  | zero =>
    intro v hp
    unfold CanvasDijkstra.frames
    split
    · exact hp
    · exact hp
  | succ fuel ih =>
    intro v hp
    unfold CanvasDijkstra.frames
    split
    · exact ih _ (Point.of_update wfuel v hp)
    · exact hp

theorem Move.same_size {s t : Search} (h : Move s t) :
    t.grid.rows = s.grid.rows ∧ t.grid.cols = s.grid.cols := by
  cases h with
  | @shift cur rest _ => exact ⟨(dequeue_frame s cur rest).2.2.1, (dequeue_frame s cur rest).2.2.2.1⟩
  | @visit cur p _ _ =>
    exact ⟨(visitNeighbor_frame cur s p).2.2.1, (visitNeighbor_frame cur s p).2.2.2.1⟩

theorem Point.same_dims {s0 s : Search} (h : Point s0 s) :
    s.grid.rows = s0.grid.rows ∧ s.grid.cols = s0.grid.cols := by
  induction h with
  | start => exact ⟨rfl, rfl⟩
  | next _ hm ih => exact ⟨hm.same_size.1.trans ih.1, hm.same_size.2.trans ih.2⟩

/-- No more nodes were ever put on the frontier than the grid has cells, and one. -/
theorem Hist.length_le {s : Search} (h : Hist s) :
    s.visitOrder.length ≤ s.grid.rows * s.grid.cols + 1 := by
  have hsub : s.visitOrder.toFinset ⊆
      insert NodeRef.startRef
        ((Finset.range s.grid.rows ×ˢ Finset.range s.grid.cols).image
          (fun p => NodeRef.cellRef p.1 p.2)) := by
    intro v hv
    rw [List.mem_toFinset] at hv
    cases v with
    | startRef => exact Finset.mem_insert_self _ _
    | cellRef r c =>
      obtain ⟨h1, h2, _⟩ := h.cells r c hv
      refine Finset.mem_insert_of_mem (Finset.mem_image.mpr ⟨(r, c), ?_, rfl⟩)
      simp only [Finset.mem_product, Finset.mem_range]
      exact ⟨h1, h2⟩
  have h1 := Finset.card_le_card hsub
  rw [List.toFinset_card_of_nodup h.nodup] at h1
  have h2 := Finset.card_insert_le NodeRef.startRef
    ((Finset.range s.grid.rows ×ˢ Finset.range s.grid.cols).image
      (fun p => NodeRef.cellRef p.1 p.2))
  have h3 := Finset.card_image_le (s := Finset.range s.grid.rows ×ˢ Finset.range s.grid.cols)
    (f := fun p => NodeRef.cellRef p.1 p.2)
  simp only [Finset.card_product, Finset.card_range] at h3
  omega

theorem Hist.dequeued_length_le {s : Search} (h : Hist s) :
    s.dequeued.length ≤ s.grid.rows * s.grid.cols + 1 := by
  have := h.length_le
  simp only [Search.visitOrder, List.length_append] at this
  omega

theorem count_posIn (start p : Nat × Nat) (l : List NodeRef) :
    (l.map (NodeRef.posIn start)).count p =
      (if start = p then l.count NodeRef.startRef else 0) + l.count (NodeRef.cellRef p.1 p.2) := by
  induction l with
  | nil => simp
  | cons v l ih =>
    rw [List.map_cons, List.count_cons, ih, List.count_cons, List.count_cons]
    cases v with
    | startRef =>
      by_cases hsp : start = p
      · simp [NodeRef.posIn, hsp]; omega
      · simp [NodeRef.posIn, hsp]
    | cellRef r c =>
      by_cases hrc : (r, c) = p
      · subst hrc
        simp [NodeRef.posIn]; omega
      · have : ¬ (r = p.1 ∧ c = p.2) := fun hh => hrc (Prod.ext hh.1 hh.2)
        simp [NodeRef.posIn, hrc, this]

/-- Without repetition among the nodes, a position occurs once at most, the start
position twice. -/
theorem count_posIn_le (start p : Nat × Nat) {l : List NodeRef} (h : l.Nodup) :
    (l.map (NodeRef.posIn start)).count p ≤ if p = start then 2 else 1 := by
  rw [count_posIn]
  have h1 := List.nodup_iff_count_le_one.mp h NodeRef.startRef
  have h2 := List.nodup_iff_count_le_one.mp h (NodeRef.cellRef p.1 p.2)
  by_cases hsp : start = p
  · rw [if_pos hsp, if_pos hsp.symm]; omega
  · rw [if_neg hsp, if_neg (fun hh => hsp hh.symm)]; omega

/-! ## Predecessors on an unsearched grid -/

theorem dequeue_visited_iff (s : Search) (cur : NodeRef) (rest : List NodeRef) (r c : Nat) :
    ((dequeue s cur rest).grid.nodes r c).visited = true ↔
      cur = NodeRef.cellRef r c ∨ (s.grid.nodes r c).visited = true := by
  cases cur with
  | startRef => simp [dequeue, Search.setNode]
  | cellRef row col =>
    simp only [dequeue, Search.setNode, Search.node, Grid.setNode, NodeRef.cellRef.injEq]
    by_cases hrc : r = row ∧ c = col
    · obtain ⟨rfl, rfl⟩ := hrc; simp
    · have hrc' : ¬ (row = r ∧ col = c) := fun h => hrc ⟨h.1.symm, h.2.symm⟩
      simp [hrc, hrc']

theorem wellFormed_of_pos {g g' : Grid} (h : g.WellFormed) (hr : g'.rows = g.rows)
    (hc : g'.cols = g.cols) (hpos : ∀ r c, (g'.nodes r c).pos = (g.nodes r c).pos) :
    g'.WellFormed := by
  intro r c hr' hc'
  have h1 := h r c (hr ▸ hr') (hc ▸ hc')
  have h2 := hpos r c
  simp only [GridNode.pos, Prod.mk.injEq] at h2
  exact ⟨h2.2.trans h1.1, h2.1.trans h1.2⟩

theorem Order.shift_order {s : Search} (h : Order s) {cur : NodeRef} {rest : List NodeRef}
    (hq : s.unvisited = cur :: rest) : Order (dequeue s cur rest) := by
  have hf := dequeue_frame s cur rest
  have hvo := dequeue_visitOrder s hq
  refine ⟨h.hist.after_shift hq, ?_, hf.2.2.2.2.2.2.trans h.start_prev, ?_, ?_⟩
  · exact wellFormed_of_pos h.wf hf.2.2.1 hf.2.2.2.1
      (fun r c => dequeue_node_pos s cur rest (NodeRef.cellRef r c))
  · intro r c hr hc hv
    rw [hvo]
    rcases (dequeue_visited_iff s cur rest r c).mp hv with h1 | h1
    · rw [← h1]
      simp only [Search.visitOrder, hq, List.mem_append, List.mem_cons, true_or, or_true]
    · exact h.visited r c (hf.2.2.1 ▸ hr) (hf.2.2.2.1 ▸ hc) h1
  · intro r c hr hc u hu
    have hu' : (s.grid.nodes r c).prev = some u :=
      (dequeue_node_prev s cur rest (NodeRef.cellRef r c)).symm.trans hu
    obtain ⟨h1, h2, h3⟩ := h.prev r c (hf.2.2.1 ▸ hr) (hf.2.2.2.1 ▸ hc) u hu'
    refine ⟨?_, by rw [hvo]; exact h2, by rw [dequeue_node_pos]; exact h3⟩
    rw [hf.2.2.2.2.1]
    exact List.mem_append_left _ h1

theorem visitNeighbor_of_not_takes (cur : NodeRef) (s : Search) (p : Nat × Nat)
    (h : ¬ s.takes p = true) : visitNeighbor cur s p = s := by
  unfold visitNeighbor
  simp only [Search.takes, Bool.not_eq_true', Bool.not_eq_false] at h
  simp [h]

theorem Order.not_in_order {s : Search} (h : Order s) {p : Nat × Nat} (ht : s.takes p = true) :
    NodeRef.cellRef p.1 p.2 ∉ s.visitOrder := by
  intro hm
  have h1 := (h.hist.cells _ _ hm).2.2
  simp only [Search.takes, Bool.not_eq_true', Bool.or_eq_false_iff] at ht
  rw [ht.2] at h1
  exact Bool.noConfusion h1

theorem Order.visit_order {s : Search} (h : Order s) {cur : NodeRef} {p : Nat × Nat}
    (hl : s.dequeued.getLast? = some cur)
    (hp : p ∈ s.grid.getNeighbors (s.node cur).y (s.node cur).x) :
    Order (visitNeighbor cur s p) := by
  by_cases ht : s.takes p = true
  · have hf := visitNeighbor_frame cur s p
    have hvo : (visitNeighbor cur s p).visitOrder = s.visitOrder ++ [NodeRef.cellRef p.1 p.2] := by
      rw [visitNeighbor_visitOrder, if_pos ht]
    have hn := (Grid.mem_getNeighbors _ _ _ _).mp hp
    have hcur : cur ∈ s.dequeued := List.mem_of_getLast?_eq_some hl
    refine ⟨h.hist.after_visit cur hn.1, ?_, by rw [hf.1]; exact h.start_prev, ?_, ?_⟩
    · exact wellFormed_of_pos h.wf hf.2.2.1 hf.2.2.2.1
        (fun r c => visitNeighbor_node_pos cur s p (NodeRef.cellRef r c))
    · intro r c hr hc hv
      rw [hvo, List.mem_append, List.mem_singleton]
      rcases (visitNeighbor_visited cur s p r c).mp hv with h1 | h1
      · right
        rw [← h1.1]
      · exact Or.inl (h.visited r c (hf.2.2.1 ▸ hr) (hf.2.2.2.1 ▸ hc) h1)
    · intro r c hr hc u hu
      rw [visitNeighbor_nodes] at hu
      rw [hvo, visitNeighbor_node_pos, hf.2.2.2.2]
      by_cases hrc : (r, c) = p
      · rw [if_pos ⟨hrc, ht⟩] at hu
        simp only [Option.some.injEq] at hu
        subst hu
        subst hrc
        refine ⟨hcur, ?_, hn.2⟩
        show List.Sublist ([cur] ++ [NodeRef.cellRef r c]) (s.visitOrder ++ [NodeRef.cellRef r c])
        exact List.Sublist.append (List.singleton_sublist.mpr (List.mem_append_left _ hcur))
          (List.Sublist.refl _)
      · rw [if_neg (fun hh => hrc hh.1)] at hu
        obtain ⟨h1, h2, h3⟩ := h.prev r c (hf.2.2.1 ▸ hr) (hf.2.2.2.1 ▸ hc) u hu
        exact ⟨h1, h2.trans (List.sublist_append_left _ _), h3⟩
  · rw [visitNeighbor_of_not_takes cur s p ht]; exact h

theorem Order.move_order {s t : Search} (h : Order s) (hm : Move s t) : Order t := by
  cases hm with
  | shift hq => exact h.shift_order hq
  | visit hl hp => exact h.visit_order hl hp

theorem Order.at_fresh_start (st en : GridNode) (g : Grid) (hp : st.prev = none) (hwf : g.WellFormed)
    (hu : g.Unsearched) : Order (Search.start st en g) := by
  refine ⟨Hist.at_search_start st en g, hwf, hp, ?_, ?_⟩
  · intro r c hr hc hv
    have h1 := (hu r c hr hc).1
    have h2 : (g.nodes r c).visited = true := hv
    rw [h1] at h2; exact Bool.noConfusion h2
  · intro r c hr hc u hu'
    have h1 := (hu r c hr hc).2
    have h2 : (g.nodes r c).prev = some u := hu'
    rw [h1] at h2; exact Option.noConfusion h2

theorem Order.at_every_point {s0 s : Search} (hp : Point s0 s) (h0 : Order s0) : Order s := by
  induction hp with
  | start => exact h0
  | next _ hm ih => exact ih.move_order hm

theorem expand_dequeued (s : Search) (cur : NodeRef) (rest : List NodeRef) :
    (expand cur (dequeue s cur rest)).dequeued = s.dequeued ++ [cur] := by
  unfold expand
  rw [(foldl_visit_frame cur _ _).2.2.2.2, (dequeue_frame s cur rest).2.2.2.2.1]

theorem Steps.dequeued_extends {s t : Search} (h : Steps s t) :
    ∃ l, t.dequeued = s.dequeued ++ l := by
  induction h with
  | refl s => exact ⟨[], (List.append_nil _).symm⟩
  | @step s t cur rest _ _ _ ih =>
    obtain ⟨l, hl⟩ := ih
    rw [expand_dequeued] at hl
    exact ⟨cur :: l, by rw [hl]; simp⟩

/-- After the first iteration the start node heads the history of dequeued nodes. -/
theorem Steps.dequeued_from_start {st en : GridNode} {g : Grid} {s0 : Search}
    (h : Steps (Search.start st en g) s0) :
    s0 = Search.start st en g ∨ ∃ l, s0.dequeued = NodeRef.startRef :: l := by
  cases h with
  | refl => exact Or.inl rfl
  | @step _ _ cur rest hq _ hrest =>
    right
    simp only [Search.start, List.cons.injEq] at hq
    obtain ⟨rfl, rfl⟩ := hq
    obtain ⟨l, hl⟩ := hrest.dequeued_extends
    rw [expand_dequeued] at hl
    exact ⟨l, by rw [hl]; rfl⟩

theorem Order.prevOk {s : Search} (h : Order s) : s.PrevOk := by
  intro r c hr hc u hu
  obtain ⟨h1, h2, h3⟩ := h.prev r c hr hc u hu
  have hpos : (s.grid.nodes r c).pos = (r, c) := by
    have := h.wf r c hr hc
    simp only [GridNode.pos, this.1, this.2]
  refine ⟨by rw [hpos]; exact h3, ?_, h1, h2⟩
  cases u with
  | startRef => trivial
  | cellRef a b => exact h.hist.cells a b (List.mem_append_left _ h1)

theorem Order.prevKept {s : Search} (h : Order s) : s.PrevKept := by
  intro t hm r c hr hc u hu
  cases hm with
  | @shift cur rest hq =>
    exact (dequeue_node_prev s cur rest (NodeRef.cellRef r c)).trans hu
  | @visit cur p hl hp =>
    by_cases ht : s.takes p = true
    · rw [visitNeighbor_nodes]
      by_cases hrc : (r, c) = p
      · exfalso
        subst hrc
        exact h.not_in_order ht ((h.prev r c hr hc u hu).2.1.subset (by simp))
      · rw [if_neg (fun hh => hrc hh.1)]; exact hu
    · rw [visitNeighbor_of_not_takes cur s p ht]; exact hu

/-- C12: at every point of a search from a fresh state, in either mode, every cell whose
`prev` is set has as `prev` a node one step up, down, left or right of it that was marked
visited, and dequeued, before the cell itself was marked and put on the frontier; no node
is put on the frontier twice, and a `prev` that is set is not assigned again (`prev` is
assigned when, and only when, a cell is put on the frontier).  The states of the loop of
`dijkstras` after any number of iterations, and those of `dijkstras_visualization` after
any number of frames, are such points. -/
theorem prev_adjacent_earlier_once (st en : GridNode) (g : Grid) (hp : st.prev = none)
    (hwf : g.WellFormed) (hu : g.Unsearched) :
    (∀ wfuel n, Point (Search.start st en g) (Search.loop wfuel n (Search.start st en g)).1 ∧
        Point (Search.start st en g) (frames wfuel n (Viz.start st en g)).search) ∧
      ∀ s, Point (Search.start st en g) s →
        s.PrevOk ∧ s.visitOrder.Nodup ∧ s.PrevKept ∧ s.startNode.prev = none := by
  refine ⟨fun wfuel n => ⟨Point.of_loop wfuel n _ Point.start, Point.of_frames wfuel n _ Point.start⟩, ?_⟩
  intro s hs
  have hO := Order.at_every_point hs (Order.at_fresh_start st en g hp hwf hu)
  exact ⟨hO.prevOk, hO.hist.nodup, hO.prevKept, hO.start_prev⟩

/-- Witness of C12 on `detourExample`: after three iterations of `dijkstras`, and after
three frames of the step-wise run, the cell (0, 0) under the start node has the cell
(1, 0) as predecessor, and the properties hold. -/
theorem prev_adjacent_earlier_once_witness :
    ((Search.loop 11 3 (Search.start (GridNode.new 0 0) (GridNode.new 2 0)
          detourExample.grid)).1.grid.nodes 0 0).prev = some (NodeRef.cellRef 1 0) ∧
      (Search.loop 11 3 (Search.start (GridNode.new 0 0) (GridNode.new 2 0)
          detourExample.grid)).1.PrevOk ∧
      (frames 11 3 (Viz.start (GridNode.new 0 0) (GridNode.new 2 0)
          detourExample.grid)).search.PrevOk :=
  ⟨by decide,
    ((prev_adjacent_earlier_once (GridNode.new 0 0) (GridNode.new 2 0) detourExample.grid rfl
      detourExample_fresh.1 detourExample_fresh.2.1).2 _
      ((prev_adjacent_earlier_once (GridNode.new 0 0) (GridNode.new 2 0) detourExample.grid rfl
        detourExample_fresh.1 detourExample_fresh.2.1).1 11 3).1).1,
    ((prev_adjacent_earlier_once (GridNode.new 0 0) (GridNode.new 2 0) detourExample.grid rfl
      detourExample_fresh.1 detourExample_fresh.2.1).2 _
      ((prev_adjacent_earlier_once (GridNode.new 0 0) (GridNode.new 2 0) detourExample.grid rfl
        detourExample_fresh.1 detourExample_fresh.2.1).1 11 3).2).1⟩

/-! ## A wall at the start position -/

/-- With enough fuel, the first node the loop of `dijkstras` dequeued is the start node. -/
theorem loop_dequeued_head (st en : GridNode) (g : Grid) (fuel : Nat)
    (hfuel : g.rows * g.cols + 2 ≤ fuel) :
    (Search.loop fuel fuel (Search.start st en g)).1.dequeued.head? = some NodeRef.startRef := by
  have hm := start_measure st en g
  obtain ⟨s0, hsteps, hres⟩ := loop_spec fuel fuel _ (start_queueDisc st en g) (by omega)
  rcases hres with ⟨hq, hloop⟩ | ⟨cur, rest, hq, _, hloop⟩
  · rw [hloop]
    rcases hsteps.dequeued_from_start with h | ⟨l, hl⟩
    · rw [h] at hq; exact absurd hq (by simp [Search.start])
    · show s0.dequeued.head? = _
      rw [hl]; rfl
  · rw [hloop]
    show (dequeue s0 cur rest).dequeued.head? = _
    rw [(dequeue_frame s0 cur rest).2.2.2.2.1]
    rcases hsteps.dequeued_from_start with h | ⟨l, hl⟩
    · rw [h] at hq ⊢
      simp only [Search.start, List.cons.injEq] at hq
      obtain ⟨rfl, _⟩ := hq
      rfl
    · rw [hl]; rfl

/-- C11: on a fresh search state, when the grid cell at the start position is marked as a
wall, the end cell is not, and a 4-connected route of non-wall cells leads from the start
position to the end, `dijkstras` still finds the end and ends normally, without the alert:
the start node is the first node dequeued, and it is expanded, so that afterwards every
cell next to the start position is a wall or visited. -/
theorem dijkstras_start_wall_ignored (sim : Simulation) (st en : GridNode) (fuel : Nat)
    (hs : sim.startNode = some st) (he : sim.endNode = some en) (hp : st.prev = none)
    (hwf : sim.grid.WellFormed) (hu : sim.grid.Unsearched)
    (hwall : (sim.grid.nodes st.y st.x).isWall = true)
    (hopen : (sim.grid.nodes en.y en.x).isWall = false)
    (hroute : ∃ k, Route sim.grid st.pos k en.pos)
    (hfuel : sim.grid.rows * sim.grid.cols + 2 ≤ fuel) :
    (dijkstras fuel sim).report.foundValidPath = true ∧
      (dijkstras fuel sim).report.alerted = false ∧
      (dijkstras fuel sim).report.completion = Completion.normal ∧
      (dijkstras fuel sim).dequeued.head? = some NodeRef.startRef ∧
      (dijkstras fuel sim).sim.grid.ClosedAround st.pos := by
  have hne : st.pos ≠ en.pos := by
    intro h
    simp only [GridNode.pos, Prod.mk.injEq] at h
    rw [h.1, h.2, hopen] at hwall
    exact Bool.noConfusion hwall
  have hhead := loop_dequeued_head st en sim.grid fuel hfuel
  have hclosed := (loop_final_closed st en sim.grid hp hwf hu fuel hfuel hne).2
  simp only [dijkstras_eq fuel sim st en hs he]
  rcases search_fresh st en sim.grid hp hwf hu fuel hfuel with ⟨_, hno⟩ | ⟨cur, ds, hf, _⟩
  · obtain ⟨k, hk⟩ := hroute
    exact absurd hk (hno k)
  · exact ⟨hf.found, hf.alerted, (hf.normal hne).1, hhead, hclosed⟩

/-- Witness of C11 on `startWallExample`: the cell (0, 0) under the start is a wall, the
end (0, 1) is one move away. -/
theorem dijkstras_start_wall_ignored_witness :
    (startWallExample.grid.nodes 0 0).isWall = true ∧
      (dijkstras 11 startWallExample).report.foundValidPath = true ∧
      (dijkstras 11 startWallExample).report.alerted = false ∧
      (dijkstras 11 startWallExample).report.completion = Completion.normal ∧
      (dijkstras 11 startWallExample).dequeued.head? = some NodeRef.startRef ∧
      (dijkstras 11 startWallExample).sim.grid.ClosedAround (0, 0) :=
  ⟨by decide,
    dijkstras_start_wall_ignored startWallExample (GridNode.new 0 0) (GridNode.new 1 0) 11 rfl
      rfl rfl startWallExample_fresh.1 startWallExample_fresh.2.1 (by decide) (by decide)
      ⟨1, Route.move Route.here (by decide) (by decide) (by decide)⟩ (by decide)⟩

/-! ## The start node and the grid cell under it; termination -/

theorem hist_loop (wfuel fuel : Nat) (st en : GridNode) (g : Grid) :
    Hist (Search.loop wfuel fuel (Search.start st en g)).1 :=
  Hist.at_point (Point.of_loop wfuel fuel _ Point.start) (Hist.at_search_start st en g)

theorem hist_frames (wfuel fuel : Nat) (st en : GridNode) (g : Grid) :
    Hist (frames wfuel fuel (Viz.start st en g)).search :=
  Hist.at_point (Point.of_frames wfuel fuel _ Point.start) (Hist.at_search_start st en g)

/-- Counterexample to C14 as stated, on `detourExample` (start (0, 0), end (0, 2)): the
click that chooses the start leaves the grid cell (0, 0) alone, and when the search begins
the start node is marked visited while that grid cell is not; the search later dequeues
the grid cell (0, 0), which has received the cell (1, 0) as predecessor, so that the
position (0, 0) is dequeued twice. -/
theorem start_cell_is_searched_too :
    (handleCanvasClick 0 0 (Simulation.init 3)).startNode = some (GridNode.new 0 0) ∧
      (handleCanvasClick 0 0 (Simulation.init 3)).grid.nodes 0 0 = GridNode.new 0 0 ∧
      (Search.start (GridNode.new 0 0) (GridNode.new 2 0) detourExample.grid).startNode.visited =
        true ∧
      ((Search.start (GridNode.new 0 0) (GridNode.new 2 0) detourExample.grid).grid.nodes
        0 0).visited = false ∧
      (dijkstras 11 detourExample).dequeued =
        [NodeRef.startRef, NodeRef.cellRef 1 0, NodeRef.cellRef 0 0, NodeRef.cellRef 2 0,
          NodeRef.cellRef 2 1, NodeRef.cellRef 2 2, NodeRef.cellRef 1 2, NodeRef.cellRef 0 2] ∧
      ((dijkstras 11 detourExample).sim.grid.nodes 0 0).prev = some (NodeRef.cellRef 1 0) ∧
      ((dijkstras 11 detourExample).dequeued.map (NodeRef.posIn (0, 0))).count (0, 0) = 2 := by
  decide

/-- C14, as amended: the start chosen by `handleCanvasClick` is a new node with the clicked
column and row, and the grid is left as it was; the search begins on that grid unchanged.
During a search, whatever the number of iterations or frames, no node is dequeued twice,
so that no grid position is dequeued more than once, except the start position, which is
dequeued at most twice: as the start node and as the grid cell there. -/
theorem start_node_is_not_grid_cell (sim : Simulation) (st en : GridNode) (fuel : Nat)
    (hs : sim.startNode = some st) (he : sim.endNode = some en) :
    (∀ (sim' : Simulation) (row col : Nat), sim'.startNode = none →
        handleCanvasClick row col sim' = { sim' with startNode := some (GridNode.new col row) }) ∧
      (Search.start st en sim.grid).grid = sim.grid ∧
      (dijkstras fuel sim).dequeued.Nodup ∧
      (∀ p : Nat × Nat, ((dijkstras fuel sim).dequeued.map (NodeRef.posIn st.pos)).count p ≤
        if p = st.pos then 2 else 1) ∧
      (dijkstras_visualization fuel sim).dequeued.Nodup ∧
      ∀ p : Nat × Nat,
        ((dijkstras_visualization fuel sim).dequeued.map (NodeRef.posIn st.pos)).count p ≤
          if p = st.pos then 2 else 1 := by
  have h1 : (dijkstras fuel sim).dequeued.Nodup := by
    rw [dijkstras_eq fuel sim st en hs he]
    exact (hist_loop fuel fuel st en sim.grid).nodup.of_append_left
  have h2 : (dijkstras_visualization fuel sim).dequeued.Nodup := by
    rw [dijkstras_visualization_eq fuel sim st en hs he]
    exact (hist_frames fuel fuel st en sim.grid).nodup.of_append_left
  refine ⟨?_, rfl, h1, fun p => count_posIn_le st.pos p h1, h2,
    fun p => count_posIn_le st.pos p h2⟩
  intro sim' row col hn
  simp [handleCanvasClick, hn]

/-- Witness of C14 as amended, on `detourExample`. -/
theorem start_node_is_not_grid_cell_witness :
    (dijkstras 11 detourExample).dequeued.Nodup ∧
      ∀ p : Nat × Nat, ((dijkstras 11 detourExample).dequeued.map (NodeRef.posIn (0, 0))).count p ≤
        if p = (0, 0) then 2 else 1 :=
  ⟨(start_node_is_not_grid_cell detourExample (GridNode.new 0 0) (GridNode.new 2 0) 11 rfl
      rfl).2.2.1,
    (start_node_is_not_grid_cell detourExample (GridNode.new 0 0) (GridNode.new 2 0) 11 rfl
      rfl).2.2.2.1⟩

/-- C18: the `while` loop of `dijkstras` terminates: with `rows * cols + 2` iterations
allowed the run does not come to the end of them.  Whatever the number of iterations, no
node has been put on the frontier twice, every cell put there is marked visited, and at
most `rows * cols + 1` nodes have been dequeued. -/
theorem dijkstras_loop_terminates (sim : Simulation) (st en : GridNode) (fuel : Nat)
    (hs : sim.startNode = some st) (he : sim.endNode = some en) (hp : st.prev = none)
    (hwf : sim.grid.WellFormed) (hfuel : sim.grid.rows * sim.grid.cols + 2 ≤ fuel) :
    (dijkstras fuel sim).report.completion ≠ Completion.outOfFuel ∧
      (dijkstras fuel sim).dequeued.length ≤ sim.grid.rows * sim.grid.cols + 1 ∧
      ∀ wfuel n,
        (Search.loop wfuel n (Search.start st en sim.grid)).1.visitOrder.Nodup ∧
          (∀ r c, NodeRef.cellRef r c ∈
              (Search.loop wfuel n (Search.start st en sim.grid)).1.visitOrder →
            ((Search.loop wfuel n (Search.start st en sim.grid)).1.grid.nodes r c).visited = true) ∧
          (Search.loop wfuel n (Search.start st en sim.grid)).1.dequeued.length ≤
            sim.grid.rows * sim.grid.cols + 1 := by
  have hlen : ∀ wfuel n, (Search.loop wfuel n (Search.start st en sim.grid)).1.dequeued.length ≤
      sim.grid.rows * sim.grid.cols + 1 := by
    intro wfuel n
    have h := (hist_loop wfuel n st en sim.grid).dequeued_length_le
    have hd := (Point.of_loop wfuel n (Search.start st en sim.grid) Point.start).same_dims
    rw [hd.1, hd.2] at h
    exact h
  refine ⟨?_, ?_, fun wfuel n => ⟨(hist_loop wfuel n st en sim.grid).nodup,
    fun r c hm => ((hist_loop wfuel n st en sim.grid).cells r c hm).2.2, hlen wfuel n⟩⟩
  · rw [dijkstras_eq fuel sim st en hs he]
    obtain ⟨s0, _, hres⟩ := search_general st en sim.grid hp hwf fuel hfuel
    rcases hres with ⟨_, hex⟩ | ⟨cur, rest, ds, _, _, _, hf⟩
    · simp only [hex]
      exact fun h => Completion.noConfusion h
    · by_cases hne : st.pos = en.pos
      · simp only [(hf.thrown hne).1]
        exact fun h => Completion.noConfusion h
      · simp only [(hf.normal hne).1]
        exact fun h => Completion.noConfusion h
  · rw [dijkstras_eq fuel sim st en hs he]
    exact hlen fuel fuel

/-- Witness of C18 on `detourExample`: eight nodes are dequeued, on a grid of nine cells. -/
theorem dijkstras_loop_terminates_witness :
    (dijkstras 11 detourExample).dequeued.length = 8 ∧
      (dijkstras 11 detourExample).report.completion ≠ Completion.outOfFuel ∧
      (dijkstras 11 detourExample).dequeued.length ≤ 3 * 3 + 1 :=
  ⟨by decide,
    (dijkstras_loop_terminates detourExample (GridNode.new 0 0) (GridNode.new 2 0) 11 rfl rfl rfl
      detourExample_fresh.1 (by decide)).1,
    (dijkstras_loop_terminates detourExample (GridNode.new 0 0) (GridNode.new 2 0) 11 rfl rfl rfl
      detourExample_fresh.1 (by decide)).2.1⟩

/-! ## The handlers -/

/-- C13: `reset` sets `startNode` and `endNode` to null and replaces the grid by a freshly
initialised one, every cell of which is non-wall, unvisited and without predecessor, while
`shouldVisualize` and `isDrawingWalls` stay as they were. -/
theorem reset_replaces_grid_keeps_flags (size : Nat) (sim : Simulation) :
    (CanvasDijkstra.reset size sim).startNode = none ∧
      (CanvasDijkstra.reset size sim).endNode = none ∧
      (CanvasDijkstra.reset size sim).grid = Grid.initialize size ∧
      (CanvasDijkstra.reset size sim).grid.rows = size ∧
      (CanvasDijkstra.reset size sim).grid.cols = size ∧
      (∀ r c, ((CanvasDijkstra.reset size sim).grid.nodes r c).isWall = false ∧
        ((CanvasDijkstra.reset size sim).grid.nodes r c).visited = false ∧
        ((CanvasDijkstra.reset size sim).grid.nodes r c).prev = none) ∧
      (CanvasDijkstra.reset size sim).shouldVisualize = sim.shouldVisualize ∧
      (CanvasDijkstra.reset size sim).isDrawingWalls = sim.isDrawingWalls :=
  ⟨rfl, rfl, rfl, rfl, rfl, fun _ _ => ⟨rfl, rfl, rfl⟩, rfl, rfl⟩

theorem handleCanvasClick_both_set (row col : Nat) (sim : Simulation)
    (hs : sim.startNode ≠ none) (he : sim.endNode ≠ none) :
    handleCanvasClick row col sim =
      { sim with
        grid := sim.grid.setNode row col
          { sim.grid.nodes row col with isWall := !(sim.grid.nodes row col).isWall } } := by
  have hs' : sim.startNode.isNone = false := by
    cases h : sim.startNode with
    | none => exact absurd h hs
    | some _ => rfl
  have he' : sim.endNode.isNone = false := by
    cases h : sim.endNode with
    | none => exact absurd h he
    | some _ => rfl
  unfold handleCanvasClick
  simp only [hs', he', Bool.false_eq_true, if_false, Grid.getNode]
  cases hw : (sim.grid.nodes row col).isWall <;> simp

theorem handleCanvasClick_grid_of_missing (row col : Nat) (sim : Simulation)
    (h : sim.startNode = none ∨ sim.endNode = none) :
    (handleCanvasClick row col sim).grid = sim.grid := by
  unfold handleCanvasClick
  by_cases hs : sim.startNode = none
  · simp [hs]
  · have he : sim.endNode = none := h.resolve_left hs
    have hs' : sim.startNode.isNone = false := by
      cases h' : sim.startNode with
      | none => exact absurd h' hs
      | some _ => rfl
    simp [hs', he]

/-- C16: from a state with no endpoints, the first `handleCanvasClick` sets only
`startNode`, to a node with the clicked column and row, and the second sets only
`endNode`, likewise (so neither changes a grid cell); a click changes the grid only when
both endpoints are set, and then it flips `isWall` of the clicked cell and changes nothing
else. -/
theorem handleCanvasClick_endpoints_then_walls (sim : Simulation) (r1 c1 r2 c2 : Nat)
    (h1 : sim.startNode = none) (h2 : sim.endNode = none) :
    handleCanvasClick r1 c1 sim = { sim with startNode := some (GridNode.new c1 r1) } ∧
      handleCanvasClick r2 c2 (handleCanvasClick r1 c1 sim) =
        { sim with startNode := some (GridNode.new c1 r1), endNode := some (GridNode.new c2 r2) } ∧
      (∀ (sim' : Simulation) (row col : Nat),
        (handleCanvasClick row col sim').grid ≠ sim'.grid →
          sim'.startNode ≠ none ∧ sim'.endNode ≠ none) ∧
      ∀ (sim' : Simulation) (row col : Nat), sim'.startNode ≠ none → sim'.endNode ≠ none →
        sim'.grid.InBounds (row, col) →
        (handleCanvasClick row col sim').startNode = sim'.startNode ∧
          (handleCanvasClick row col sim').endNode = sim'.endNode ∧
          (handleCanvasClick row col sim').grid.nodes row col =
            { sim'.grid.nodes row col with isWall := !(sim'.grid.nodes row col).isWall } ∧
          ∀ r c, (r, c) ≠ (row, col) →
            (handleCanvasClick row col sim').grid.nodes r c = sim'.grid.nodes r c := by
  refine ⟨?_, ?_, ?_, ?_⟩
  · simp [handleCanvasClick, h1]
  · simp [handleCanvasClick, h1, h2]
  · intro sim' row col hne
    by_contra hcon
    apply hne
    apply handleCanvasClick_grid_of_missing
    by_cases hs : sim'.startNode = none
    · exact Or.inl hs
    · by_cases he : sim'.endNode = none
      · exact Or.inr he
      · exact absurd ⟨hs, he⟩ hcon
  · intro sim' row col hs he _
    rw [handleCanvasClick_both_set row col sim' hs he]
    refine ⟨rfl, rfl, ?_, ?_⟩
    · simp [Grid.setNode]
    · intro r c hrc
      have : ¬ (r = row ∧ c = col) := fun h => hrc (by rw [h.1, h.2])
      simp [Grid.setNode, this]

/-- Witness of C16: the first two clicks on a new 3 x 3 component. -/
theorem handleCanvasClick_endpoints_then_walls_witness :
    handleCanvasClick 0 1 (handleCanvasClick 2 0 (Simulation.init 3)) =
      { Simulation.init 3 with
        startNode := some (GridNode.new 0 2), endNode := some (GridNode.new 1 0) } :=
  (handleCanvasClick_endpoints_then_walls (Simulation.init 3) 2 0 0 1 rfl rfl).2.1

/-- C17: with both endpoints set, `handleCanvasClick` on an in-bounds cell flips that
cell's `isWall` and leaves the endpoints alone, and a second click on the same cell gives
back the component as it was: the toggle is an involution. -/
theorem handleCanvasClick_toggle_involution (sim : Simulation) (row col : Nat)
    (hs : sim.startNode ≠ none) (he : sim.endNode ≠ none)
    (_hb : sim.grid.InBounds (row, col)) :
    ((handleCanvasClick row col sim).grid.nodes row col).isWall =
        !(sim.grid.nodes row col).isWall ∧
      (handleCanvasClick row col sim).startNode = sim.startNode ∧
      (handleCanvasClick row col sim).endNode = sim.endNode ∧
      handleCanvasClick row col (handleCanvasClick row col sim) = sim := by
  have h1 := handleCanvasClick_both_set row col sim hs he
  have hs1 : (handleCanvasClick row col sim).startNode ≠ none := by rw [h1]; exact hs
  have he1 : (handleCanvasClick row col sim).endNode ≠ none := by rw [h1]; exact he
  have h2 := handleCanvasClick_both_set row col _ hs1 he1
  refine ⟨?_, by rw [h1], by rw [h1], ?_⟩
  · rw [h1]; simp [Grid.setNode]
  · rw [h2, h1]
    cases sim with
    | mk dw sv sn en g =>
      cases g with
      | mk rows cols nodes =>
        simp only [Grid.setNode, Simulation.mk.injEq, Grid.mk.injEq, true_and]
        funext r c
        by_cases hrc : r = row ∧ c = col
        · obtain ⟨rfl, rfl⟩ := hrc
          simp
        · simp [hrc]

/-- Witness of C17 on `startWallExample`, at the cell (1, 1). -/
theorem handleCanvasClick_toggle_involution_witness :
    ((handleCanvasClick 1 1 startWallExample).grid.nodes 1 1).isWall =
        !(startWallExample.grid.nodes 1 1).isWall ∧
      (handleCanvasClick 1 1 startWallExample).startNode = startWallExample.startNode ∧
      (handleCanvasClick 1 1 startWallExample).endNode = startWallExample.endNode ∧
      handleCanvasClick 1 1 (handleCanvasClick 1 1 startWallExample) = startWallExample :=
  handleCanvasClick_toggle_involution startWallExample 1 1 (by decide) (by decide) (by decide)

theorem Simulation.EndpointsFirst.after_click {sim : Simulation} (h : sim.EndpointsFirst)
    (row col : Nat) : (handleCanvasClick row col sim).EndpointsFirst := by
  by_cases hs : sim.startNode = none
  · have he : sim.endNode = none := by
      by_contra hne
      exact h.1 hne hs
    have heq : handleCanvasClick row col sim =
        { sim with startNode := some (GridNode.new col row) } := by
      simp [handleCanvasClick, hs]
    rw [heq]
    refine ⟨fun _ => by simp, ?_⟩
    intro r c hw
    exact absurd hs (h.2 r c hw).1
  · by_cases he : sim.endNode = none
    · have hs' : sim.startNode.isNone = false := by
        cases h' : sim.startNode with
        | none => exact absurd h' hs
        | some _ => rfl
      have heq : handleCanvasClick row col sim =
          { sim with endNode := some (GridNode.new col row) } := by
        simp [handleCanvasClick, hs', he]
      rw [heq]
      refine ⟨fun _ => hs, ?_⟩
      intro r c hw
      exact absurd he (h.2 r c hw).2
    · rw [handleCanvasClick_both_set row col sim hs he]
      exact ⟨fun _ => hs, fun _ _ _ => ⟨hs, he⟩⟩

theorem handleCanvasDrawWall_idle (row col : Nat) (sim : Simulation)
    (h : sim.startNode = none ∨ sim.endNode = none ∨ sim.isDrawingWalls = false) :
    handleCanvasDrawWall row col sim = sim := by
  unfold handleCanvasDrawWall
  rcases h with h | h | h
  · simp [h]
  · simp [h]
  · simp [h]

theorem Simulation.EndpointsFirst.after_drawWall {sim : Simulation} (h : sim.EndpointsFirst)
    (row col : Nat) : (handleCanvasDrawWall row col sim).EndpointsFirst := by
  by_cases hs : sim.startNode = none
  · rw [handleCanvasDrawWall_idle row col sim (Or.inl hs)]; exact h
  · by_cases he : sim.endNode = none
    · rw [handleCanvasDrawWall_idle row col sim (Or.inr (Or.inl he))]; exact h
    · unfold handleCanvasDrawWall
      split
      · exact h
      · exact ⟨fun _ => hs, fun _ _ _ => ⟨hs, he⟩⟩

theorem Simulation.EndpointsFirst.after_edit {sim : Simulation} (h : sim.EndpointsFirst)
    (size : Nat) (e : Edit) : (e.apply size sim).EndpointsFirst := by
  cases e with
  | click row col => exact h.after_click row col
  | drawWall row col => exact h.after_drawWall row col
  | reset =>
    refine ⟨fun hne => absurd rfl hne, ?_⟩
    intro r c hw
    exact Bool.noConfusion hw
  | setIsDrawingWalls b => exact h
  | setShouldVisualize b => exact h

theorem Simulation.endpointsFirst_foldl (size : Nat) (edits : List Edit) :
    ∀ sim : Simulation, sim.EndpointsFirst → (edits.foldl (Edit.apply size) sim).EndpointsFirst := by
  induction edits with
  | nil => intro sim h; exact h
  | cons e es ih => intro sim h; exact ih _ (h.after_edit size e)

/-- C20: in every state reached from `initialize` through `handleCanvasClick`,
`handleCanvasDrawWall` and `reset` calls (and writes to the two flags), `endNode` set
implies `startNode` set, and a wall anywhere in the grid implies that both are set;
`handleCanvasDrawWall` changes nothing unless both endpoints are set and `isDrawingWalls`
is true. -/
theorem endpoints_before_walls (size : Nat) (edits : List Edit) :
    ((Simulation.afterEdits size edits).endNode ≠ none →
        (Simulation.afterEdits size edits).startNode ≠ none) ∧
      (∀ r c, ((Simulation.afterEdits size edits).grid.nodes r c).isWall = true →
        (Simulation.afterEdits size edits).startNode ≠ none ∧
          (Simulation.afterEdits size edits).endNode ≠ none) ∧
      ∀ (sim : Simulation) (row col : Nat),
        sim.startNode = none ∨ sim.endNode = none ∨ sim.isDrawingWalls = false →
          handleCanvasDrawWall row col sim = sim := by
  have h0 : (Simulation.init size).EndpointsFirst := by
    refine ⟨fun hne => absurd rfl hne, ?_⟩
    intro r c hw
    exact Bool.noConfusion hw
  have h := Simulation.endpointsFirst_foldl size edits _ h0
  exact ⟨h.1, h.2, fun sim row col hh => handleCanvasDrawWall_idle row col sim hh⟩

/-! ## The frames of the step-wise run -/

theorem Viz.Safe.after_update {v : Viz} (h : v.Safe) (hs : v.scheduled = true) (wfuel : Nat) :
    (update wfuel v).Safe := by
  have hne := h.frontier hs
  have hnf := h.not_found hs
  unfold CanvasDijkstra.update
  split
  · rename_i hq
    exact absurd hq hne
  · simp only
    split
    · split
      · exact ⟨fun hh => Bool.noConfusion hh, fun hh => Bool.noConfusion hh,
          fun hh => Completion.noConfusion hh⟩
      · exact ⟨fun hh => Bool.noConfusion hh, fun hh => Bool.noConfusion hh,
          fun hh => Completion.noConfusion hh⟩
    · split
      · exact ⟨fun hh => Bool.noConfusion hh, fun hh => Bool.noConfusion hh,
          fun hh => Completion.noConfusion hh⟩
      · rename_i hemp
        refine ⟨fun _ hq => hemp ?_, fun _ => hnf, h.no_error⟩
        rw [hq]; rfl

theorem Viz.Safe.after_frames (wfuel : Nat) : ∀ (fuel : Nat) (v : Viz), v.Safe →
    (frames wfuel fuel v).Safe := by
  intro fuel
  induction fuel with
  | zero =>
    intro v h
    unfold CanvasDijkstra.frames
    split
    · exact ⟨h.frontier, h.not_found, fun hh => Completion.noConfusion hh⟩
    · exact h
  | succ fuel ih =>
    intro v h
    unfold CanvasDijkstra.frames
    split
    · rename_i hs
      exact ih _ (h.after_update hs wfuel)
    · exact h

theorem Viz.safe_start (st en : GridNode) (g : Grid) : (Viz.start st en g).Safe :=
  ⟨fun _ h => List.noConfusion h, fun _ => rfl, fun h => Completion.noConfusion h⟩

/-- C19: in `dijkstras_visualization`, after any number of frames, `update` is scheduled
only while the frontier is non-empty and the end has not been found, so no call of
`update` finds `unvisited.shift()` undefined (no `TypeError` is raised): once the end is
found or the frontier is empty, nothing is scheduled. -/
theorem update_scheduled_only_with_frontier (wfuel n : Nat) (st en : GridNode) (g : Grid) :
    ((frames wfuel n (Viz.start st en g)).scheduled = true →
        (frames wfuel n (Viz.start st en g)).search.unvisited ≠ []) ∧
      (frames wfuel n (Viz.start st en g)).report.completion ≠ Completion.typeError ∧
      ((frames wfuel n (Viz.start st en g)).report.foundValidPath = true →
        (frames wfuel n (Viz.start st en g)).scheduled = false) ∧
      ((frames wfuel n (Viz.start st en g)).search.unvisited = [] →
        (frames wfuel n (Viz.start st en g)).scheduled = false) ∧
      ∀ (sim : Simulation) (fuel : Nat), sim.startNode ≠ none → sim.endNode ≠ none →
        (dijkstras_visualization fuel sim).report.completion ≠ Completion.typeError := by
  have h := Viz.Safe.after_frames wfuel n _ (Viz.safe_start st en g)
  refine ⟨h.frontier, h.no_error, ?_, ?_, ?_⟩
  · intro hf
    cases hs : (frames wfuel n (Viz.start st en g)).scheduled with
    | false => rfl
    | true =>
      have := h.not_found hs
      rw [hf] at this
      exact Bool.noConfusion this
  · intro hq
    cases hs : (frames wfuel n (Viz.start st en g)).scheduled with
    | false => rfl
    | true => exact absurd hq (h.frontier hs)
  · intro sim fuel hs he
    cases hst : sim.startNode with
    | none => exact absurd hst hs
    | some st' =>
      cases hen : sim.endNode with
      | none => exact absurd hen he
      | some en' =>
        rw [dijkstras_visualization_eq fuel sim st' en' hst hen]
        exact (Viz.Safe.after_frames fuel fuel _ (Viz.safe_start st' en' sim.grid)).no_error

/-- C15, the defect: the call of `update` that dequeues the end `cur` does not stop there.
After the walk along `prev` it runs the `for` loop, so that a neighbour `p` of the end
that is neither wall nor visited is marked visited, gets `cur` as `prev` and is put on the
frontier, although nothing is scheduled afterwards; the loop of `dijkstras`, in the same
state, leaves the cell at `p` as it was. -/
theorem update_expands_end_neighbours (wfuel fuel : Nat) (s : Search) (r : Report)
    (cur : NodeRef) (rest ds : List NodeRef) (p : Nat × Nat)
    (hq : s.unvisited = cur :: rest) (hd : s.Disc cur) (hend : (s.node cur).pos = s.endNode.pos)
    (hw : walkPrev (dequeue s cur rest) wfuel cur = some ds) (hn : s.News cur p) :
    (update wfuel { search := s, scheduled := true, report := r }).report = Report.vizFound ds ∧
      (update wfuel { search := s, scheduled := true, report := r }).scheduled = false ∧
      (s.grid.nodes p.1 p.2).visited = false ∧
      (update wfuel { search := s, scheduled := true, report := r }).search.grid.nodes p.1 p.2 =
        { s.grid.nodes p.1 p.2 with visited := true, prev := some cur } ∧
      NodeRef.cellRef p.1 p.2 ∈
        (update wfuel { search := s, scheduled := true, report := r }).search.unvisited ∧
      (Search.loop wfuel (fuel + 1) s).1.grid.nodes p.1 p.2 = s.grid.nodes p.1 p.2 := by
  have hst := stepFrom_expand s cur rest hd
  rw [update_found wfuel s r hq hend hw, loop_found wfuel fuel s hq hend]
  refine ⟨rfl, rfl, hn.spec.2.2.2, ?_, ?_, ?_⟩
  · show (expand cur (dequeue s cur rest)).grid.nodes p.1 p.2 = _
    rw [hst.nodes p.1 p.2, if_pos hn]
  · show _ ∈ (expand cur (dequeue s cur rest)).unvisited
    exact (hst.mem_unvisited _).mpr (Or.inr ⟨p, hn, rfl⟩)
  · show (dequeue s cur rest).grid.nodes p.1 p.2 = _
    rw [dequeue_grid s cur rest hd]

/-- Witness of C15 on `twoCellExample` (start (0, 0), end (0, 1)): the third frame
dequeues the end cell and then marks the cell (0, 2). -/
theorem update_expands_end_neighbours_witness :
    ((dijkstras_visualization 11 twoCellExample).sim.grid.nodes 0 2).visited = true ∧
      ((dijkstras 11 twoCellExample).sim.grid.nodes 0 2).visited = false ∧
      (frames 11 2 (Viz.start (GridNode.new 0 0) (GridNode.new 1 0) twoCellExample.grid)).scheduled =
        true ∧
      (update 11 { search := (frames 11 2 (Viz.start (GridNode.new 0 0) (GridNode.new 1 0)
            twoCellExample.grid)).search, scheduled := true, report := Report.none }).search.grid.nodes
          0 2 =
        { x := 2, y := 0, isWall := false, visited := true, prev := some (NodeRef.cellRef 0 1) } ∧
      (Search.loop 11 1 (frames 11 2 (Viz.start (GridNode.new 0 0) (GridNode.new 1 0)
          twoCellExample.grid)).search).1.grid.nodes 0 2 =
        { x := 2, y := 0, isWall := false, visited := false, prev := none } :=
  ⟨by decide, by decide, by decide,
    (update_expands_end_neighbours 11 0
      (frames 11 2 (Viz.start (GridNode.new 0 0) (GridNode.new 1 0) twoCellExample.grid)).search
      Report.none (NodeRef.cellRef 0 1)
      [NodeRef.cellRef 0 0, NodeRef.cellRef 2 0, NodeRef.cellRef 1 1] [NodeRef.cellRef 0 1] (0, 2)
      (by decide) ⟨by decide, by decide, by decide⟩ (by decide) (by decide) (by decide)).2.2.2.1,
    (update_expands_end_neighbours 11 0
      (frames 11 2 (Viz.start (GridNode.new 0 0) (GridNode.new 1 0) twoCellExample.grid)).search
      Report.none (NodeRef.cellRef 0 1)
      [NodeRef.cellRef 0 0, NodeRef.cellRef 2 0, NodeRef.cellRef 1 1] [NodeRef.cellRef 0 1] (0, 2)
      (by decide) ⟨by decide, by decide, by decide⟩ (by decide) (by decide) (by decide)).2.2.2.2.2⟩

end CanvasDijkstra
